import Mathlib

/-!
Verification of the flowly flow-graph assembly engine.

The definitions below are a shallow embedding of `flowly/core/ir.py` and of
the flow builder in `flowly/frontend/dsl.py`.  Python uuid identifiers are
modelled as opaque natural numbers handed out by a counter; Python dicts
keyed by id are modelled as insertion-ordered lists with unique ids; raising
a `ValueError`/`RuntimeError` is modelled by an `Except` result paired with
the state at the raise point (all raises in the embedded code happen before
any mutation, so that state is the unchanged input).
-/

namespace Flowly

/-- Node discriminants mirroring the `Node` subclasses of `flowly/core/ir.py`
(`StartNode`, `EndNode`, `ProcessNode`, `DecisionNode`, `SubFlowNode`).
`SubFlowNode` carries its nullable `target_chart_id`. -/
inductive NodeKind where
  | startNode
  | endNode
  | processNode
  | decisionNode
  | subFlowNode (targetChartId : Option Nat)
  deriving Repr, DecidableEq

/-- `flowly.core.ir.Node`: id, display label and open metadata map, with the
runtime class discriminant made explicit as `kind`. -/
structure Node where
  id : Nat
  kind : NodeKind
  label : String
  metadata : List (String × String)
  deriving Repr, DecidableEq

/-- `flowly.core.ir.Edge`: source id, target id, optional label, optional
condition string, metadata map. -/
structure Edge where
  source_id : Nat
  target_id : Nat
  label : Option String
  condition : Option String
  metadata : List (String × String)
  deriving Repr, DecidableEq

/-- The fatal error classes raised by the embedded code (plain `ValueError`
and `RuntimeError` in the source, distinguished here by what they report). -/
inductive Err where
  | duplicateNodeId (id : Nat)
  | danglingSource (id : Nat)
  | danglingTarget (id : Nat)
  | duplicateChartId (id : Nat)
  | sourceChartNotFound (id : Nat)
  | targetChartNotFound (id : Nat)
  | sourceNodeNotFound (id : Nat)
  | missingLoopContext
  | flowNotBuilt
  deriving Repr, DecidableEq

/-- `flowly.core.ir.FlowChart`: id, name, insertion-ordered id-unique node
map, insertion-ordered edge list, metadata. -/
structure FlowChart where
  id : Nat
  name : String
  nodes : List Node
  edges : List Edge
  metadata : List (String × String)
  deriving Repr, DecidableEq

namespace FlowChart

/-- `FlowChart.get_node`: dictionary lookup, i.e. the unique entry carrying
the id (the first one in list order). -/
def get_node (c : FlowChart) (nid : Nat) : Option Node :=
  c.nodes.find? (fun n => n.id == nid)

/-- `FlowChart.add_node`.  The pair holds the chart state after the call
together with the result; a raise leaves the chart untouched. -/
def add_node (c : FlowChart) (n : Node) : FlowChart × Except Err Node :=
  if (c.get_node n.id).isSome then
    (c, .error (.duplicateNodeId n.id))
  else
    ({ c with nodes := c.nodes ++ [n] }, .ok n)

/-- The duplicate test of `FlowChart.add_edge`: only source id, target id and
label take part in the comparison (condition and metadata are ignored). -/
def sameTriple (a b : Edge) : Bool :=
  a.source_id == b.source_id && a.target_id == b.target_id && a.label == b.label

/-- `FlowChart.add_edge`: raise on an absent endpoint, return the existing
edge unchanged on a duplicate (source, target, label) triple, append
otherwise. -/
def add_edge (c : FlowChart) (e : Edge) : FlowChart × Except Err Edge :=
  if (c.get_node e.source_id).isNone then
    (c, .error (.danglingSource e.source_id))
  else if (c.get_node e.target_id).isNone then
    (c, .error (.danglingTarget e.target_id))
  else
    match c.edges.find? (fun ex => sameTriple ex e) with
    | some ex => (c, .ok ex)
    | none => ({ c with edges := c.edges ++ [e] }, .ok e)

/-- Number of stored edges sharing the (source, target, label) triple of `e`. -/
def countTriple (c : FlowChart) (e : Edge) : Nat :=
  (c.edges.filter (fun ex => sameTriple ex e)).length

end FlowChart

/-- `flowly.core.ir.MultiFlowChart`: name, insertion-ordered id-unique chart
map, designated main chart id. -/
structure MultiFlowChart where
  name : String
  charts : List FlowChart
  main_chart_id : Option Nat
  deriving Repr, DecidableEq

namespace MultiFlowChart

/-- `MultiFlowChart.get_chart`. -/
def get_chart (m : MultiFlowChart) (cid : Nat) : Option FlowChart :=
  m.charts.find? (fun c => c.id == cid)

/-- `MultiFlowChart.add_chart`: raise on a duplicate chart id, otherwise
insert, and designate the chart as main if `is_main` is set or no main chart
has been designated yet. -/
def add_chart (m : MultiFlowChart) (c : FlowChart) (is_main : Bool) :
    MultiFlowChart × Except Err FlowChart :=
  if (m.get_chart c.id).isSome then
    (m, .error (.duplicateChartId c.id))
  else
    ({ m with
        charts := m.charts ++ [c],
        main_chart_id :=
          if is_main || m.main_chart_id.isNone then some c.id else m.main_chart_id },
     .ok c)

/-- `MultiFlowChart.get_main_chart`. -/
def get_main_chart (m : MultiFlowChart) : Option FlowChart :=
  match m.main_chart_id with
  | some cid => m.get_chart cid
  | none => none

end MultiFlowChart

/-- Python truthiness of an `Optional[str]` value: `None` and the empty
string are falsy. -/
def optStrTruthy : Option String → Bool
  | none => false
  | some s => s != ""

/-- The node stored back by `MultiFlowChart.link_charts`: an existing
`SubFlowNode` has its target updated (and its label, when a truthy label is
supplied); any other node is replaced by a `SubFlowNode` with the same id and
metadata and with `label or source_node.label` as label. -/
def linkedNode (sn : Node) (tcid : Nat) (label : Option String) : Node :=
  match sn.kind with
  | .subFlowNode _ =>
      { sn with
          kind := .subFlowNode (some tcid),
          label := if optStrTruthy label then label.getD sn.label else sn.label }
  | _ =>
      { id := sn.id,
        kind := .subFlowNode (some tcid),
        label := if optStrTruthy label then label.getD sn.label else sn.label,
        metadata := sn.metadata }

namespace MultiFlowChart

/-- `MultiFlowChart.link_charts`: after validating that the source chart, the
target chart and the source node exist, convert the source node in place into
a `SubFlowNode` pointing at the target chart. -/
def link_charts (m : MultiFlowChart) (source_chart_id source_node_id target_chart_id : Nat)
    (label : Option String) : MultiFlowChart × Except Err Unit :=
  match m.get_chart source_chart_id with
  | none => (m, .error (.sourceChartNotFound source_chart_id))
  | some sc =>
    if (m.get_chart target_chart_id).isNone then
      (m, .error (.targetChartNotFound target_chart_id))
    else
      match sc.get_node source_node_id with
      | none => (m, .error (.sourceNodeNotFound source_node_id))
      | some _ =>
        let sc2 : FlowChart :=
          { sc with
              nodes := sc.nodes.map (fun n =>
                if n.id == source_node_id then linkedNode n target_chart_id label else n) }
        ({ m with
            charts := m.charts.map (fun c => if c.id == source_chart_id then sc2 else c) },
         .ok ())

end MultiFlowChart

/-- A sequence of `add_chart` calls, aborting at the first raise. -/
def addChartSeq (m : MultiFlowChart) (l : List (FlowChart × Bool)) :
    Except Err MultiFlowChart :=
  l.foldlM (fun m cb =>
    match m.add_chart cb.1 cb.2 with
    | (m2, .ok _) => .ok m2
    | (_, .error err) => .error err) m

/-- The designation described by the spec: the most recently added chart with
`is_main = true`, or, failing that, the first chart added. -/
def expectedMain (l : List (FlowChart × Bool)) : Option Nat :=
  ((l.filter (fun cb => cb.2)).getLast?.map (fun cb => cb.1.id)).or
    (l.head?.map (fun cb => cb.1.id))

/-! ### Shared-node resolution (`NodeDef` in `flowly/frontend/dsl.py`) -/

/-- Edges leaving node `nid` (the outgoing-edge scan in
`NodeDef._get_node_for_target`). -/
def outgoing (c : FlowChart) (nid : Nat) : List Edge :=
  c.edges.filter (fun e => e.source_id == nid)

/-- Edges entering node `nid`. -/
def incoming (c : FlowChart) (nid : Nat) : List Edge :=
  c.edges.filter (fun e => e.target_id == nid)

/-- State of one shared `NodeDef` during a build: the chart plus the ordered
list of concrete instance ids created so far (`NodeDef._ir_nodes`), and the
fresh-id counter standing in for uuid generation. -/
structure DefState where
  chart : FlowChart
  irNodes : List Nat
  ctr : Nat
  deriving Repr, DecidableEq

/-- The scan loop of `NodeDef._get_node_for_target`: return the first
instance with no outgoing edge yet, or with an outgoing edge to the desired
target already. -/
def scanInstances (c : FlowChart) (target : Nat) : List Nat → Option Nat
  | [] => none
  | n :: rest =>
    let out := outgoing c n
    if out.isEmpty then some n
    else if out.any (fun e => e.target_id == target) then some n
    else scanInstances c target rest

/-- `NodeDef._create_new_node`: add a fresh `ProcessNode` to the chart and
register it as the most recent instance (the uuid is fresh, so `add_node`
amounts to an append). -/
def createInstance (label : String) (s : DefState) : DefState × Nat :=
  (⟨{ s.chart with nodes := s.chart.nodes ++ [⟨s.ctr, .processNode, label, []⟩] },
    s.irNodes ++ [s.ctr], s.ctr + 1⟩, s.ctr)

/-- `NodeDef._get_node_for_target`: scan the instances in creation order and
otherwise create and register a new instance. -/
def getNodeForTarget (label : String) (target : Nat) (s : DefState) : DefState × Nat :=
  match scanInstances s.chart target s.irNodes with
  | some n => (s, n)
  | none => createInstance label s

/-- `NodeDef._get_or_create_node`: the most recent instance, or a fresh first
instance. -/
def getOrCreate (label : String) (s : DefState) : DefState × Nat :=
  match s.irNodes.getLast? with
  | some n => (s, n)
  | none => createInstance label s

/-- `add_edge` as used by the builder: keep the updated chart, propagate a
raise. -/
def addEdgeE (c : FlowChart) (e : Edge) : Except Err FlowChart :=
  match c.add_edge e with
  | (c2, .ok _) => .ok c2
  | (_, .error err) => .error err

/-- One call site of a shared `NodeDef` followed by its next step: `d()` runs
`FlowContext._add_process_node` (most recent instance or fresh first
instance, then the incoming frontier entry `(prev, None)` is connected to
it), and the following construct `target` consumes the frontier entry
`(d, None)` through `NodeDef._get_node_for_target`. -/
def invokeSite (label : String) (prev target : Nat) (s : DefState) : Except Err DefState := do
  let (s, cur) := getOrCreate label s
  let c ← addEdgeE s.chart ⟨prev, cur, none, none, []⟩
  let s : DefState := ⟨c, s.irNodes, s.ctr⟩
  let (s, res) := getNodeForTarget label target s
  let c2 ← addEdgeE s.chart ⟨res, target, none, none, []⟩
  return ⟨c2, s.irNodes, s.ctr⟩

/-- A sequence of call sites `(prev, target)` of one shared `NodeDef`. -/
def runSites (label : String) (sites : List (Nat × Nat)) (s : DefState) :
    Except Err DefState :=
  sites.foldlM (fun s pt => invokeSite label pt.1 pt.2 s) s

/-- Invariant of the shared-node driver between call sites with pairwise
distinct targets: `used` lists the targets already consumed; every instance
carries exactly one outgoing edge, to its own target. -/
structure InvB (c0 : FlowChart) (ctr0 : Nat) (label : String) (used : List Nat)
    (s : DefState) : Prop where
  nodes_eq : ∃ tn, s.chart.nodes = c0.nodes ++ tn ∧ ∀ n ∈ tn, ctr0 ≤ n.id ∧ n.id < s.ctr
  ctr_le : ctr0 ≤ s.ctr
  src_lt : ∀ e ∈ s.chart.edges, e.source_id < s.ctr
  tgt_lt : ∀ e ∈ s.chart.edges, e.target_id < s.ctr
  ir_range : ∀ i ∈ s.irNodes, ctr0 ≤ i ∧ i < s.ctr
  ir_mem : ∀ i ∈ s.irNodes, (s.chart.get_node i).isSome = true
  ir_out : ∀ i ∈ s.irNodes, ∃ u ∈ used, outgoing s.chart i = [⟨i, u, none, none, []⟩]
  len_eq : s.irNodes.length = used.length

/-- Invariant of the shared-node driver when every call site has the same
target `t`: a single instance `ctr0` exists, with one outgoing edge to `t`
and one incoming edge per processed predecessor. -/
structure InvC (c0 : FlowChart) (ctr0 : Nat) (label : String) (t : Nat)
    (usedPrevs : List Nat) (s : DefState) : Prop where
  nodes_eq : s.chart.nodes = c0.nodes ++ [⟨ctr0, .processNode, label, []⟩]
  ir_eq : s.irNodes = [ctr0]
  ctr_eq : s.ctr = ctr0 + 1
  out_eq : outgoing s.chart ctr0 = [⟨ctr0, t, none, none, []⟩]
  in_len : (incoming s.chart ctr0).length = usedPrevs.length
  in_src : ∀ e ∈ s.chart.edges, e.target_id = ctr0 → e.source_id ∈ usedPrevs

/-! ### The flow builder (`FlowBuilder._process_statement` and friends) -/

/-- The statement forms handled by `FlowBuilder._process_statement` in
`flowly/frontend/dsl.py`.  Decisions are modelled inline (each `ifS`/`whileS`
carries a fresh decision, as a `flow.decision(...)` call does); `ret` is a
bare `return`; `whileTrueS` is `while True`. -/
inductive Stmt where
  | step (label : String)
  | endS (label : String)
  | ret
  | passS
  | brk
  | cont
  | ifS (q : String) (yes no : String) (negated : Bool) (body orelse : List Stmt)
  | whileS (q : String) (yes no : String) (negated : Bool) (body : List Stmt)
  | whileTrueS (body : List Stmt)

/-- An entry of `FlowContext._exits`: a dangling exit (node id, pending edge
label). -/
abbrev ExitEntry := Nat × Option String

/-- Builder state: the chart under construction, the dangling-exit frontier,
the loop-context stack (loop-head node id, accumulated break exits), and the
fresh-id counter standing in for uuid generation. -/
structure BCtx where
  chart : FlowChart
  exits : List ExitEntry
  loopStack : List (Nat × List ExitEntry)
  ctr : Nat
  deriving Repr, DecidableEq

/-- `add_node` as used by the builder: keep the updated chart, propagate a
raise. -/
def addNodeE (c : FlowChart) (n : Node) : Except Err FlowChart :=
  match c.add_node n with
  | (c2, .ok _) => .ok c2
  | (_, .error err) => .error err

/-- `FlowContext._connect_exits_to_target`: one edge per frontier entry,
labelled by the entry. -/
def connectExits (exits : List ExitEntry) (target : Nat) (c : FlowChart) :
    Except Err FlowChart :=
  exits.foldlM (fun c nl => addEdgeE c ⟨nl.1, target, nl.2, none, []⟩) c

/-- The post-body loop of `_process_while`: a back-edge (with no label) from
every remaining frontier entry to the loop head. -/
def backEdges (exits : List ExitEntry) (head : Nat) (c : FlowChart) :
    Except Err FlowChart :=
  exits.foldlM (fun c nl => addEdgeE c ⟨nl.1, head, none, none, []⟩) c

mutual

/-- `FlowBuilder._process_statement`: the step/end/return/pass/break/continue
/if/while cases of the statement walker, with the frontier and loop-stack
management of `FlowContext`. -/
def runStmt : Stmt → BCtx → Except Err BCtx
  | .step label, ctx => do
      let c ← addNodeE ctx.chart ⟨ctx.ctr, .processNode, label, []⟩
      let c ← connectExits ctx.exits ctx.ctr c
      .ok ⟨c, [(ctx.ctr, none)], ctx.loopStack, ctx.ctr + 1⟩
  | .endS label, ctx => do
      let c ← addNodeE ctx.chart ⟨ctx.ctr, .endNode, label, []⟩
      let c ← connectExits ctx.exits ctx.ctr c
      .ok ⟨c, [], ctx.loopStack, ctx.ctr + 1⟩
  | .ret, ctx => .ok ⟨ctx.chart, [], ctx.loopStack, ctx.ctr⟩
  | .passS, ctx => .ok ctx
  | .brk, ctx =>
      match ctx.loopStack with
      | [] => .error .missingLoopContext
      | (h, acc) :: ls =>
          .ok ⟨ctx.chart, [], (h, acc ++ ctx.exits) :: ls, ctx.ctr⟩
  | .cont, ctx =>
      match ctx.loopStack with
      | [] => .error .missingLoopContext
      | (h, _) :: _ => do
          let c ← connectExits ctx.exits h ctx.chart
          .ok ⟨c, [], ctx.loopStack, ctx.ctr⟩
  | .ifS q yes no neg body orelse, ctx => do
      let d := ctx.ctr
      let c ← addNodeE ctx.chart ⟨d, .decisionNode, q, []⟩
      let c ← connectExits ctx.exits d c
      let bodyL := if neg then no else yes
      let elseL := if neg then yes else no
      let mid ← runStmts body ⟨c, [(d, some bodyL)], ctx.loopStack, d + 1⟩
      match orelse with
      | [] =>
          .ok ⟨mid.chart, mid.exits ++ [(d, some elseL)], mid.loopStack, mid.ctr⟩
      | _ => do
          let mid2 ← runStmts orelse ⟨mid.chart, [(d, some elseL)], mid.loopStack, mid.ctr⟩
          .ok ⟨mid2.chart, mid.exits ++ mid2.exits, mid2.loopStack, mid2.ctr⟩
  | .whileS q yes no neg body, ctx => do
      let d := ctx.ctr
      let c ← addNodeE ctx.chart ⟨d, .decisionNode, q, []⟩
      let c ← connectExits ctx.exits d c
      let bodyL := if neg then no else yes
      let exitL := if neg then yes else no
      let mid ← runStmts body ⟨c, [(d, some bodyL)], (d, []) :: ctx.loopStack, d + 1⟩
      let c2 ← backEdges mid.exits d mid.chart
      match mid.loopStack with
      | [] => .error .missingLoopContext
      | (_, brks) :: ls =>
          .ok ⟨c2, (d, some exitL) :: brks, ls, mid.ctr⟩
  | .whileTrueS body, ctx => do
      let a := ctx.ctr
      let c ← addNodeE ctx.chart ⟨a, .processNode, "(loop)", []⟩
      let c ← connectExits ctx.exits a c
      let mid ← runStmts body ⟨c, [(a, none)], (a, []) :: ctx.loopStack, a + 1⟩
      let c2 ← backEdges mid.exits a mid.chart
      match mid.loopStack with
      | [] => .error .missingLoopContext
      | (_, brks) :: ls =>
          .ok ⟨c2, brks, ls, mid.ctr⟩

/-- `FlowBuilder._process_statements`. -/
def runStmts : List Stmt → BCtx → Except Err BCtx
  | [], ctx => .ok ctx
  | st :: rest, ctx => do
      let ctx2 ← runStmt st ctx
      runStmts rest ctx2

end

/-- `FlowBuilder._build` restricted to this statement language: a chart with
a start node labelled by the flow name, the statement walk, and an
auto-appended `End` node when exits dangle. -/
def buildFlow (name : String) (stmts : List Stmt) : Except Err FlowChart := do
  let c0 : FlowChart := ⟨0, name, [], [], []⟩
  let c ← addNodeE c0 ⟨1, .startNode, name, []⟩
  let ctx ← runStmts stmts ⟨c, [(1, none)], [], 2⟩
  if ctx.exits.isEmpty then
    .ok ctx.chart
  else do
    let c2 ← addNodeE ctx.chart ⟨ctx.ctr, .endNode, "End", []⟩
    let c3 ← connectExits ctx.exits ctx.ctr c2
    .ok c3

/-- Number of outgoing edges of node `nid`. -/
def outTotal (c : FlowChart) (nid : Nat) : Nat :=
  (outgoing c nid).length

/-- Edge/entry selector for the out-degree accounting: node `nid`, and either
any label (`none`) or one specific label (`some l0`). -/
def entrySel (nid : Nat) (lf : Option (Option String)) (n : Nat) (l : Option String) : Bool :=
  n == nid && (match lf with | none => true | some l0 => l == l0)

/-- Outgoing edges of `nid` matching the label filter. -/
def outCount (c : FlowChart) (nid : Nat) (lf : Option (Option String)) : Nat :=
  (c.edges.filter (fun e => entrySel nid lf e.source_id e.label)).length

/-- Frontier entries for `nid` matching the label filter. -/
def pendCount (exits : List ExitEntry) (nid : Nat) (lf : Option (Option String)) : Nat :=
  (exits.filter (fun nl => entrySel nid lf nl.1 nl.2)).length

/-- Out-degree plus pending frontier entries: the quantity conserved by the
builder for already-created nodes. -/
def outPend (ctx : BCtx) (nid : Nat) (lf : Option (Option String)) : Nat :=
  outCount ctx.chart nid lf + pendCount ctx.exits nid lf

mutual

/-- The loop-free, return-free statement fragment (steps, ends, passes and
decisions whose two branch labels differ). -/
def fragF : Stmt → Bool
  | .step _ => true
  | .endS _ => true
  | .passS => true
  | .ifS _ yes no _ body orelse => (yes != no) && fragFs body && fragFs orelse
  | _ => false

/-- `fragF` on every statement of a list. -/
def fragFs : List Stmt → Bool
  | [] => true
  | s :: rest => fragF s && fragFs rest

end

/-- Well-formedness of a builder state: node ids below the counter, edge
endpoints, frontier entries and loop-stack entries all existing nodes. -/
structure CtxWF (ctx : BCtx) : Prop where
  node_lt : ∀ n ∈ ctx.chart.nodes, n.id < ctx.ctr
  src_ex : ∀ e ∈ ctx.chart.edges, ∃ n ∈ ctx.chart.nodes, n.id = e.source_id
  tgt_ex : ∀ e ∈ ctx.chart.edges, ∃ n ∈ ctx.chart.nodes, n.id = e.target_id
  exits_ex : ∀ nl ∈ ctx.exits, ∃ n ∈ ctx.chart.nodes, n.id = nl.1
  stack_ex : ∀ hb ∈ ctx.loopStack, (∃ n ∈ ctx.chart.nodes, n.id = hb.1) ∧
    ∀ nl ∈ hb.2, ∃ n ∈ ctx.chart.nodes, n.id = nl.1

/-- Frame facts relating a builder state to the state after processing: the
chart grows by append, new nodes carry fresh ids, surviving frontier entries
are either inherited or refer to new nodes, and the loop stack keeps its
shape with the innermost break accumulator only growing. -/
structure StepFrame (ctx ctx2 : BCtx) : Prop where
  wf : CtxWF ctx2
  ctr_le : ctx.ctr ≤ ctx2.ctr
  nodes_pre : ∃ tn, ctx2.chart.nodes = ctx.chart.nodes ++ tn ∧
    ∀ n ∈ tn, ctx.ctr ≤ n.id ∧ n.id < ctx2.ctr
  edges_pre : ∃ te, ctx2.chart.edges = ctx.chart.edges ++ te
  exits_origin : ∀ nl ∈ ctx2.exits, nl ∈ ctx.exits ∨ (ctx.ctr ≤ nl.1 ∧ nl.1 < ctx2.ctr)
  stack_shape : (ctx.loopStack = [] ∧ ctx2.loopStack = []) ∨
    ∃ hd acc extra rest, ctx.loopStack = (hd, acc) :: rest ∧
      ctx2.loopStack = (hd, acc ++ extra) :: rest ∧
      ∀ nl ∈ extra, nl ∈ ctx.exits ∨ (ctx.ctr ≤ nl.1 ∧ nl.1 < ctx2.ctr)

/-- Frontier entries pairwise distinct as (node id, label) pairs: the
precondition under which a frontier connection suppresses no edge. -/
abbrev DistExits (exits : List ExitEntry) : Prop :=
  List.Pairwise (fun a b : ExitEntry => ¬(a.1 = b.1 ∧ a.2 = b.2)) exits

/-! ### Lazy subflow building and multi-chart collection (`SubflowBuilder`,
`_multi_chart`) -/

/-- One action of a flow body as far as `_multi_chart` is concerned: a plain
step or the invocation of a subflow, referred to by index. -/
inductive SAct where
  | sstep (label : String)
  | sinvoke (fid : Nat)
  deriving Repr, DecidableEq

/-- A subflow definition: display name and body. -/
structure SDef where
  name : String
  acts : List SAct
  deriving Repr, DecidableEq

/-- The global builder state: per flow index its built chart
(`SubflowBuilder.chart`, `None` until built), its `_building` re-entrancy
flag and its `_referenced_subflows` list. -/
structure SSt where
  charts : List (Option FlowChart)
  blding : List Bool
  refs : List (List Nat)
  deriving Repr, DecidableEq

/-- `_register_subflow_reference`: append the subflow if not already
referenced. -/
def addRef (rs : List Nat) (s : Nat) : List Nat := if s ∈ rs then rs else rs ++ [s]

/-- The definition at an index (indices are always in range in a scenario). -/
def defAt (defs : List SDef) (f : Nat) : SDef := defs.getD f ⟨"", []⟩

mutual

/-- `SubflowBuilder._ensure_built`, fuelled: return unchanged when already
built or when the `_building` guard is set (a circular reference); otherwise
set the guard, run the body from a fresh chart (chart id = flow index,
start node id 1) and store the finished chart — `FlowBuilder._build` with
its auto-appended End node. -/
def ensureBuilt (defs : List SDef) : Nat → Nat → SSt → Except Err SSt
  | 0, _, _ => .error .flowNotBuilt
  | fuel+1, f, st =>
      if (st.charts.getD f none).isSome then .ok st
      else if st.blding.getD f false then .ok st
      else do
        let (st2, ctx) ← runActs defs fuel (defAt defs f).acts f
          ⟨⟨f, (defAt defs f).name, [⟨1, .startNode, (defAt defs f).name, []⟩], [], []⟩,
            [(1, none)], [], 2⟩
          ⟨st.charts, st.blding.set f true, st.refs⟩
        let c ← if ctx.exits.isEmpty then .ok ctx.chart
          else do
            let c2 ← addNodeE ctx.chart ⟨ctx.ctr, .endNode, "End", []⟩
            connectExits ctx.exits ctx.ctr c2
        .ok ⟨st2.charts.set f (some c), st2.blding.set f false, st2.refs⟩

/-- The body walk of one flow: steps via the statement walker; a subflow
invocation is `SubflowBuilder._invoke`: ensure the target is built (lazy),
create a `SubFlowNode` whose target is the target's chart id — `None` when
the chart is still unbuilt inside a cycle — connect the frontier into it,
and register the reference with the invoking flow. -/
def runActs (defs : List SDef) : Nat → List SAct → Nat → BCtx → SSt →
    Except Err (SSt × BCtx)
  | 0, _, _, _, _ => .error .flowNotBuilt
  | _+1, [], _, ctx, st => .ok (st, ctx)
  | fuel+1, .sstep lbl :: rest, f, ctx, st => do
      let ctx2 ← runStmt (.step lbl) ctx
      runActs defs fuel rest f ctx2 st
  | fuel+1, .sinvoke s :: rest, f, ctx, st => do
      let st2 ← ensureBuilt defs fuel s st
      let tgt : Option Nat := match st2.charts.getD s none with
        | some ch => some ch.id
        | none => none
      let c ← addNodeE ctx.chart ⟨ctx.ctr, .subFlowNode tgt, (defAt defs s).name, []⟩
      let c2 ← connectExits ctx.exits ctx.ctr c
      runActs defs fuel rest f ⟨c2, [(ctx.ctr, none)], ctx.loopStack, ctx.ctr + 1⟩
        ⟨st2.charts, st2.blding, st2.refs.set f (addRef (st2.refs.getD f []) s)⟩

end

/-- Unwrap `add_chart`'s pair, propagating its raise. -/
def okChart : MultiFlowChart × Except Err FlowChart → Except Err MultiFlowChart
  | (m, .ok _) => .ok m
  | (_, .error e) => .error e

mutual

/-- `collect_subflows` of `_multi_chart`: recurse into each referenced
subflow. -/
def collectSub (st : SSt) : Nat → Nat → List Nat → MultiFlowChart →
    Except Err (List Nat × MultiFlowChart)
  | 0, _, _, _ => .error .flowNotBuilt
  | fuel+1, f, collected, multi => collectList st fuel (st.refs.getD f []) collected multi

/-- The loop body of `collect_subflows`: skip already-collected subflows;
otherwise mark collected and, when its chart exists, add the chart to the
multi chart (raising on a duplicate id) and recurse into it. -/
def collectList (st : SSt) : Nat → List Nat → List Nat → MultiFlowChart →
    Except Err (List Nat × MultiFlowChart)
  | 0, _, _, _ => .error .flowNotBuilt
  | _+1, [], collected, multi => .ok (collected, multi)
  | fuel+1, s :: rest, collected, multi =>
      if s ∈ collected then collectList st fuel rest collected multi
      else match st.charts.getD s none with
        | some ch => do
            let m2 ← okChart (multi.add_chart ch false)
            let r ← collectSub st fuel s (s :: collected) m2
            collectList st fuel rest r.1 r.2
        | none => collectList st fuel rest (s :: collected) multi

end

/-- Fuel that amply covers every scenario: every unit of work consumes one
action or one definition. -/
def fuelOf (defs : List SDef) : Nat :=
  (defs.foldl (fun a d => a + d.acts.length + 3) 3) * (defs.length + 1)

/-- The chart-name → chart-id lookup of `_multi_chart`'s fix-up pass; the
map is built by dict assignment in chart order, so a later chart with the
same name wins. -/
def lookupLast (m : List (String × Nat)) (k : String) : Option Nat :=
  (m.reverse.find? (fun p => p.1 == k)).map (fun p => p.2)

/-- Fix-up of one node: a `SubFlowNode` with no target takes the chart id
matching its label, when one exists. -/
def resolveNode (m : List (String × Nat)) (n : Node) : Node :=
  match n.kind with
  | .subFlowNode none =>
      match lookupLast m n.label with
      | some cid => ⟨n.id, .subFlowNode (some cid), n.label, n.metadata⟩
      | none => n
  | _ => n

/-- `_multi_chart`'s final name-resolution pass over every node of every
chart of the multi chart. -/
def resolvePass (mc : MultiFlowChart) : MultiFlowChart :=
  ⟨mc.name,
    mc.charts.map (fun c =>
      ⟨c.id, c.name, c.nodes.map (resolveNode (mc.charts.map (fun c2 => (c2.name, c2.id)))),
        c.edges, c.metadata⟩),
    mc.main_chart_id⟩

/-- `_multi_chart` rooted at flow `root`: raise when the root is unbuilt,
else add the root chart as main, collect the referenced subflows
recursively, and run the name-resolution fix-up. -/
def multiChartOf (defs : List SDef) (st : SSt) (root : Nat) :
    Except Err MultiFlowChart :=
  match st.charts.getD root none with
  | none => .error .flowNotBuilt
  | some ch => do
      let m1 ← okChart ((⟨(defAt defs root).name, [], none⟩ : MultiFlowChart).add_chart ch true)
      let r ← collectSub st (fuelOf defs) root [] m1
      .ok (resolvePass r.2)

/-- Build the root flow lazily, then collect: the complete `multi_chart`
pipeline from untouched definitions. -/
def collectScenario (defs : List SDef) (root : Nat) : Except Err MultiFlowChart := do
  let st ← ensureBuilt defs (fuelOf defs) root
    ⟨List.replicate defs.length none, List.replicate defs.length false,
      List.replicate defs.length []⟩
  multiChartOf defs st root

/-- Every `SubFlowNode` of every chart carries a non-null target chart id
present in the multi chart. -/
def targetsResolved (m : MultiFlowChart) : Bool :=
  m.charts.all fun c => c.nodes.all fun n =>
    match n.kind with
    | .subFlowNode none => false
    | .subFlowNode (some cid) => (m.get_chart cid).isSome
    | _ => true

/-- Scenario: two subflows referencing each other cyclically by name
(`A` invokes `B`, `B` invokes `A`). -/
def cycleDefs : List SDef :=
  [⟨"A", [.sstep "In A", .sinvoke 1]⟩, ⟨"B", [.sstep "In B", .sinvoke 0]⟩]

/-- The builder state after lazily building the cycle rooted at `A`: both
charts built; `B`'s subflow link to `A` carries no target (the re-entrancy
guard returned before `A`'s chart existed). -/
def cycleSt : SSt :=
  ⟨[some ⟨0, "A",
      [⟨1, .startNode, "A", []⟩, ⟨2, .processNode, "In A", []⟩,
       ⟨3, .subFlowNode (some 1), "B", []⟩, ⟨4, .endNode, "End", []⟩],
      [⟨1, 2, none, none, []⟩, ⟨2, 3, none, none, []⟩, ⟨3, 4, none, none, []⟩], []⟩,
    some ⟨1, "B",
      [⟨1, .startNode, "B", []⟩, ⟨2, .processNode, "In B", []⟩,
       ⟨3, .subFlowNode none, "A", []⟩, ⟨4, .endNode, "End", []⟩],
      [⟨1, 2, none, none, []⟩, ⟨2, 3, none, none, []⟩, ⟨3, 4, none, none, []⟩], []⟩],
   [false, false], [[1], [0]]⟩

/-- Scenario: a main flow invoking subflow `A`, with `A` and `B` referencing
each other cyclically. -/
def mainDefs : List SDef :=
  [⟨"Main", [.sstep "Identify", .sinvoke 1]⟩,
   ⟨"A", [.sstep "In A", .sinvoke 2]⟩,
   ⟨"B", [.sstep "In B", .sinvoke 1]⟩]

/-- The builder state after building `Main` (and, lazily, `A` and `B`). -/
def mainSt : SSt :=
  ⟨[some ⟨0, "Main",
      [⟨1, .startNode, "Main", []⟩, ⟨2, .processNode, "Identify", []⟩,
       ⟨3, .subFlowNode (some 1), "A", []⟩, ⟨4, .endNode, "End", []⟩],
      [⟨1, 2, none, none, []⟩, ⟨2, 3, none, none, []⟩, ⟨3, 4, none, none, []⟩], []⟩,
    some ⟨1, "A",
      [⟨1, .startNode, "A", []⟩, ⟨2, .processNode, "In A", []⟩,
       ⟨3, .subFlowNode (some 2), "B", []⟩, ⟨4, .endNode, "End", []⟩],
      [⟨1, 2, none, none, []⟩, ⟨2, 3, none, none, []⟩, ⟨3, 4, none, none, []⟩], []⟩,
    some ⟨2, "B",
      [⟨1, .startNode, "B", []⟩, ⟨2, .processNode, "In B", []⟩,
       ⟨3, .subFlowNode none, "A", []⟩, ⟨4, .endNode, "End", []⟩],
      [⟨1, 2, none, none, []⟩, ⟨2, 3, none, none, []⟩, ⟨3, 4, none, none, []⟩], []⟩],
   [false, false, false], [[1], [2], [1]]⟩

/-- The multi chart collected from `Main`: all three charts, `B`'s dangling
subflow link resolved by name to `A`'s chart id. -/
def mainMulti : MultiFlowChart :=
  ⟨"Main",
    [⟨0, "Main",
      [⟨1, .startNode, "Main", []⟩, ⟨2, .processNode, "Identify", []⟩,
       ⟨3, .subFlowNode (some 1), "A", []⟩, ⟨4, .endNode, "End", []⟩],
      [⟨1, 2, none, none, []⟩, ⟨2, 3, none, none, []⟩, ⟨3, 4, none, none, []⟩], []⟩,
     ⟨1, "A",
      [⟨1, .startNode, "A", []⟩, ⟨2, .processNode, "In A", []⟩,
       ⟨3, .subFlowNode (some 2), "B", []⟩, ⟨4, .endNode, "End", []⟩],
      [⟨1, 2, none, none, []⟩, ⟨2, 3, none, none, []⟩, ⟨3, 4, none, none, []⟩], []⟩,
     ⟨2, "B",
      [⟨1, .startNode, "B", []⟩, ⟨2, .processNode, "In B", []⟩,
       ⟨3, .subFlowNode (some 1), "A", []⟩, ⟨4, .endNode, "End", []⟩],
      [⟨1, 2, none, none, []⟩, ⟨2, 3, none, none, []⟩, ⟨3, 4, none, none, []⟩], []⟩],
    some 0⟩

/-! ### Basic lemmas about the graph operations -/

theorem sameTriple_iff (a b : Edge) :
    FlowChart.sameTriple a b = true ↔
      (a.source_id = b.source_id ∧ a.target_id = b.target_id ∧ a.label = b.label) := by
  simp [FlowChart.sameTriple, and_assoc]

theorem sameTriple_congr {a b : Edge} (h : FlowChart.sameTriple a b = true) (x : Edge) :
    FlowChart.sameTriple x a = FlowChart.sameTriple x b := by
  rcases (sameTriple_iff a b).mp h with ⟨h1, h2, h3⟩
  simp [FlowChart.sameTriple, h1, h2, h3]

theorem isNone_eq_false_of_isSome {α : Type} {o : Option α} (h : o.isSome = true) :
    o.isNone = false := by
  cases o <;> simp_all

/-- C7: `add_edge` fails (with a dangling-reference error) exactly when an
endpoint id is not a node of the graph; a failing call leaves the graph
unchanged, and a call with both endpoints present never fails. -/
theorem add_edge_dangling_characterization (c : FlowChart) (e : Edge) :
    ((∃ err, (c.add_edge e).2 = .error err) ↔
      ((c.get_node e.source_id).isNone = true ∨ (c.get_node e.target_id).isNone = true)) ∧
    (∀ err, (c.add_edge e).2 = .error err →
      (c.add_edge e).1 = c ∧
      (err = .danglingSource e.source_id ∨ err = .danglingTarget e.target_id)) ∧
    ((c.get_node e.source_id).isSome = true → (c.get_node e.target_id).isSome = true →
      ∃ ed, (c.add_edge e).2 = .ok ed) := by
  unfold FlowChart.add_edge
  by_cases hs : (c.get_node e.source_id).isNone = true
  · simp [hs]
  · by_cases ht : (c.get_node e.target_id).isNone = true
    · simp [hs, ht]
    · refine ⟨?_, ?_, ?_⟩
      · constructor
        · rintro ⟨err, herr⟩
          simp [hs, ht] at herr
          rcases hfind : c.edges.find? (fun ex => FlowChart.sameTriple ex e) with _ | ex <;>
            simp [hfind] at herr
        · rintro (h | h) <;> simp_all
      · intro err herr
        simp [hs, ht] at herr
        rcases hfind : c.edges.find? (fun ex => FlowChart.sameTriple ex e) with _ | ex <;>
          simp [hfind] at herr
      · intro _ _
        simp [hs, ht]
        rcases hfind : c.edges.find? (fun ex => FlowChart.sameTriple ex e) with _ | ex <;>
          simp [hfind]

/-- C7 witness: on a two-node graph, adding an edge with a missing endpoint
fails and an edge between the two nodes succeeds. -/
theorem add_edge_dangling_characterization_witness :
    let c : FlowChart := ⟨0, "G", [⟨1, .processNode, "A", []⟩, ⟨2, .processNode, "B", []⟩], [], []⟩
    let e : Edge := ⟨1, 2, some "go", none, []⟩
    (c.get_node e.source_id).isSome = true ∧ (c.get_node e.target_id).isSome = true ∧
    ∃ ed, (c.add_edge e).2 = .ok ed := by
  refine ⟨by decide, by decide, ?_⟩
  exact (add_edge_dangling_characterization _ _).2.2 (by decide) (by decide)

/-- C2: adding the same (source, target, label) triple twice is idempotent:
the first call appends the edge, the second call (with any edge carrying the
same triple) leaves the edge list unchanged, returns the edge stored by the
first call, and exactly one edge with that triple exists. -/
theorem add_edge_idempotent (c : FlowChart) (e e2 : Edge)
    (hs : (c.get_node e.source_id).isSome = true)
    (ht : (c.get_node e.target_id).isSome = true)
    (hnew : c.edges.find? (fun ex => FlowChart.sameTriple ex e) = none)
    (htriple : FlowChart.sameTriple e e2 = true) :
    (c.add_edge e).2 = .ok e ∧
    ((c.add_edge e).1.add_edge e2) = ((c.add_edge e).1, .ok e) ∧
    FlowChart.countTriple (c.add_edge e).1 e2 = 1 := by
  have hs' := isNone_eq_false_of_isSome hs
  have ht' := isNone_eq_false_of_isSome ht
  rcases (sameTriple_iff e e2).mp htriple with ⟨h1, h2, h3⟩
  have hfirst : c.add_edge e = ({ c with edges := c.edges ++ [e] }, .ok e) := by
    unfold FlowChart.add_edge
    simp [hs', ht', hnew]
  have hnone2 : c.edges.find? (fun ex => FlowChart.sameTriple ex e2) = none := by
    rw [← hnew]
    congr 1
    funext ex
    exact (sameTriple_congr htriple ex).symm
  have hself : FlowChart.sameTriple e e2 = true := htriple
  refine ⟨by rw [hfirst], ?_, ?_⟩
  · rw [hfirst]
    show FlowChart.add_edge { c with edges := c.edges ++ [e] } e2 = _
    have hs2 : (FlowChart.get_node { c with edges := c.edges ++ [e] } e2.source_id).isNone = false := by
      simp only [FlowChart.get_node] at hs' ⊢
      rw [← h1]; exact hs'
    have ht2 : (FlowChart.get_node { c with edges := c.edges ++ [e] } e2.target_id).isNone = false := by
      simp only [FlowChart.get_node] at ht' ⊢
      rw [← h2]; exact ht'
    unfold FlowChart.add_edge
    simp [hs2, ht2, List.find?_append, hnone2, hself]
  · rw [hfirst]
    simp only [FlowChart.countTriple]
    rw [List.filter_append]
    have : c.edges.filter (fun ex => FlowChart.sameTriple ex e2) = [] := by
      simp only [List.filter_eq_nil_iff]
      intro ex hex
      have := List.find?_eq_none.mp hnone2 ex hex
      simpa using this
    simp [this, hself]

/-- C2 witness: concrete double insertion of the same labelled edge. -/
theorem add_edge_idempotent_witness :
    let c : FlowChart := ⟨0, "G", [⟨1, .processNode, "A", []⟩, ⟨2, .processNode, "B", []⟩], [], []⟩
    let e : Edge := ⟨1, 2, some "go", none, []⟩
    (c.add_edge e).2 = .ok e ∧
    ((c.add_edge e).1.add_edge e) = ((c.add_edge e).1, .ok e) ∧
    FlowChart.countTriple (c.add_edge e).1 e = 1 := by
  exact add_edge_idempotent _ _ _ (by decide) (by decide) (by decide) (by decide)

/-- C9: the duplicate test compares only (source, target, label); a new edge
whose condition and metadata differ from the stored duplicate is discarded
whole, the call returning the stored edge and leaving the graph unchanged. -/
theorem add_edge_ignores_condition_metadata (c : FlowChart) (s t : Nat)
    (l : Option String) (e0 : Edge)
    (hs : (c.get_node s).isSome = true)
    (ht : (c.get_node t).isSome = true)
    (hfind : c.edges.find? (fun ex => FlowChart.sameTriple ex ⟨s, t, l, none, []⟩) = some e0) :
    ∀ cond md, c.add_edge ⟨s, t, l, cond, md⟩ = (c, .ok e0) := by
  intro cond md
  have hs' := isNone_eq_false_of_isSome hs
  have ht' := isNone_eq_false_of_isSome ht
  have hfind2 : c.edges.find? (fun ex => FlowChart.sameTriple ex ⟨s, t, l, cond, md⟩) = some e0 := by
    rw [← hfind]
    congr 1
  unfold FlowChart.add_edge
  simp [hs', ht', hfind2]

/-! ### Main-chart designation (C8) -/

theorem option_or_some_absorb {α : Type} (x : Option α) (a : α) (y : Option α) :
    (x.or (some a)).or y = x.or (some a) := by
  cases x <;> simp [Option.or_some, Option.none_or]

theorem getLast?_map_cons {α β : Type} (l : List α) (a : α) (f : α → β) :
    ((a :: l).getLast?).map f = (l.getLast?.map f).or (some (f a)) := by
  rw [List.getLast?_cons]
  cases h : l.getLast? <;> simp

theorem get_chart_append_isNone (m : MultiFlowChart) (c : FlowChart) (x : Nat)
    (h1 : (m.get_chart x).isNone = true) (h2 : c.id ≠ x) :
    (MultiFlowChart.get_chart { m with charts := m.charts ++ [c] } x).isNone = true := by
  simp only [MultiFlowChart.get_chart] at h1 ⊢
  rw [List.find?_append]
  simp only [Option.isNone_iff_eq_none] at h1 ⊢
  have hcx : (c.id == x) = false := by simp [h2]
  simp [h1, List.find?, hcx]

theorem addChartSeq_ok (l : List (FlowChart × Bool)) : ∀ (m : MultiFlowChart),
    (l.map (fun cb => cb.1.id)).Nodup →
    (∀ cb ∈ l, (m.get_chart cb.1.id).isNone = true) →
    ∃ m2, addChartSeq m l = .ok m2 ∧
      m2.charts = m.charts ++ l.map (fun cb => cb.1) ∧
      m2.main_chart_id =
        ((l.filter (fun cb => cb.2)).getLast?.map (fun cb => cb.1.id)).or
          (m.main_chart_id.or (l.head?.map (fun cb => cb.1.id))) := by
  induction l with
  | nil => intro m _ _; exact ⟨m, rfl, by simp, by simp [Option.or_none]⟩
  | cons cb rest ih =>
    intro m hnodup hfresh
    have hcb : (m.get_chart cb.1.id).isNone = true := hfresh cb (by simp)
    have hadd : m.add_chart cb.1 cb.2 =
        ((⟨m.name, m.charts ++ [cb.1],
          if cb.2 || m.main_chart_id.isNone then some cb.1.id else m.main_chart_id⟩ :
            MultiFlowChart),
          .ok cb.1) := by
      unfold MultiFlowChart.add_chart
      simp only [Option.isNone_iff_eq_none] at hcb
      simp [hcb]
    set m1 : MultiFlowChart :=
      ⟨m.name, m.charts ++ [cb.1],
        if cb.2 || m.main_chart_id.isNone then some cb.1.id else m.main_chart_id⟩ with hm1
    have hrestfresh : ∀ cb2 ∈ rest, (m1.get_chart cb2.1.id).isNone = true := by
      intro cb2 hmem
      apply get_chart_append_isNone _ _ _ (hfresh cb2 (by simp [hmem]))
      intro hc
      have : cb.1.id ∈ rest.map (fun cb => cb.1.id) := by
        rw [hc]; exact List.mem_map_of_mem _ hmem
      simp only [List.map_cons, List.nodup_cons] at hnodup
      exact hnodup.1 this
    have hrestnodup : (rest.map (fun cb => cb.1.id)).Nodup := by
      simp only [List.map_cons, List.nodup_cons] at hnodup
      exact hnodup.2
    obtain ⟨m2, hrun, hcharts, hmain⟩ := ih m1 hrestnodup hrestfresh
    refine ⟨m2, ?_, ?_, ?_⟩
    · simp only [addChartSeq, List.foldlM] at hrun ⊢
      rw [hadd]
      exact hrun
    · rw [hcharts, hm1]
      simp
    · rw [hmain, hm1]
      rcases hb : cb.2 with _ | _ <;>
        rcases hL : (List.filter (fun cb => cb.2) rest).getLast? with _ | z <;>
          rcases hM : m.main_chart_id with _ | y <;>
            simp [hb, hL, hM, List.filter, List.getLast?_cons, Option.or_some,
              Option.none_or, Option.or_none, Option.or_assoc]

/-- C8: starting from an empty multi-chart, a successful `add_chart` sequence
designates as main the most recently added chart with `is_main = true`, else
the first chart added; an `is_main = false` addition never changes an
already-designated main; and `add_chart` raises `DuplicateId` exactly when
the chart id is already present. -/
theorem add_chart_main_designation :
    (∀ (name : String) (l : List (FlowChart × Bool)),
      (l.map (fun cb => cb.1.id)).Nodup →
      ∃ m2, addChartSeq ⟨name, [], none⟩ l = .ok m2 ∧
        m2.charts = l.map (fun cb => cb.1) ∧
        m2.main_chart_id = expectedMain l) ∧
    (∀ (m : MultiFlowChart) (c : FlowChart) (x : Nat), m.main_chart_id = some x →
      ((m.add_chart c false).1).main_chart_id = some x) ∧
    (∀ (m : MultiFlowChart) (c : FlowChart) (b : Bool),
      ((m.add_chart c b).2 = .error (.duplicateChartId c.id) ↔
        (m.get_chart c.id).isSome = true)) := by
  refine ⟨?_, ?_, ?_⟩
  · intro name l hnodup
    obtain ⟨m2, hrun, hcharts, hmain⟩ :=
      addChartSeq_ok l ⟨name, [], none⟩ hnodup (fun cb _ => by simp [MultiFlowChart.get_chart])
    exact ⟨m2, hrun, by simpa using hcharts, by simpa [expectedMain, Option.none_or] using hmain⟩
  · intro m c x hx
    unfold MultiFlowChart.add_chart
    by_cases h : (m.get_chart c.id).isSome = true
    · simp [h, hx]
    · simp [h, hx]
  · intro m c b
    unfold MultiFlowChart.add_chart
    by_cases h : (m.get_chart c.id).isSome = true
    · simp [h]
    · simp [h]

/-- C8 witness: a concrete three-chart sequence where the second chart is
flagged main, plus the preservation and duplicate facts at concrete inputs. -/
theorem add_chart_main_designation_witness :
    (∃ m2, addChartSeq ⟨"M", [], none⟩
        [(⟨10, "A", [], [], []⟩, false), (⟨11, "B", [], [], []⟩, true),
         (⟨12, "C", [], [], []⟩, false)] = .ok m2 ∧
      m2.charts = [⟨10, "A", [], [], []⟩, ⟨11, "B", [], [], []⟩, ⟨12, "C", [], [], []⟩] ∧
      m2.main_chart_id = expectedMain
        [(⟨10, "A", [], [], []⟩, false), (⟨11, "B", [], [], []⟩, true),
         (⟨12, "C", [], [], []⟩, false)]) := by
  exact add_chart_main_designation.1 "M" _ (by decide)

/-! ### Frame conditions of `link_charts` (C10) -/

theorem find?_map_replace (sc2 : FlowChart) (scid : Nat) (hsc2 : sc2.id = scid) :
    ∀ (l : List FlowChart) (sc : FlowChart),
    l.find? (fun c => c.id == scid) = some sc →
    (l.map (fun c => if c.id == scid then sc2 else c)).find? (fun c => c.id == scid) =
      some sc2 := by
  intro l
  induction l with
  | nil => intro sc h; simp [List.find?] at h
  | cons hd tl ih =>
    intro sc h
    by_cases hh : (hd.id == scid) = true
    · simp [List.find?, hh, hsc2]
    · rw [List.find?_cons_of_neg _ (by simp_all)] at h
      simp only [List.map_cons, if_neg (by simp_all : ¬(hd.id == scid) = true)]
      rw [List.find?_cons_of_neg _ (by simp_all)]
      exact ih sc h

theorem linkedNode_id (sn : Node) (tcid : Nat) (lab : Option String) :
    (linkedNode sn tcid lab).id = sn.id := by
  cases h : sn.kind <;> simp [linkedNode, h]

theorem linkedNode_metadata (sn : Node) (tcid : Nat) (lab : Option String) :
    (linkedNode sn tcid lab).metadata = sn.metadata := by
  cases h : sn.kind <;> simp [linkedNode, h]

theorem linkedNode_kind (sn : Node) (tcid : Nat) (lab : Option String) :
    (linkedNode sn tcid lab).kind = .subFlowNode (some tcid) := by
  cases h : sn.kind <;> simp [linkedNode, h]

theorem linkedNode_label (sn : Node) (tcid : Nat) (lab : Option String) :
    (linkedNode sn tcid lab).label =
      (if optStrTruthy lab then lab.getD sn.label else sn.label) := by
  cases h : sn.kind <;> simp [linkedNode, h]

theorem find?_map_id_preserved (f : Node → Node) (hf : ∀ n, (f n).id = n.id) (snid : Nat) :
    ∀ l : List Node,
      (l.map f).find? (fun n => n.id == snid) = (l.find? (fun n => n.id == snid)).map f := by
  intro l
  induction l with
  | nil => simp
  | cons hd tl ih =>
    by_cases hh : (hd.id == snid) = true
    · have : ((f hd).id == snid) = true := by rw [hf]; exact hh
      simp [List.find?, this, hh]
    · have h1 : ((f hd).id == snid) = false := by
        rw [hf]; simpa using hh
      have h2 : (hd.id == snid) = false := by simpa using hh
      simp only [List.map_cons, List.find?, h1, h2]
      exact ih

/-- C10: `link_charts` converts the source node in place, preserving its id
and metadata (and its label unless a truthy label is supplied); no chart, node
or edge is added or removed, every other chart and node is untouched, and the
node-id sequence of the source chart is unchanged, so edges referencing the
node stay valid. -/
theorem link_charts_frame (m : MultiFlowChart) (scid snid tcid : Nat) (lab : Option String)
    (sc : FlowChart) (sn : Node)
    (hsc : m.get_chart scid = some sc)
    (htc : (m.get_chart tcid).isSome = true)
    (hsn : sc.get_node snid = some sn) :
    ∃ m2, m.link_charts scid snid tcid lab = (m2, .ok ()) ∧
      m2.name = m.name ∧ m2.main_chart_id = m.main_chart_id ∧
      m2.charts.length = m.charts.length ∧
      (∀ c ∈ m.charts, c.id ≠ scid → c ∈ m2.charts) ∧
      ∃ sc2, m2.get_chart scid = some sc2 ∧
        sc2.id = sc.id ∧ sc2.name = sc.name ∧
        sc2.edges = sc.edges ∧
        sc2.nodes.map Node.id = sc.nodes.map Node.id ∧
        (∀ n ∈ sc.nodes, n.id ≠ snid → n ∈ sc2.nodes) ∧
        sc2.get_node snid = some (linkedNode sn tcid lab) ∧
        (linkedNode sn tcid lab).id = sn.id ∧
        (linkedNode sn tcid lab).metadata = sn.metadata ∧
        (linkedNode sn tcid lab).kind = .subFlowNode (some tcid) ∧
        (linkedNode sn tcid lab).label =
          (if optStrTruthy lab then lab.getD sn.label else sn.label) := by
  have htc2 : (m.get_chart tcid).isNone = false := isNone_eq_false_of_isSome htc
  have hscid : sc.id = scid := by
    have := List.find?_some hsc
    simpa using this
  have hsnid : sn.id = snid := by
    have := List.find?_some hsn
    simpa using this
  have hrun : m.link_charts scid snid tcid lab =
      ({ m with charts := m.charts.map (fun c => if c.id == scid then
          { sc with nodes := sc.nodes.map (fun n =>
              if n.id == snid then linkedNode n tcid lab else n) } else c) }, .ok ()) := by
    unfold MultiFlowChart.link_charts
    rw [show MultiFlowChart.get_chart m scid = some sc from hsc]
    simp [htc2, hsn]
  set f : Node → Node := fun n => if n.id == snid then linkedNode n tcid lab else n with hf
  have hfid : ∀ n, (f n).id = n.id := by
    intro n
    by_cases h : n.id = snid
    · simp [hf, h, linkedNode_id]
    · simp [hf, h]
  set sc2 : FlowChart := { sc with nodes := sc.nodes.map f } with hsc2
  refine ⟨_, hrun, rfl, rfl, by simp, ?_, sc2, ?_, rfl, rfl, rfl, ?_, ?_, ?_,
    linkedNode_id sn tcid lab, linkedNode_metadata sn tcid lab,
    linkedNode_kind sn tcid lab, linkedNode_label sn tcid lab⟩
  · intro c hc hne
    simp only [List.mem_map]
    refine ⟨c, hc, ?_⟩
    rw [if_neg (by simpa using hne)]
  · exact find?_map_replace sc2 scid (by simpa using hscid) m.charts sc hsc
  · rw [hsc2]
    simp only [List.map_map]
    congr 1
    funext n
    exact hfid n
  · intro n hn hne
    rw [hsc2]
    simp only [List.mem_map]
    exact ⟨n, hn, by simp [hf, hne]⟩
  · rw [hsc2]
    show (sc.nodes.map f).find? (fun n => n.id == snid) = _
    rw [find?_map_id_preserved f hfid snid sc.nodes]
    rw [show sc.nodes.find? (fun n => n.id == snid) = some sn from hsn]
    simp [hf, hsnid]

/-- C10 witness: linking a process node of one chart to a second chart at
concrete inputs. -/
theorem link_charts_frame_witness :
    let a : FlowChart := ⟨10, "A", [⟨1, .startNode, "S", []⟩,
      ⟨2, .processNode, "P", [("k", "v")]⟩], [⟨1, 2, none, none, []⟩], []⟩
    let b : FlowChart := ⟨11, "B", [⟨3, .startNode, "S", []⟩], [], []⟩
    let m : MultiFlowChart := ⟨"M", [a, b], some 10⟩
    ∃ m2, m.link_charts 10 2 11 none = (m2, .ok ()) ∧
      m2.name = m.name ∧ m2.main_chart_id = m.main_chart_id ∧
      m2.charts.length = m.charts.length ∧
      (∀ c ∈ m.charts, c.id ≠ 10 → c ∈ m2.charts) ∧
      ∃ sc2, m2.get_chart 10 = some sc2 ∧
        sc2.id = a.id ∧ sc2.name = a.name ∧
        sc2.edges = a.edges ∧
        sc2.nodes.map Node.id = a.nodes.map Node.id ∧
        (∀ n ∈ a.nodes, n.id ≠ 2 → n ∈ sc2.nodes) ∧
        sc2.get_node 2 = some (linkedNode ⟨2, .processNode, "P", [("k", "v")]⟩ 11 none) ∧
        (linkedNode ⟨2, .processNode, "P", [("k", "v")]⟩ 11 none).id = 2 ∧
        (linkedNode ⟨2, .processNode, "P", [("k", "v")]⟩ 11 none).metadata = [("k", "v")] ∧
        (linkedNode ⟨2, .processNode, "P", [("k", "v")]⟩ 11 none).kind =
          .subFlowNode (some 11) ∧
        (linkedNode ⟨2, .processNode, "P", [("k", "v")]⟩ 11 none).label =
          (if optStrTruthy none then Option.getD none "P" else "P") := by
  exact link_charts_frame _ 10 2 11 none _ _ (by decide) (by decide) (by decide)

/-- C9 witness: a duplicate triple with a different condition and metadata is
ignored and the originally stored edge is returned. -/
theorem add_edge_ignores_condition_metadata_witness :
    let c : FlowChart := ⟨0, "G", [⟨1, .processNode, "A", []⟩, ⟨2, .processNode, "B", []⟩],
      [⟨1, 2, some "go", some "x > 0", [("k", "v")]⟩], []⟩
    c.add_edge ⟨1, 2, some "go", some "x < 0", [("k2", "v2")]⟩ =
      (c, .ok ⟨1, 2, some "go", some "x > 0", [("k", "v")]⟩) := by
  exact add_edge_ignores_condition_metadata _ 1 2 (some "go") _
    (by decide) (by decide) (by decide) _ _

/-! ### Lemmas for the shared-node resolver (C1) -/

theorem find?_append_some {α : Type} {p : α → Bool} {l1 l2 : List α} {a : α}
    (h : l1.find? p = some a) : (l1 ++ l2).find? p = some a := by
  rw [List.find?_append, h, Option.or_some]

theorem find?_append_none {α : Type} {p : α → Bool} {l1 l2 : List α}
    (h : l1.find? p = none) : (l1 ++ l2).find? p = l2.find? p := by
  rw [List.find?_append, h, Option.none_or]

theorem find?_id_none_of_lt (l : List Node) (x : Nat) (h : ∀ n ∈ l, n.id < x) :
    l.find? (fun n => n.id == x) = none := by
  rw [List.find?_eq_none]
  intro n hn
  have := h n hn
  simp
  omega

theorem find?_triple_none_of_src (E : List Edge) (e : Edge)
    (h : ∀ ex ∈ E, ex.source_id ≠ e.source_id) :
    E.find? (fun ex => FlowChart.sameTriple ex e) = none := by
  rw [List.find?_eq_none]
  intro ex hex hcontra
  exact h ex hex ((sameTriple_iff ex e).mp hcontra).1

theorem find?_triple_none_of_tgt (E : List Edge) (e : Edge)
    (h : ∀ ex ∈ E, ex.target_id ≠ e.target_id) :
    E.find? (fun ex => FlowChart.sameTriple ex e) = none := by
  rw [List.find?_eq_none]
  intro ex hex hcontra
  exact h ex hex ((sameTriple_iff ex e).mp hcontra).2.1

theorem addEdgeE_new (c : FlowChart) (e : Edge)
    (hs : (c.get_node e.source_id).isSome = true)
    (ht : (c.get_node e.target_id).isSome = true)
    (hfind : c.edges.find? (fun ex => FlowChart.sameTriple ex e) = none) :
    addEdgeE c e = .ok { c with edges := c.edges ++ [e] } := by
  unfold addEdgeE FlowChart.add_edge
  simp [isNone_eq_false_of_isSome hs, isNone_eq_false_of_isSome ht, hfind]

theorem addEdgeE_dup (c : FlowChart) (e : Edge) (ex : Edge)
    (hs : (c.get_node e.source_id).isSome = true)
    (ht : (c.get_node e.target_id).isSome = true)
    (hfind : c.edges.find? (fun ex => FlowChart.sameTriple ex e) = some ex) :
    addEdgeE c e = .ok c := by
  unfold addEdgeE FlowChart.add_edge
  simp [isNone_eq_false_of_isSome hs, isNone_eq_false_of_isSome ht, hfind]

theorem outgoing_append_ne (c : FlowChart) (e : Edge) (nid : Nat) (h : e.source_id ≠ nid) :
    outgoing { c with edges := c.edges ++ [e] } nid = outgoing c nid := by
  simp only [outgoing, List.filter_append]
  have : (e.source_id == nid) = false := by simpa using h
  simp [List.filter, this]

theorem outgoing_append_eq (c : FlowChart) (e : Edge) (nid : Nat) (h : e.source_id = nid) :
    outgoing { c with edges := c.edges ++ [e] } nid = outgoing c nid ++ [e] := by
  simp only [outgoing, List.filter_append]
  have : (e.source_id == nid) = true := by simpa using h
  simp [List.filter, this]

theorem incoming_append_ne (c : FlowChart) (e : Edge) (nid : Nat) (h : e.target_id ≠ nid) :
    incoming { c with edges := c.edges ++ [e] } nid = incoming c nid := by
  simp only [incoming, List.filter_append]
  have : (e.target_id == nid) = false := by simpa using h
  simp [List.filter, this]

theorem incoming_append_eq (c : FlowChart) (e : Edge) (nid : Nat) (h : e.target_id = nid) :
    incoming { c with edges := c.edges ++ [e] } nid = incoming c nid ++ [e] := by
  simp only [incoming, List.filter_append]
  have : (e.target_id == nid) = true := by simpa using h
  simp [List.filter, this]

theorem outgoing_of_lt (c : FlowChart) (nid : Nat) (h : ∀ e ∈ c.edges, e.source_id < nid) :
    outgoing c nid = [] := by
  simp only [outgoing, List.filter_eq_nil_iff]
  intro e he
  have := h e he
  simp
  omega

theorem incoming_of_lt (c : FlowChart) (nid : Nat) (h : ∀ e ∈ c.edges, e.target_id < nid) :
    incoming c nid = [] := by
  simp only [incoming, List.filter_eq_nil_iff]
  intro e he
  have := h e he
  simp
  omega

/-- The first-fit scan is the first instance with no outgoing edge yet or
with an outgoing edge to the desired target. -/
theorem scanInstances_eq_find? (c : FlowChart) (t : Nat) (ns : List Nat) :
    scanInstances c t ns =
      ns.find? (fun n =>
        (outgoing c n).isEmpty || (outgoing c n).any (fun e => e.target_id == t)) := by
  induction ns with
  | nil => simp [scanInstances]
  | cons n rest ih =>
    by_cases h1 : (outgoing c n).isEmpty = true
    · simp [scanInstances, h1, List.find?]
    · by_cases h2 : (outgoing c n).any (fun e => e.target_id == t) = true
      · simp [scanInstances, h1, h2, List.find?]
      · simp only [scanInstances, List.find?]
        rw [if_neg (by simp [h1]), if_neg (by simp [h2])]
        have : ((outgoing c n).isEmpty || (outgoing c n).any fun e => e.target_id == t) = false := by
          simp [h1, h2]
        rw [this]
        exact ih

theorem scanInstances_none (c : FlowChart) (t : Nat) (ns : List Nat)
    (h : ∀ i ∈ ns, ∃ u, u ≠ t ∧ outgoing c i = [⟨i, u, none, none, []⟩]) :
    scanInstances c t ns = none := by
  rw [scanInstances_eq_find?, List.find?_eq_none]
  intro i hi
  obtain ⟨u, hu, hout⟩ := h i hi
  simp [hout, hu]

theorem get_node_append_right (c : FlowChart) (tn : List Node) (x : Nat)
    (h : (c.get_node x).isSome = true) :
    (FlowChart.get_node { c with nodes := c.nodes ++ tn } x).isSome = true := by
  simp only [FlowChart.get_node] at h ⊢
  rcases hfind : c.nodes.find? (fun n => n.id == x) with _ | n
  · rw [hfind] at h; simp at h
  · rw [find?_append_some hfind]; simp

theorem filter_src_nil (E : List Edge) (nid : Nat) (h : ∀ e ∈ E, e.source_id ≠ nid) :
    E.filter (fun e => e.source_id == nid) = [] := by
  simp only [List.filter_eq_nil_iff]
  intro e he
  simpa using h e he

theorem filter_tgt_nil (E : List Edge) (nid : Nat) (h : ∀ e ∈ E, e.target_id ≠ nid) :
    E.filter (fun e => e.target_id == nid) = [] := by
  simp only [List.filter_eq_nil_iff]
  intro e he
  simpa using h e he

theorem get_node_eq_of_nodes_eq (c d : FlowChart) (h : d.nodes = c.nodes) (x : Nat) :
    d.get_node x = c.get_node x := by
  simp [FlowChart.get_node, h]

theorem get_node_isSome_append (c d : FlowChart) (tn : List Node) (x : Nat)
    (h : d.nodes = c.nodes ++ tn) (hx : (c.get_node x).isSome = true) :
    (d.get_node x).isSome = true := by
  simp only [FlowChart.get_node, h]
  simp only [FlowChart.get_node] at hx
  rcases hfind : c.nodes.find? (fun n => n.id == x) with _ | n
  · rw [hfind] at hx; simp at hx
  · rw [find?_append_some hfind]; simp

theorem mem_of_getLast?_eq {α : Type} {l : List α} {a : α} (h : l.getLast? = some a) :
    a ∈ l := by
  induction l with
  | nil => simp at h
  | cons x xs ih =>
    rw [List.getLast?_cons] at h
    rcases hx : xs.getLast? with _ | b
    · rw [hx] at h
      simp at h
      simp [h]
    · rw [hx] at h
      simp at h
      subst h
      exact List.mem_cons_of_mem _ (ih hx)

/-- Unfolding of one call site given the outcome of each internal step. -/
theorem invokeSite_run (label : String) (p t : Nat) (s s1 : DefState) (cur : Nat)
    (h1 : getOrCreate label s = (s1, cur))
    (c : FlowChart) (h2 : addEdgeE s1.chart ⟨p, cur, none, none, []⟩ = .ok c)
    (s2 : DefState) (res : Nat)
    (h3 : getNodeForTarget label t ⟨c, s1.irNodes, s1.ctr⟩ = (s2, res))
    (c2 : FlowChart) (h4 : addEdgeE s2.chart ⟨res, t, none, none, []⟩ = .ok c2) :
    invokeSite label p t s = .ok ⟨c2, s2.irNodes, s2.ctr⟩ := by
  unfold invokeSite
  rw [h1]
  simp only [bind, Except.bind, h2, h3, h4, pure, Except.pure]

/-- One call site appended to a distinct-targets run: a new instance is
created and wired to the fresh target. -/
theorem invokeSite_stepB (c0 : FlowChart) (ctr0 : Nat) (label : String) (used : List Nat)
    (s : DefState) (inv : InvB c0 ctr0 label used s)
    (hlt : ∀ n ∈ c0.nodes, n.id < ctr0)
    (p t : Nat)
    (hp : (c0.get_node p).isSome = true)
    (ht : (c0.get_node t).isSome = true)
    (hnew : t ∉ used) :
    ∃ c2, invokeSite label p t s = .ok ⟨c2, s.irNodes ++ [s.ctr], s.ctr + 1⟩ ∧
      InvB c0 ctr0 label (used ++ [t]) ⟨c2, s.irNodes ++ [s.ctr], s.ctr + 1⟩ := by
  obtain ⟨tn, hnodes, htn⟩ := inv.nodes_eq
  have hctrle : ctr0 ≤ s.ctr := inv.ctr_le
  have hplt : p < ctr0 := by
    simp only [FlowChart.get_node, Option.isSome_iff_exists] at hp
    obtain ⟨n, hn⟩ := hp
    have hmem := List.mem_of_find?_eq_some hn
    have hid : n.id = p := by simpa using List.find?_some hn
    have := hlt n hmem
    omega
  have htlt : t < ctr0 := by
    simp only [FlowChart.get_node, Option.isSome_iff_exists] at ht
    obtain ⟨n, hn⟩ := ht
    have hmem := List.mem_of_find?_eq_some hn
    have hid : n.id = t := by simpa using List.find?_some hn
    have := hlt n hmem
    omega
  have hchart_p : (s.chart.get_node p).isSome = true :=
    get_node_isSome_append c0 s.chart tn p hnodes hp
  have hchart_t : (s.chart.get_node t).isSome = true :=
    get_node_isSome_append c0 s.chart tn t hnodes ht
  have hold_lt : ∀ n ∈ s.chart.nodes, n.id < s.ctr := by
    intro n hn
    rw [hnodes] at hn
    rcases List.mem_append.mp hn with hn | hn
    · have := hlt n hn; omega
    · exact (htn n hn).2
  rcases hir : s.irNodes.getLast? with _ | last
  -- first call site: no instance yet; the fresh instance is found by the scan
  · have hnil : s.irNodes = [] := by
      cases hcase : s.irNodes with
      | nil => rfl
      | cons a l => rw [hcase] at hir; simp [List.getLast?_cons] at hir
    have husednil : used = [] := by
      have hle := inv.len_eq
      rw [hnil] at hle
      simpa using (List.length_eq_zero.mp hle.symm)
    obtain ⟨cA, hcA⟩ : ∃ x, ({ s.chart with
        nodes := s.chart.nodes ++ [(⟨s.ctr, .processNode, label, []⟩ : Node)] } :
        FlowChart) = x := ⟨_, rfl⟩
    have hAnodes : cA.nodes = s.chart.nodes ++ [⟨s.ctr, .processNode, label, []⟩] := by
      rw [← hcA]
    have hAedges : cA.edges = s.chart.edges := by rw [← hcA]
    have h1 : getOrCreate label s = (⟨cA, [s.ctr], s.ctr + 1⟩, s.ctr) := by
      simp only [getOrCreate, hnil, List.getLast?_nil, createInstance, List.nil_append, hcA]
    have hA_p : (cA.get_node p).isSome = true :=
      get_node_isSome_append s.chart cA _ p hAnodes hchart_p
    have hA_t : (cA.get_node t).isSome = true :=
      get_node_isSome_append s.chart cA _ t hAnodes hchart_t
    have hA_cur : (cA.get_node s.ctr).isSome = true := by
      simp only [FlowChart.get_node, hAnodes]
      rw [find?_append_none (find?_id_none_of_lt _ _ hold_lt)]
      simp [List.find?]
    obtain ⟨cB, hcB⟩ : ∃ x, ({ cA with
        edges := cA.edges ++ [(⟨p, s.ctr, none, none, []⟩ : Edge)] } : FlowChart) = x :=
      ⟨_, rfl⟩
    have hBnodes : cB.nodes = cA.nodes := by rw [← hcB]
    have hBedges : cB.edges = s.chart.edges ++ [⟨p, s.ctr, none, none, []⟩] := by
      rw [← hcB]
      simp [hAedges]
    have h2 : addEdgeE cA ⟨p, s.ctr, none, none, []⟩ = .ok cB := by
      rw [← hcB]
      apply addEdgeE_new _ _ hA_p hA_cur
      rw [hAedges]
      apply find?_triple_none_of_tgt
      intro ex hex
      have := inv.tgt_lt ex hex
      simp
      omega
    have houtB : outgoing cB s.ctr = [] := by
      simp only [outgoing, hBedges, List.filter_append]
      rw [filter_src_nil _ _ (fun e he => by have := inv.src_lt e he; omega)]
      have : (p == s.ctr) = false := by simp; omega
      simp [List.filter, this]
    have hscan : scanInstances cB t [s.ctr] = some s.ctr := by
      simp [scanInstances, houtB]
    have h3 : getNodeForTarget label t ⟨cB, [s.ctr], s.ctr + 1⟩ =
        (⟨cB, [s.ctr], s.ctr + 1⟩, s.ctr) := by
      simp [getNodeForTarget, hscan]
    obtain ⟨cC, hcC⟩ : ∃ x, ({ cB with
        edges := cB.edges ++ [(⟨s.ctr, t, none, none, []⟩ : Edge)] } : FlowChart) = x :=
      ⟨_, rfl⟩
    have hCnodes : cC.nodes = s.chart.nodes ++ [⟨s.ctr, .processNode, label, []⟩] := by
      rw [← hcC]
      simp [hBnodes, hAnodes]
    have hCedges : cC.edges = (s.chart.edges ++ [⟨p, s.ctr, none, none, []⟩]) ++
        [⟨s.ctr, t, none, none, []⟩] := by
      rw [← hcC]
      simp [hBedges]
    have hB_cur : (cB.get_node s.ctr).isSome = true := by
      rw [get_node_eq_of_nodes_eq cA cB hBnodes]
      exact hA_cur
    have hB_t : (cB.get_node t).isSome = true := by
      rw [get_node_eq_of_nodes_eq cA cB hBnodes]
      exact hA_t
    have h4 : addEdgeE cB ⟨s.ctr, t, none, none, []⟩ = .ok cC := by
      rw [← hcC]
      apply addEdgeE_new _ _ hB_cur hB_t
      rw [hBedges]
      rw [find?_append_none]
      · apply find?_triple_none_of_src
        intro ex hex
        simp only [List.mem_singleton] at hex
        subst hex
        simp
        omega
      · apply find?_triple_none_of_src
        intro ex hex
        have := inv.src_lt ex hex
        simp
        omega
    refine ⟨cC, ?_, ?_⟩
    · have := invokeSite_run label p t s ⟨cA, [s.ctr], s.ctr + 1⟩ s.ctr h1
        cB h2 ⟨cB, [s.ctr], s.ctr + 1⟩ s.ctr h3 cC h4
      rw [hnil]
      simpa using this
    · refine ⟨?_, ?_, ?_, ?_, ?_, ?_, ?_, ?_⟩ <;> dsimp only
      · refine ⟨tn ++ [⟨s.ctr, .processNode, label, []⟩], ?_, ?_⟩
        · rw [hCnodes, hnodes, List.append_assoc]
        · intro n hn
          rcases List.mem_append.mp hn with hn | hn
          · have := htn n hn
            omega
          · simp only [List.mem_singleton] at hn
            subst hn
            simp
            omega
      · omega
      · intro e he
        rw [hCedges] at he
        rcases List.mem_append.mp he with he | he
        · rcases List.mem_append.mp he with he | he
          · have := inv.src_lt e he; omega
          · simp only [List.mem_singleton] at he; subst he; simp; omega
        · simp only [List.mem_singleton] at he; subst he; simp
      · intro e he
        rw [hCedges] at he
        rcases List.mem_append.mp he with he | he
        · rcases List.mem_append.mp he with he | he
          · have := inv.tgt_lt e he; omega
          · simp only [List.mem_singleton] at he; subst he; simp
        · simp only [List.mem_singleton] at he; subst he; simp; omega
      · intro i hi
        rw [hnil] at hi
        simp only [List.nil_append, List.mem_singleton] at hi
        subst hi
        exact ⟨hctrle, by omega⟩
      · intro i hi
        rw [hnil] at hi
        simp only [List.nil_append, List.mem_singleton] at hi
        subst hi
        show (FlowChart.get_node _ s.ctr).isSome = true
        have : cC.nodes = cB.nodes := by rw [hCnodes, ← hAnodes, ← hBnodes]
        rw [get_node_eq_of_nodes_eq cB cC this]
        exact hB_cur
      · intro i hi
        rw [hnil] at hi
        simp only [List.nil_append, List.mem_singleton] at hi
        subst hi
        refine ⟨t, by simp, ?_⟩
        simp only [outgoing, hCedges, List.filter_append]
        rw [filter_src_nil _ _ (fun e he => by have := inv.src_lt e he; omega)]
        have hps : (p == s.ctr) = false := by simp; omega
        simp [List.filter, hps]
      · rw [hnil, husednil]
        simp
  -- later call site: every instance is exhausted, a new instance is created
  · have hlast_mem : last ∈ s.irNodes := mem_of_getLast?_eq hir
    have hlast_some : (s.chart.get_node last).isSome = true := inv.ir_mem last hlast_mem
    have hlast_lt : last < s.ctr := (inv.ir_range last hlast_mem).2
    have h1 : getOrCreate label s = (s, last) := by
      simp [getOrCreate, hir]
    have hedge : ∃ cB, addEdgeE s.chart ⟨p, last, none, none, []⟩ = .ok cB ∧
        cB.nodes = s.chart.nodes ∧
        (cB.edges = s.chart.edges ∨
          cB.edges = s.chart.edges ++ [⟨p, last, none, none, []⟩]) := by
      rcases hdup : s.chart.edges.find?
          (fun ex => FlowChart.sameTriple ex ⟨p, last, none, none, []⟩) with _ | ex
      · exact ⟨_, addEdgeE_new _ _ hchart_p hlast_some hdup, rfl, Or.inr rfl⟩
      · exact ⟨_, addEdgeE_dup _ _ ex hchart_p hlast_some hdup, rfl, Or.inl rfl⟩
    obtain ⟨cB, h2, hBnodes, hBedges⟩ := hedge
    have hBsrc_lt : ∀ e ∈ cB.edges, e.source_id < s.ctr := by
      intro e he
      rcases hBedges with h | h <;> rw [h] at he
      · exact inv.src_lt e he
      · rcases List.mem_append.mp he with he | he
        · exact inv.src_lt e he
        · simp only [List.mem_singleton] at he; subst he; simp; omega
    have hBtgt_lt : ∀ e ∈ cB.edges, e.target_id < s.ctr := by
      intro e he
      rcases hBedges with h | h <;> rw [h] at he
      · exact inv.tgt_lt e he
      · rcases List.mem_append.mp he with he | he
        · exact inv.tgt_lt e he
        · simp only [List.mem_singleton] at he; subst he; simpa using hlast_lt
    have hout_same : ∀ i, ctr0 ≤ i → outgoing cB i = outgoing s.chart i := by
      intro i hi
      rcases hBedges with h | h
      · simp [outgoing, h]
      · simp only [outgoing, h, List.filter_append]
        have : (p == i) = false := by simp; omega
        simp [List.filter, this]
    have hscan : scanInstances cB t s.irNodes = none := by
      apply scanInstances_none
      intro i hi
      obtain ⟨u, hu_mem, hout⟩ := inv.ir_out i hi
      refine ⟨u, fun hcon => hnew (hcon ▸ hu_mem), ?_⟩
      rw [hout_same i (inv.ir_range i hi).1, hout]
    obtain ⟨cD, hcD⟩ : ∃ x, ({ cB with
        nodes := cB.nodes ++ [(⟨s.ctr, .processNode, label, []⟩ : Node)] } : FlowChart) = x :=
      ⟨_, rfl⟩
    have hDnodes : cD.nodes = s.chart.nodes ++ [⟨s.ctr, .processNode, label, []⟩] := by
      rw [← hcD]
      simp [hBnodes]
    have hDedges : cD.edges = cB.edges := by rw [← hcD]
    have h3 : getNodeForTarget label t ⟨cB, s.irNodes, s.ctr⟩ =
        (⟨cD, s.irNodes ++ [s.ctr], s.ctr + 1⟩, s.ctr) := by
      simp only [getNodeForTarget, hscan, createInstance, hcD]
    have hD_cur : (cD.get_node s.ctr).isSome = true := by
      simp only [FlowChart.get_node, hDnodes]
      rw [find?_append_none (find?_id_none_of_lt _ _ hold_lt)]
      simp [List.find?]
    have hD_t : (cD.get_node t).isSome = true :=
      get_node_isSome_append s.chart cD _ t hDnodes hchart_t
    obtain ⟨cC, hcC⟩ : ∃ x, ({ cD with
        edges := cD.edges ++ [(⟨s.ctr, t, none, none, []⟩ : Edge)] } : FlowChart) = x :=
      ⟨_, rfl⟩
    have hCnodes : cC.nodes = s.chart.nodes ++ [⟨s.ctr, .processNode, label, []⟩] := by
      rw [← hcC]
      simp [hDnodes]
    have hCedges : cC.edges = cB.edges ++ [⟨s.ctr, t, none, none, []⟩] := by
      rw [← hcC]
      simp [hDedges]
    have h4 : addEdgeE cD ⟨s.ctr, t, none, none, []⟩ = .ok cC := by
      rw [← hcC]
      apply addEdgeE_new _ _ hD_cur hD_t
      rw [hDedges]
      apply find?_triple_none_of_src
      intro ex hex
      have := hBsrc_lt ex hex
      simp
      omega
    refine ⟨cC, ?_, ?_⟩
    · exact invokeSite_run label p t s s last h1 cB h2
        ⟨cD, s.irNodes ++ [s.ctr], s.ctr + 1⟩ s.ctr h3 cC h4
    · refine ⟨?_, ?_, ?_, ?_, ?_, ?_, ?_, ?_⟩ <;> dsimp only
      · refine ⟨tn ++ [⟨s.ctr, .processNode, label, []⟩], ?_, ?_⟩
        · rw [hCnodes, hnodes, List.append_assoc]
        · intro n hn
          rcases List.mem_append.mp hn with hn | hn
          · have := htn n hn
            omega
          · simp only [List.mem_singleton] at hn
            subst hn
            simp
            omega
      · omega
      · intro e he
        rw [hCedges] at he
        rcases List.mem_append.mp he with he | he
        · have := hBsrc_lt e he; omega
        · simp only [List.mem_singleton] at he; subst he; simp
      · intro e he
        rw [hCedges] at he
        rcases List.mem_append.mp he with he | he
        · have := hBtgt_lt e he; omega
        · simp only [List.mem_singleton] at he; subst he; simp; omega
      · intro i hi
        rcases List.mem_append.mp hi with hi | hi
        · have := inv.ir_range i hi
          exact ⟨this.1, by omega⟩
        · simp only [List.mem_singleton] at hi
          subst hi
          exact ⟨hctrle, by omega⟩
      · intro i hi
        rcases List.mem_append.mp hi with hi | hi
        · have hCB : cC.nodes = cB.nodes ++ [⟨s.ctr, .processNode, label, []⟩] := by
            rw [hCnodes, hBnodes]
          exact get_node_isSome_append cB cC _ i hCB (by
            rw [get_node_eq_of_nodes_eq s.chart cB hBnodes]
            exact inv.ir_mem i hi)
        · simp only [List.mem_singleton] at hi
          subst hi
          show (FlowChart.get_node _ s.ctr).isSome = true
          have : cC.nodes = cD.nodes := by rw [hCnodes, hDnodes]
          rw [get_node_eq_of_nodes_eq cD cC this]
          exact hD_cur
      · intro i hi
        rcases List.mem_append.mp hi with hi | hi
        · obtain ⟨u, hu_mem, hout⟩ := inv.ir_out i hi
          refine ⟨u, List.mem_append_left _ hu_mem, ?_⟩
          have hilt : i < s.ctr := (inv.ir_range i hi).2
          have : outgoing cC i = outgoing cB i := by
            simp only [outgoing, hCedges, List.filter_append]
            have : (s.ctr == i) = false := by simp; omega
            simp [List.filter, this]
          rw [this, hout_same i (inv.ir_range i hi).1, hout]
        · simp only [List.mem_singleton] at hi
          subst hi
          refine ⟨t, by simp, ?_⟩
          simp only [outgoing, hCedges, List.filter_append]
          rw [filter_src_nil _ _ (fun e he => by have := hBsrc_lt e he; omega)]
          simp [List.filter]
      · rw [List.length_append, inv.len_eq]
        simp

theorem runSites_cons (label : String) (pt : Nat × Nat) (rest : List (Nat × Nat))
    (s : DefState) :
    runSites label (pt :: rest) s =
      (invokeSite label pt.1 pt.2 s).bind (fun s2 => runSites label rest s2) := by
  rfl

/-- Folding the distinct-targets step over a list of call sites. -/
theorem runSitesB (c0 : FlowChart) (ctr0 : Nat) (label : String)
    (hlt : ∀ n ∈ c0.nodes, n.id < ctr0) :
    ∀ (sites : List (Nat × Nat)) (used : List Nat) (s : DefState),
    InvB c0 ctr0 label used s →
    (∀ pt ∈ sites, (c0.get_node pt.1).isSome = true ∧ (c0.get_node pt.2).isSome = true) →
    (∀ pt ∈ sites, pt.2 ∉ used) →
    (sites.map Prod.snd).Nodup →
    ∃ s2, runSites label sites s = .ok s2 ∧
      InvB c0 ctr0 label (used ++ sites.map Prod.snd) s2 := by
  intro sites
  induction sites with
  | nil =>
    intro used s inv _ _ _
    exact ⟨s, rfl, by simpa using inv⟩
  | cons pt rest ih =>
    intro used s inv hmem hnotused hnodup
    obtain ⟨c2, hrun, inv2⟩ := invokeSite_stepB c0 ctr0 label used s inv hlt pt.1 pt.2
      (hmem pt (by simp)).1 (hmem pt (by simp)).2 (hnotused pt (by simp))
    obtain ⟨s3, hrun3, inv3⟩ := ih (used ++ [pt.2]) _ inv2
      (fun q hq => hmem q (by simp [hq]))
      (fun q hq => by
        intro hcon
        rcases List.mem_append.mp hcon with h | h
        · exact hnotused q (by simp [hq]) h
        · simp only [List.mem_singleton] at h
          have hq2 : q.2 ∈ rest.map Prod.snd := List.mem_map_of_mem _ hq
          simp only [List.map_cons, List.nodup_cons] at hnodup
          exact hnodup.1 (h ▸ hq2))
      (by simp only [List.map_cons, List.nodup_cons] at hnodup; exact hnodup.2)
    refine ⟨s3, ?_, by simpa [List.append_assoc] using inv3⟩
    rw [runSites_cons, hrun]
    simpa [Except.bind] using hrun3

/-- The first call site of an all-same-target run: the single instance is
created, receives its incoming edge, and is wired to the target. -/
theorem invokeSite_baseC (c0 : FlowChart) (ctr0 : Nat) (label : String)
    (hlt : ∀ n ∈ c0.nodes, n.id < ctr0)
    (hsrc : ∀ e ∈ c0.edges, ∃ n ∈ c0.nodes, n.id = e.source_id)
    (htgt : ∀ e ∈ c0.edges, ∃ n ∈ c0.nodes, n.id = e.target_id)
    (p t : Nat)
    (hp : (c0.get_node p).isSome = true)
    (ht : (c0.get_node t).isSome = true) :
    ∃ c2, invokeSite label p t ⟨c0, [], ctr0⟩ = .ok ⟨c2, [ctr0], ctr0 + 1⟩ ∧
      InvC c0 ctr0 label t [p] ⟨c2, [ctr0], ctr0 + 1⟩ := by
  have hplt : p < ctr0 := by
    simp only [FlowChart.get_node, Option.isSome_iff_exists] at hp
    obtain ⟨n, hn⟩ := hp
    have hmem := List.mem_of_find?_eq_some hn
    have hid : n.id = p := by simpa using List.find?_some hn
    have := hlt n hmem
    omega
  have htlt : t < ctr0 := by
    simp only [FlowChart.get_node, Option.isSome_iff_exists] at ht
    obtain ⟨n, hn⟩ := ht
    have hmem := List.mem_of_find?_eq_some hn
    have hid : n.id = t := by simpa using List.find?_some hn
    have := hlt n hmem
    omega
  have hsrc_lt : ∀ e ∈ c0.edges, e.source_id < ctr0 := by
    intro e he
    obtain ⟨n, hn, hid⟩ := hsrc e he
    have := hlt n hn
    omega
  have htgt_lt : ∀ e ∈ c0.edges, e.target_id < ctr0 := by
    intro e he
    obtain ⟨n, hn, hid⟩ := htgt e he
    have := hlt n hn
    omega
  obtain ⟨cA, hcA⟩ : ∃ x, ({ c0 with
      nodes := c0.nodes ++ [(⟨ctr0, .processNode, label, []⟩ : Node)] } : FlowChart) = x :=
    ⟨_, rfl⟩
  have hAnodes : cA.nodes = c0.nodes ++ [⟨ctr0, .processNode, label, []⟩] := by rw [← hcA]
  have hAedges : cA.edges = c0.edges := by rw [← hcA]
  have h1 : getOrCreate label ⟨c0, [], ctr0⟩ = (⟨cA, [ctr0], ctr0 + 1⟩, ctr0) := by
    simp only [getOrCreate, List.getLast?_nil, createInstance, List.nil_append, hcA]
  have hA_p : (cA.get_node p).isSome = true := get_node_isSome_append c0 cA _ p hAnodes hp
  have hA_t : (cA.get_node t).isSome = true := get_node_isSome_append c0 cA _ t hAnodes ht
  have hA_cur : (cA.get_node ctr0).isSome = true := by
    simp only [FlowChart.get_node, hAnodes]
    rw [find?_append_none (find?_id_none_of_lt _ _ hlt)]
    simp [List.find?]
  obtain ⟨cB, hcB⟩ : ∃ x, ({ cA with
      edges := cA.edges ++ [(⟨p, ctr0, none, none, []⟩ : Edge)] } : FlowChart) = x :=
    ⟨_, rfl⟩
  have hBnodes : cB.nodes = cA.nodes := by rw [← hcB]
  have hBedges : cB.edges = c0.edges ++ [⟨p, ctr0, none, none, []⟩] := by
    rw [← hcB]
    simp [hAedges]
  have h2 : addEdgeE cA ⟨p, ctr0, none, none, []⟩ = .ok cB := by
    rw [← hcB]
    apply addEdgeE_new _ _ hA_p hA_cur
    rw [hAedges]
    apply find?_triple_none_of_tgt
    intro ex hex
    have := htgt_lt ex hex
    simp
    omega
  have houtB : outgoing cB ctr0 = [] := by
    simp only [outgoing, hBedges, List.filter_append]
    rw [filter_src_nil _ _ (fun e he => by have := hsrc_lt e he; omega)]
    have : (p == ctr0) = false := by simp; omega
    simp [List.filter, this]
  have h3 : getNodeForTarget label t ⟨cB, [ctr0], ctr0 + 1⟩ =
      (⟨cB, [ctr0], ctr0 + 1⟩, ctr0) := by
    simp [getNodeForTarget, scanInstances, houtB]
  obtain ⟨cC, hcC⟩ : ∃ x, ({ cB with
      edges := cB.edges ++ [(⟨ctr0, t, none, none, []⟩ : Edge)] } : FlowChart) = x :=
    ⟨_, rfl⟩
  have hCnodes : cC.nodes = c0.nodes ++ [⟨ctr0, .processNode, label, []⟩] := by
    rw [← hcC]
    simp [hBnodes, hAnodes]
  have hCedges : cC.edges = (c0.edges ++ [⟨p, ctr0, none, none, []⟩]) ++
      [⟨ctr0, t, none, none, []⟩] := by
    rw [← hcC]
    simp [hBedges]
  have hB_cur : (cB.get_node ctr0).isSome = true := by
    rw [get_node_eq_of_nodes_eq cA cB hBnodes]
    exact hA_cur
  have hB_t : (cB.get_node t).isSome = true := by
    rw [get_node_eq_of_nodes_eq cA cB hBnodes]
    exact hA_t
  have h4 : addEdgeE cB ⟨ctr0, t, none, none, []⟩ = .ok cC := by
    rw [← hcC]
    apply addEdgeE_new _ _ hB_cur hB_t
    rw [hBedges]
    rw [find?_append_none]
    · apply find?_triple_none_of_src
      intro ex hex
      simp only [List.mem_singleton] at hex
      subst hex
      simp
      omega
    · apply find?_triple_none_of_src
      intro ex hex
      have := hsrc_lt ex hex
      simp
      omega
  refine ⟨cC, ?_, ?_⟩
  · have := invokeSite_run label p t ⟨c0, [], ctr0⟩ ⟨cA, [ctr0], ctr0 + 1⟩ ctr0 h1
      cB h2 ⟨cB, [ctr0], ctr0 + 1⟩ ctr0 h3 cC h4
    simpa using this
  · refine ⟨?_, rfl, rfl, ?_, ?_, ?_⟩ <;> dsimp only
    · exact hCnodes
    · simp only [outgoing, hCedges, List.filter_append]
      rw [filter_src_nil _ _ (fun e he => by have := hsrc_lt e he; omega)]
      have hps : (p == ctr0) = false := by simp; omega
      simp [List.filter, hps]
    · simp only [incoming, hCedges, List.filter_append]
      rw [filter_tgt_nil _ _ (fun e he => by have := htgt_lt e he; omega)]
      have hpt : (ctr0 == ctr0) = true := by simp
      have htc : (t == ctr0) = false := by simp; omega
      simp [List.filter, htc]
    · intro e he
      rw [hCedges] at he
      rcases List.mem_append.mp he with he | he
      · rcases List.mem_append.mp he with he | he
        · intro hcon
          have := htgt_lt e he
          omega
        · simp only [List.mem_singleton] at he
          subst he
          intro _
          simp
      · simp only [List.mem_singleton] at he
        subst he
        intro hcon
        simp at hcon
        omega

/-- A later call site of an all-same-target run: the single instance is
reused, one incoming edge is appended, and the outgoing edge is suppressed
as a duplicate. -/
theorem invokeSite_stepC (c0 : FlowChart) (ctr0 : Nat) (label : String) (t : Nat)
    (usedPrevs : List Nat) (s : DefState)
    (inv : InvC c0 ctr0 label t usedPrevs s)
    (hlt : ∀ n ∈ c0.nodes, n.id < ctr0)
    (p : Nat)
    (hp : (c0.get_node p).isSome = true)
    (ht : (c0.get_node t).isSome = true)
    (hpnew : p ∉ usedPrevs) :
    ∃ c2, invokeSite label p t s = .ok ⟨c2, [ctr0], ctr0 + 1⟩ ∧
      InvC c0 ctr0 label t (usedPrevs ++ [p]) ⟨c2, [ctr0], ctr0 + 1⟩ := by
  have hplt : p < ctr0 := by
    simp only [FlowChart.get_node, Option.isSome_iff_exists] at hp
    obtain ⟨n, hn⟩ := hp
    have hmem := List.mem_of_find?_eq_some hn
    have hid : n.id = p := by simpa using List.find?_some hn
    have := hlt n hmem
    omega
  have hchart_p : (s.chart.get_node p).isSome = true :=
    get_node_isSome_append c0 s.chart _ p inv.nodes_eq hp
  have hchart_cur : (s.chart.get_node ctr0).isSome = true := by
    simp only [FlowChart.get_node, inv.nodes_eq]
    rw [find?_append_none (find?_id_none_of_lt _ _ hlt)]
    simp [List.find?]
  have h1 : getOrCreate label s = (s, ctr0) := by
    simp [getOrCreate, inv.ir_eq, List.getLast?_cons]
  obtain ⟨cB, hcB⟩ : ∃ x, ({ s.chart with
      edges := s.chart.edges ++ [(⟨p, ctr0, none, none, []⟩ : Edge)] } : FlowChart) = x :=
    ⟨_, rfl⟩
  have hBnodes : cB.nodes = s.chart.nodes := by rw [← hcB]
  have hBedges : cB.edges = s.chart.edges ++ [⟨p, ctr0, none, none, []⟩] := by rw [← hcB]
  have h2 : addEdgeE s.chart ⟨p, ctr0, none, none, []⟩ = .ok cB := by
    rw [← hcB]
    apply addEdgeE_new _ _ hchart_p hchart_cur
    rw [List.find?_eq_none]
    intro ex hex hcon
    rcases (sameTriple_iff ex _).mp hcon with ⟨hs1, hs2, _⟩
    dsimp only at hs1 hs2
    exact hpnew (hs1 ▸ inv.in_src ex hex hs2)
  have houtB : outgoing cB ctr0 = [⟨ctr0, t, none, none, []⟩] := by
    have hout := inv.out_eq
    simp only [outgoing] at hout ⊢
    rw [hBedges, List.filter_append]
    have hps : (p == ctr0) = false := by simp; omega
    simp [List.filter, hps, hout]
  have h3 : getNodeForTarget label t ⟨cB, s.irNodes, s.ctr⟩ =
      (⟨cB, s.irNodes, s.ctr⟩, ctr0) := by
    rw [inv.ir_eq]
    simp [getNodeForTarget, scanInstances, houtB]
  have hte_mem : (⟨ctr0, t, none, none, []⟩ : Edge) ∈ cB.edges := by
    have : (⟨ctr0, t, none, none, []⟩ : Edge) ∈ outgoing cB ctr0 := by
      rw [houtB]; simp
    simp only [outgoing, List.mem_filter] at this
    exact this.1
  have h4 : addEdgeE cB ⟨ctr0, t, none, none, []⟩ = .ok cB := by
    have hfind : (cB.edges.find?
        (fun ex => FlowChart.sameTriple ex ⟨ctr0, t, none, none, []⟩)).isSome = true := by
      rw [List.find?_isSome]
      exact ⟨_, hte_mem, by simp [FlowChart.sameTriple]⟩
    rcases hx : cB.edges.find?
        (fun ex => FlowChart.sameTriple ex ⟨ctr0, t, none, none, []⟩) with _ | ex
    · rw [hx] at hfind; simp at hfind
    · apply addEdgeE_dup _ _ ex _ _ hx
      · rw [get_node_eq_of_nodes_eq s.chart cB hBnodes]
        exact hchart_cur
      · rw [get_node_eq_of_nodes_eq s.chart cB hBnodes]
        exact get_node_isSome_append c0 s.chart _ t inv.nodes_eq ht
  refine ⟨cB, ?_, ?_⟩
  · have := invokeSite_run label p t s s ctr0 h1 cB h2
      ⟨cB, s.irNodes, s.ctr⟩ ctr0 h3 cB h4
    rw [inv.ir_eq, inv.ctr_eq] at this
    simpa using this
  · refine ⟨?_, rfl, rfl, ?_, ?_, ?_⟩ <;> dsimp only
    · rw [hBnodes]
      exact inv.nodes_eq
    · exact houtB
    · have hinlen := inv.in_len
      simp only [incoming] at hinlen ⊢
      rw [hBedges, List.filter_append, List.length_append, hinlen]
      simp [List.filter]
    · intro e he
      rw [hBedges] at he
      rcases List.mem_append.mp he with he | he
      · intro hcon
        exact List.mem_append_left _ (inv.in_src e he hcon)
      · simp only [List.mem_singleton] at he
        subst he
        intro _
        simp

/-- Folding the same-target step over the remaining call sites. -/
theorem runSitesC (c0 : FlowChart) (ctr0 : Nat) (label : String) (t : Nat)
    (hlt : ∀ n ∈ c0.nodes, n.id < ctr0)
    (ht : (c0.get_node t).isSome = true) :
    ∀ (sites : List (Nat × Nat)) (usedPrevs : List Nat) (s : DefState),
    InvC c0 ctr0 label t usedPrevs s →
    (∀ pt ∈ sites, (c0.get_node pt.1).isSome = true) →
    (∀ pt ∈ sites, pt.2 = t) →
    (∀ pt ∈ sites, pt.1 ∉ usedPrevs) →
    (sites.map Prod.fst).Nodup →
    ∃ s2, runSites label sites s = .ok s2 ∧
      InvC c0 ctr0 label t (usedPrevs ++ sites.map Prod.fst) s2 := by
  intro sites
  induction sites with
  | nil =>
    intro u s inv _ _ _ _
    exact ⟨s, rfl, by simpa using inv⟩
  | cons pt rest ih =>
    intro u s inv hmem hsame hdisj hnodup
    obtain ⟨c2, hrun, inv2⟩ := invokeSite_stepC c0 ctr0 label t u s inv hlt pt.1
      (hmem pt (by simp)) ht (hdisj pt (by simp))
    have hpt2 : pt.2 = t := hsame pt (by simp)
    obtain ⟨s3, hrun3, inv3⟩ := ih (u ++ [pt.1]) _ inv2
      (fun q hq => hmem q (by simp [hq]))
      (fun q hq => hsame q (by simp [hq]))
      (fun q hq => by
        intro hcon
        rcases List.mem_append.mp hcon with h | h
        · exact hdisj q (by simp [hq]) h
        · simp only [List.mem_singleton] at h
          have hq1 : q.1 ∈ rest.map Prod.fst := List.mem_map_of_mem _ hq
          simp only [List.map_cons, List.nodup_cons] at hnodup
          exact hnodup.1 (h ▸ hq1))
      (by simp only [List.map_cons, List.nodup_cons] at hnodup; exact hnodup.2)
    refine ⟨s3, ?_, by simpa [List.append_assoc] using inv3⟩
    rw [runSites_cons, hpt2, hrun]
    simpa [Except.bind] using hrun3

/-- C1: shared-node resolution.  The scan is first-fit over the instances in
creation order (no outgoing edge yet, or an outgoing edge to the desired
target); k call sites with pairwise-distinct next-step targets produce
exactly k instances; k call sites with one common next-step target produce
exactly one instance carrying k incoming edges and one outgoing edge. -/
theorem shared_node_resolution (label : String) (c0 : FlowChart) (ctr0 : Nat)
    (sites : List (Nat × Nat))
    (hlt : ∀ n ∈ c0.nodes, n.id < ctr0)
    (hsrc : ∀ e ∈ c0.edges, ∃ n ∈ c0.nodes, n.id = e.source_id)
    (htgt : ∀ e ∈ c0.edges, ∃ n ∈ c0.nodes, n.id = e.target_id)
    (hmem : ∀ pt ∈ sites,
      (c0.get_node pt.1).isSome = true ∧ (c0.get_node pt.2).isSome = true) :
    (∀ (c : FlowChart) (t2 : Nat) (ns : List Nat),
      scanInstances c t2 ns = ns.find? (fun n =>
        (outgoing c n).isEmpty || (outgoing c n).any (fun e => e.target_id == t2))) ∧
    ((sites.map Prod.snd).Nodup →
      ∃ s2, runSites label sites ⟨c0, [], ctr0⟩ = .ok s2 ∧
        s2.irNodes.length = sites.length) ∧
    (∀ t, sites ≠ [] → (∀ pt ∈ sites, pt.2 = t) → (sites.map Prod.fst).Nodup →
      ∃ s2, runSites label sites ⟨c0, [], ctr0⟩ = .ok s2 ∧
        s2.irNodes = [ctr0] ∧
        (incoming s2.chart ctr0).length = sites.length ∧
        (outgoing s2.chart ctr0).length = 1) := by
  refine ⟨fun c t2 ns => scanInstances_eq_find? c t2 ns, ?_, ?_⟩
  · intro hnodup
    have hinv0 : InvB c0 ctr0 label [] ⟨c0, [], ctr0⟩ := by
      refine ⟨?_, ?_, ?_, ?_, ?_, ?_, ?_, ?_⟩ <;> dsimp only
      · exact ⟨[], by simp, by simp⟩
      · exact le_refl _
      · intro e he
        obtain ⟨n, hn, hid⟩ := hsrc e he
        have := hlt n hn
        omega
      · intro e he
        obtain ⟨n, hn, hid⟩ := htgt e he
        have := hlt n hn
        omega
      · simp
      · simp
      · simp
    obtain ⟨s2, hrun, inv2⟩ :=
      runSitesB c0 ctr0 label hlt sites [] ⟨c0, [], ctr0⟩ hinv0 hmem (by simp) hnodup
    refine ⟨s2, hrun, ?_⟩
    rw [inv2.len_eq]
    simp
  · intro t hne hsame hnodup
    rcases hs : sites with _ | ⟨pt0, rest⟩
    · exact absurd hs hne
    subst hs
    have hpt0t : pt0.2 = t := hsame pt0 (by simp)
    have ht : (c0.get_node t).isSome = true := by
      rw [← hpt0t]
      exact (hmem pt0 (by simp)).2
    obtain ⟨c2, hrun0, inv1⟩ := invokeSite_baseC c0 ctr0 label hlt hsrc htgt pt0.1 t
      (hmem pt0 (by simp)).1 ht
    obtain ⟨s2, hrun, inv2⟩ := runSitesC c0 ctr0 label t hlt ht rest [pt0.1] _ inv1
      (fun q hq => (hmem q (by simp [hq])).1)
      (fun q hq => hsame q (by simp [hq]))
      (fun q hq => by
        intro hcon
        simp only [List.mem_singleton] at hcon
        have hq1 : q.1 ∈ rest.map Prod.fst := List.mem_map_of_mem _ hq
        simp only [List.map_cons, List.nodup_cons] at hnodup
        exact hnodup.1 (hcon ▸ hq1))
      (by simp only [List.map_cons, List.nodup_cons] at hnodup; exact hnodup.2)
    refine ⟨s2, ?_, inv2.ir_eq, ?_, ?_⟩
    · rw [runSites_cons, hpt0t, hrun0]
      simpa [Except.bind] using hrun
    · rw [inv2.in_len]
      simp
    · rw [inv2.out_eq]
      simp

/-- C1 witness: from a four-node chart, three call sites with distinct
targets yield three instances, and three call sites sharing target 3 yield
one instance with three incoming edges and one outgoing edge. -/
theorem shared_node_resolution_witness :
    let c0 : FlowChart := ⟨0, "G", [⟨0, .processNode, "P", []⟩, ⟨1, .processNode, "X", []⟩,
      ⟨2, .processNode, "Y", []⟩, ⟨3, .processNode, "T", []⟩], [], []⟩
    (∃ s2, runSites "d" [(0, 1), (1, 2), (2, 3)] ⟨c0, [], 10⟩ = .ok s2 ∧
      s2.irNodes.length = 3) ∧
    (∃ s2, runSites "d" [(0, 3), (1, 3), (2, 3)] ⟨c0, [], 10⟩ = .ok s2 ∧
      s2.irNodes = [10] ∧
      (incoming s2.chart 10).length = 3 ∧
      (outgoing s2.chart 10).length = 1) := by
  constructor
  · exact (shared_node_resolution "d" _ 10 [(0, 1), (1, 2), (2, 3)]
      (by decide) (by decide) (by decide) (by decide)).2.1 (by decide)
  · exact (shared_node_resolution "d" _ 10 [(0, 3), (1, 3), (2, 3)]
      (by decide) (by decide) (by decide) (by decide)).2.2 3
      (by decide) (by decide) (by decide)

/-! ### Frame lemmas for the flow builder (C3, C4, C6) -/

theorem addNodeE_ok_elim {c : FlowChart} {n : Node} {c2 : FlowChart}
    (h : addNodeE c n = .ok c2) :
    c2.nodes = c.nodes ++ [n] ∧ c2.edges = c.edges := by
  unfold addNodeE FlowChart.add_node at h
  by_cases hc : (c.get_node n.id).isSome = true
  · rw [if_pos hc] at h
    simp at h
  · rw [if_neg hc] at h
    dsimp only at h
    simp only [Except.ok.injEq] at h
    subst h
    exact ⟨rfl, rfl⟩

theorem addEdgeE_ok_elim {c : FlowChart} {e : Edge} {c2 : FlowChart}
    (h : addEdgeE c e = .ok c2) :
    c2.nodes = c.nodes ∧ (c2.edges = c.edges ∨ c2.edges = c.edges ++ [e]) := by
  unfold addEdgeE FlowChart.add_edge at h
  by_cases hs : (c.get_node e.source_id).isNone = true
  · rw [if_pos hs] at h
    simp at h
  · by_cases ht : (c.get_node e.target_id).isNone = true
    · rw [if_neg hs, if_pos ht] at h
      simp at h
    · rw [if_neg hs, if_neg ht] at h
      rcases hfind : c.edges.find? (fun ex => FlowChart.sameTriple ex e) with _ | ex <;>
          rw [hfind] at h <;> dsimp only at h <;> simp only [Except.ok.injEq] at h <;> subst h
      · exact ⟨rfl, Or.inr rfl⟩
      · exact ⟨rfl, Or.inl rfl⟩

theorem addEdgeE_ok_mem {c : FlowChart} {e : Edge} {c2 : FlowChart}
    (h : addEdgeE c e = .ok c2) :
    ∃ ex ∈ c2.edges, ex.source_id = e.source_id ∧ ex.target_id = e.target_id ∧
      ex.label = e.label := by
  unfold addEdgeE FlowChart.add_edge at h
  by_cases hs : (c.get_node e.source_id).isNone = true
  · rw [if_pos hs] at h
    simp at h
  · by_cases ht : (c.get_node e.target_id).isNone = true
    · rw [if_neg hs, if_pos ht] at h
      simp at h
    · rw [if_neg hs, if_neg ht] at h
      rcases hfind : c.edges.find? (fun ex => FlowChart.sameTriple ex e) with _ | ex <;>
          rw [hfind] at h <;> dsimp only at h <;> simp only [Except.ok.injEq] at h <;> subst h
      · exact ⟨e, by simp, rfl, rfl, rfl⟩
      · have hmem := List.mem_of_find?_eq_some hfind
        have hp : FlowChart.sameTriple ex e = true := by
          have := List.find?_some hfind
          simpa using this
        have hst := (sameTriple_iff ex e).mp hp
        exact ⟨ex, hmem, hst.1, hst.2.1, hst.2.2⟩

theorem connectExits_ok_elim :
    ∀ (exits : List ExitEntry) (t : Nat) (c c2 : FlowChart),
    connectExits exits t c = .ok c2 →
    c2.nodes = c.nodes ∧
    ∃ te, c2.edges = c.edges ++ te ∧
      ∀ e ∈ te, (∃ nl ∈ exits, nl.1 = e.source_id ∧ nl.2 = e.label) ∧ e.target_id = t := by
  intro exits
  induction exits with
  | nil =>
    intro t c c2 h
    simp only [connectExits, List.foldlM] at h
    simp only [pure, Except.pure, Except.ok.injEq] at h
    subst h
    exact ⟨rfl, [], by simp, by simp⟩
  | cons nl rest ih =>
    intro t c c2 h
    simp only [connectExits, List.foldlM, bind, Except.bind] at h
    rcases h1 : addEdgeE c ⟨nl.1, t, nl.2, none, []⟩ with err | cmid <;> rw [h1] at h
    · simp at h
    · obtain ⟨hn1, he1⟩ := addEdgeE_ok_elim h1
      obtain ⟨hn2, te, he2, hte⟩ := ih t cmid c2 h
      refine ⟨by rw [hn2, hn1], ?_⟩
      rcases he1 with he1 | he1
      · exact ⟨te, by rw [he2, he1], fun e he => by
          obtain ⟨⟨nl2, hnl2, hp⟩, htg⟩ := hte e he
          exact ⟨⟨nl2, by simp [hnl2], hp⟩, htg⟩⟩
      · refine ⟨⟨nl.1, t, nl.2, none, []⟩ :: te, by rw [he2, he1]; simp, ?_⟩
        intro e he
        rcases List.mem_cons.mp he with he | he
        · subst he
          exact ⟨⟨nl, by simp, rfl, rfl⟩, rfl⟩
        · obtain ⟨⟨nl2, hnl2, hp⟩, htg⟩ := hte e he
          exact ⟨⟨nl2, by simp [hnl2], hp⟩, htg⟩

theorem backEdges_ok_elim :
    ∀ (exits : List ExitEntry) (head : Nat) (c c2 : FlowChart),
    backEdges exits head c = .ok c2 →
    c2.nodes = c.nodes ∧
    (∃ te, c2.edges = c.edges ++ te ∧
      ∀ e ∈ te, (∃ nl ∈ exits, nl.1 = e.source_id) ∧ e.target_id = head ∧ e.label = none) ∧
    ∀ nl ∈ exits, ∃ ex ∈ c2.edges, ex.source_id = nl.1 ∧ ex.target_id = head := by
  intro exits
  induction exits with
  | nil =>
    intro head c c2 h
    simp only [backEdges, List.foldlM] at h
    simp only [pure, Except.pure, Except.ok.injEq] at h
    subst h
    exact ⟨rfl, ⟨[], by simp, by simp⟩, by simp⟩
  | cons nl rest ih =>
    intro head c c2 h
    simp only [backEdges, List.foldlM, bind, Except.bind] at h
    rcases h1 : addEdgeE c ⟨nl.1, head, none, none, []⟩ with err | cmid <;> rw [h1] at h
    · simp at h
    · obtain ⟨hn1, he1⟩ := addEdgeE_ok_elim h1
      obtain ⟨hex, hexmem, hexs, hext, _⟩ := addEdgeE_ok_mem h1
      obtain ⟨hn2, ⟨te, he2, hte⟩, hback⟩ := ih head cmid c2 h
      have hmono : ∀ ex ∈ cmid.edges, ex ∈ c2.edges := by
        intro ex hm
        rw [he2]
        exact List.mem_append_left _ hm
      refine ⟨by rw [hn2, hn1], ?_, ?_⟩
      · rcases he1 with he1 | he1
        · exact ⟨te, by rw [he2, he1], fun e he => by
            obtain ⟨⟨nl2, hnl2, hp⟩, htg⟩ := hte e he
            exact ⟨⟨nl2, by simp [hnl2], hp⟩, htg⟩⟩
        · refine ⟨⟨nl.1, head, none, none, []⟩ :: te, by rw [he2, he1]; simp, ?_⟩
          intro e he
          rcases List.mem_cons.mp he with he | he
          · subst he
            exact ⟨⟨nl, by simp, rfl⟩, rfl, rfl⟩
          · obtain ⟨⟨nl2, hnl2, hp⟩, htg⟩ := hte e he
            exact ⟨⟨nl2, by simp [hnl2], hp⟩, htg⟩
      · intro nl2 hnl2
        rcases List.mem_cons.mp hnl2 with hh | hh
        · subst hh
          exact ⟨hex, hmono hex hexmem, hexs, hext⟩
        · exact hback nl2 hh

theorem exists_node_append {N1 tn : List Node} {nid : Nat}
    (h : ∃ n ∈ N1, n.id = nid) : ∃ n ∈ N1 ++ tn, n.id = nid := by
  obtain ⟨n, hn, h2⟩ := h
  exact ⟨n, List.mem_append_left _ hn, h2⟩

theorem runStmt_step_ok_elim {label : String} {ctx ctx2 : BCtx}
    (h : runStmt (.step label) ctx = .ok ctx2) :
    ∃ cA cB, addNodeE ctx.chart ⟨ctx.ctr, .processNode, label, []⟩ = .ok cA ∧
      connectExits ctx.exits ctx.ctr cA = .ok cB ∧
      ctx2 = ⟨cB, [(ctx.ctr, none)], ctx.loopStack, ctx.ctr + 1⟩ := by
  simp only [runStmt, bind, Except.bind] at h
  split at h
  · exact absurd h (by simp)
  · rename_i cA h1
    split at h
    · exact absurd h (by simp)
    · rename_i cB h2
      simp only [Except.ok.injEq] at h
      exact ⟨cA, cB, h1, h2, h.symm⟩

theorem runStmt_end_ok_elim {label : String} {ctx ctx2 : BCtx}
    (h : runStmt (.endS label) ctx = .ok ctx2) :
    ∃ cA cB, addNodeE ctx.chart ⟨ctx.ctr, .endNode, label, []⟩ = .ok cA ∧
      connectExits ctx.exits ctx.ctr cA = .ok cB ∧
      ctx2 = ⟨cB, [], ctx.loopStack, ctx.ctr + 1⟩ := by
  simp only [runStmt, bind, Except.bind] at h
  split at h
  · exact absurd h (by simp)
  · rename_i cA h1
    split at h
    · exact absurd h (by simp)
    · rename_i cB h2
      simp only [Except.ok.injEq] at h
      exact ⟨cA, cB, h1, h2, h.symm⟩

theorem runStmt_ret_ok_elim {ctx ctx2 : BCtx} (h : runStmt .ret ctx = .ok ctx2) :
    ctx2 = ⟨ctx.chart, [], ctx.loopStack, ctx.ctr⟩ := by
  simp only [runStmt, Except.ok.injEq] at h
  exact h.symm

theorem runStmt_pass_ok_elim {ctx ctx2 : BCtx} (h : runStmt .passS ctx = .ok ctx2) :
    ctx2 = ctx := by
  simp only [runStmt, Except.ok.injEq] at h
  exact h.symm

theorem runStmt_brk_ok_elim {ctx ctx2 : BCtx} (h : runStmt .brk ctx = .ok ctx2) :
    ∃ hd acc ls, ctx.loopStack = (hd, acc) :: ls ∧
      ctx2 = ⟨ctx.chart, [], (hd, acc ++ ctx.exits) :: ls, ctx.ctr⟩ := by
  simp only [runStmt] at h
  split at h
  · exact absurd h (by simp)
  · rename_i hd acc ls hls
    simp only [Except.ok.injEq] at h
    exact ⟨hd, acc, ls, hls, h.symm⟩

theorem runStmt_cont_ok_elim {ctx ctx2 : BCtx} (h : runStmt .cont ctx = .ok ctx2) :
    ∃ hd acc ls c, ctx.loopStack = (hd, acc) :: ls ∧
      connectExits ctx.exits hd ctx.chart = .ok c ∧
      ctx2 = ⟨c, [], ctx.loopStack, ctx.ctr⟩ := by
  simp only [runStmt, bind, Except.bind] at h
  split at h
  · exact absurd h (by simp)
  · rename_i hd acc ls hls
    split at h
    · exact absurd h (by simp)
    · rename_i c h2
      simp only [Except.ok.injEq] at h
      exact ⟨hd, acc, ls, c, hls, h2, h.symm⟩

theorem runStmt_if_ok_elim {q yes no : String} {neg : Bool} {body orelse : List Stmt}
    {ctx ctx2 : BCtx}
    (h : runStmt (.ifS q yes no neg body orelse) ctx = .ok ctx2) :
    ∃ cA cB mid,
      addNodeE ctx.chart ⟨ctx.ctr, .decisionNode, q, []⟩ = .ok cA ∧
      connectExits ctx.exits ctx.ctr cA = .ok cB ∧
      runStmts body ⟨cB, [(ctx.ctr, some (if neg then no else yes))],
        ctx.loopStack, ctx.ctr + 1⟩ = .ok mid ∧
      ((orelse = [] ∧ ctx2 = ⟨mid.chart,
          mid.exits ++ [(ctx.ctr, some (if neg then yes else no))],
          mid.loopStack, mid.ctr⟩) ∨
       (orelse ≠ [] ∧ ∃ mid2,
         runStmts orelse ⟨mid.chart, [(ctx.ctr, some (if neg then yes else no))],
           mid.loopStack, mid.ctr⟩ = .ok mid2 ∧
         ctx2 = ⟨mid2.chart, mid.exits ++ mid2.exits, mid2.loopStack, mid2.ctr⟩)) := by
  cases horel : orelse with
  | nil =>
    subst horel
    simp only [runStmt, bind, Except.bind] at h
    split at h
    · exact absurd h (by simp)
    · rename_i cA h1
      split at h
      · exact absurd h (by simp)
      · rename_i cB h2
        split at h
        · exact absurd h (by simp)
        · rename_i mid h3
          simp only [Except.ok.injEq] at h
          exact ⟨cA, cB, mid, h1, h2, h3, Or.inl ⟨rfl, h.symm⟩⟩
  | cons o1 orest =>
    subst horel
    simp only [runStmt, bind, Except.bind] at h
    split at h
    · exact absurd h (by simp)
    · rename_i cA h1
      split at h
      · exact absurd h (by simp)
      · rename_i cB h2
        split at h
        · exact absurd h (by simp)
        · rename_i mid h3
          split at h
          · exact absurd h (by simp)
          · rename_i mid2 h4
            simp only [Except.ok.injEq] at h
            exact ⟨cA, cB, mid, h1, h2, h3, Or.inr ⟨by simp, mid2, h4, h.symm⟩⟩

theorem runStmt_while_ok_elim {q yes no : String} {neg : Bool} {body : List Stmt}
    {ctx ctx2 : BCtx}
    (h : runStmt (.whileS q yes no neg body) ctx = .ok ctx2) :
    ∃ cA cB mid c2 hd2 brks ls2,
      addNodeE ctx.chart ⟨ctx.ctr, .decisionNode, q, []⟩ = .ok cA ∧
      connectExits ctx.exits ctx.ctr cA = .ok cB ∧
      runStmts body ⟨cB, [(ctx.ctr, some (if neg then no else yes))],
        (ctx.ctr, []) :: ctx.loopStack, ctx.ctr + 1⟩ = .ok mid ∧
      backEdges mid.exits ctx.ctr mid.chart = .ok c2 ∧
      mid.loopStack = (hd2, brks) :: ls2 ∧
      ctx2 = ⟨c2, (ctx.ctr, some (if neg then yes else no)) :: brks, ls2, mid.ctr⟩ := by
  simp only [runStmt, bind, Except.bind] at h
  split at h
  · exact absurd h (by simp)
  · rename_i cA h1
    split at h
    · exact absurd h (by simp)
    · rename_i cB h2
      split at h
      · exact absurd h (by simp)
      · rename_i mid h3
        split at h
        · exact absurd h (by simp)
        · rename_i c2 h4
          split at h
          · exact absurd h (by simp)
          · rename_i hd2 brks ls2 hls
            simp only [Except.ok.injEq] at h
            exact ⟨cA, cB, mid, c2, hd2, brks, ls2, h1, h2, h3, h4, hls, h.symm⟩

theorem runStmt_whileTrue_ok_elim {body : List Stmt} {ctx ctx2 : BCtx}
    (h : runStmt (.whileTrueS body) ctx = .ok ctx2) :
    ∃ cA cB mid c2 hd2 brks ls2,
      addNodeE ctx.chart ⟨ctx.ctr, .processNode, "(loop)", []⟩ = .ok cA ∧
      connectExits ctx.exits ctx.ctr cA = .ok cB ∧
      runStmts body ⟨cB, [(ctx.ctr, none)], (ctx.ctr, []) :: ctx.loopStack,
        ctx.ctr + 1⟩ = .ok mid ∧
      backEdges mid.exits ctx.ctr mid.chart = .ok c2 ∧
      mid.loopStack = (hd2, brks) :: ls2 ∧
      ctx2 = ⟨c2, brks, ls2, mid.ctr⟩ := by
  simp only [runStmt, bind, Except.bind] at h
  split at h
  · exact absurd h (by simp)
  · rename_i cA h1
    split at h
    · exact absurd h (by simp)
    · rename_i cB h2
      split at h
      · exact absurd h (by simp)
      · rename_i mid h3
        split at h
        · exact absurd h (by simp)
        · rename_i c2 h4
          split at h
          · exact absurd h (by simp)
          · rename_i hd2 brks ls2 hls
            simp only [Except.ok.injEq] at h
            exact ⟨cA, cB, mid, c2, hd2, brks, ls2, h1, h2, h3, h4, hls, h.symm⟩

theorem runStmts_cons_ok_elim {st : Stmt} {rest : List Stmt} {ctx ctx2 : BCtx}
    (h : runStmts (st :: rest) ctx = .ok ctx2) :
    ∃ mid, runStmt st ctx = .ok mid ∧ runStmts rest mid = .ok ctx2 := by
  simp only [runStmts, bind, Except.bind] at h
  split at h
  · exact absurd h (by simp)
  · rename_i mid h1
    exact ⟨mid, h1, h⟩

theorem runStmts_nil_ok_elim {ctx ctx2 : BCtx} (h : runStmts [] ctx = .ok ctx2) :
    ctx2 = ctx := by
  simp only [runStmts, Except.ok.injEq] at h
  exact h.symm

/-- Chart facts after creating a fresh node and connecting the frontier into
it. -/
theorem nodeConnect_facts {ctx : BCtx} (hwf : CtxWF ctx) {kind : NodeKind} {lbl : String}
    {cA cB : FlowChart}
    (h1 : addNodeE ctx.chart ⟨ctx.ctr, kind, lbl, []⟩ = .ok cA)
    (h2 : connectExits ctx.exits ctx.ctr cA = .ok cB) :
    cB.nodes = ctx.chart.nodes ++ [⟨ctx.ctr, kind, lbl, []⟩] ∧
    (∃ te, cB.edges = ctx.chart.edges ++ te) ∧
    (∀ n ∈ cB.nodes, n.id < ctx.ctr + 1) ∧
    (∀ e ∈ cB.edges, ∃ n ∈ cB.nodes, n.id = e.source_id) ∧
    (∀ e ∈ cB.edges, ∃ n ∈ cB.nodes, n.id = e.target_id) := by
  obtain ⟨hn1, he1⟩ := addNodeE_ok_elim h1
  obtain ⟨hn2, te, he2, hte⟩ := connectExits_ok_elim ctx.exits ctx.ctr cA cB h2
  have hnodes : cB.nodes = ctx.chart.nodes ++ [⟨ctx.ctr, kind, lbl, []⟩] := by rw [hn2, hn1]
  have hedges : cB.edges = ctx.chart.edges ++ te := by rw [he2, he1]
  refine ⟨hnodes, ⟨te, hedges⟩, ?_, ?_, ?_⟩
  · intro n hn
    rw [hnodes] at hn
    rcases List.mem_append.mp hn with hn | hn
    · have := hwf.node_lt n hn
      omega
    · simp only [List.mem_singleton] at hn
      subst hn
      simp
  · intro e he
    rw [hedges] at he
    rcases List.mem_append.mp he with he | he
    · rw [hnodes]
      exact exists_node_append (hwf.src_ex e he)
    · obtain ⟨⟨nl, hnl, hp, _⟩, _⟩ := hte e he
      rw [hnodes]
      exact exists_node_append (hp ▸ hwf.exits_ex nl hnl)
  · intro e he
    rw [hedges] at he
    rcases List.mem_append.mp he with he | he
    · rw [hnodes]
      exact exists_node_append (hwf.tgt_ex e he)
    · obtain ⟨_, htg⟩ := hte e he
      rw [hnodes]
      exact ⟨⟨ctx.ctr, kind, lbl, []⟩, by simp, by simp [htg]⟩

theorem stack_shape_unchanged (ctx ctx2 : BCtx) (h : ctx2.loopStack = ctx.loopStack) :
    (ctx.loopStack = [] ∧ ctx2.loopStack = []) ∨
    ∃ hd acc extra rest, ctx.loopStack = (hd, acc) :: rest ∧
      ctx2.loopStack = (hd, acc ++ extra) :: rest ∧
      ∀ nl ∈ extra, nl ∈ ctx.exits ∨ (ctx.ctr ≤ nl.1 ∧ nl.1 < ctx2.ctr) := by
  cases hls : ctx.loopStack with
  | nil => exact Or.inl ⟨rfl, by rw [h, hls]⟩
  | cons hb rest =>
    exact Or.inr ⟨hb.1, hb.2, [], rest, by simp [hls], by simp [h, hls], by simp⟩

/-- A state frames to itself. -/
theorem stepFrame_refl (ctx : BCtx) (hwf : CtxWF ctx) : StepFrame ctx ctx := by
  refine ⟨hwf, le_refl _, ⟨[], by simp, by simp⟩, ⟨[], by simp⟩, fun nl h => Or.inl h, ?_⟩
  cases hls : ctx.loopStack with
  | nil => exact Or.inl ⟨rfl, rfl⟩
  | cons hb rest =>
    exact Or.inr ⟨hb.1, hb.2, [], rest, by simp [hls], by simp [hls], by simp⟩

theorem stack_shape_comp {l1 l2 l3 : List (Nat × List ExitEntry)}
    {P1 P2 P3 : ExitEntry → Prop}
    (s12 : (l1 = [] ∧ l2 = []) ∨ ∃ hd acc extra rest, l1 = (hd, acc) :: rest ∧
      l2 = (hd, acc ++ extra) :: rest ∧ ∀ nl ∈ extra, P1 nl)
    (s23 : (l2 = [] ∧ l3 = []) ∨ ∃ hd acc extra rest, l2 = (hd, acc) :: rest ∧
      l3 = (hd, acc ++ extra) :: rest ∧ ∀ nl ∈ extra, P2 nl)
    (himp1 : ∀ nl, P1 nl → P3 nl) (himp2 : ∀ nl, P2 nl → P3 nl) :
    (l1 = [] ∧ l3 = []) ∨ ∃ hd acc extra rest, l1 = (hd, acc) :: rest ∧
      l3 = (hd, acc ++ extra) :: rest ∧ ∀ nl ∈ extra, P3 nl := by
  rcases s12 with ⟨ha, hb⟩ | ⟨hd, acc, extra, rest, hl1, hl2, hor⟩
  · rcases s23 with ⟨hc, he⟩ | ⟨hd, acc, extra, rest, hl1, hl2, hor⟩
    · exact Or.inl ⟨ha, he⟩
    · rw [hb] at hl1
      simp at hl1
  · rcases s23 with ⟨hc, he⟩ | ⟨hd2, acc2, extra2, rest2, hl12, hl22, hor2⟩
    · rw [hl2] at hc
      simp at hc
    · rw [hl2] at hl12
      simp only [List.cons.injEq, Prod.mk.injEq] at hl12
      obtain ⟨⟨hhd, hacc⟩, hrest⟩ := hl12
      refine Or.inr ⟨hd, acc, extra ++ extra2, rest, hl1, ?_, ?_⟩
      · rw [hl22, ← hhd, ← hacc, ← hrest, List.append_assoc]
      · intro nl hnl
        rcases List.mem_append.mp hnl with hnl | hnl
        · exact himp1 nl (hor nl hnl)
        · exact himp2 nl (hor2 nl hnl)

/-- Frames compose. -/
theorem stepFrame_trans {ctx mid ctx2 : BCtx}
    (f1 : StepFrame ctx mid) (f2 : StepFrame mid ctx2) : StepFrame ctx ctx2 := by
  obtain ⟨tn1, hn1, hb1⟩ := f1.nodes_pre
  obtain ⟨tn2, hn2, hb2⟩ := f2.nodes_pre
  obtain ⟨te1, he1⟩ := f1.edges_pre
  obtain ⟨te2, he2⟩ := f2.edges_pre
  have hctr := f1.ctr_le
  have hctr2 := f2.ctr_le
  refine ⟨f2.wf, le_trans f1.ctr_le f2.ctr_le, ?_, ?_, ?_, ?_⟩
  · refine ⟨tn1 ++ tn2, by rw [hn2, hn1, List.append_assoc], ?_⟩
    intro n hn
    rcases List.mem_append.mp hn with hn | hn
    · have := hb1 n hn
      omega
    · have := hb2 n hn
      omega
  · exact ⟨te1 ++ te2, by rw [he2, he1, List.append_assoc]⟩
  · intro nl hnl
    rcases f2.exits_origin nl hnl with h | h
    · rcases f1.exits_origin nl h with h2 | h2
      · exact Or.inl h2
      · exact Or.inr ⟨h2.1, by omega⟩
    · exact Or.inr ⟨by omega, h.2⟩
  · rcases f1.stack_shape with ⟨ha, hb⟩ | ⟨hd, acc, extra, rest, hl1, hl2, hor⟩
    · rcases f2.stack_shape with ⟨hc, he⟩ | ⟨hd, acc, extra, rest, hl1, hl2, hor⟩
      · exact Or.inl ⟨ha, he⟩
      · rw [hb] at hl1
        simp at hl1
    · rcases f2.stack_shape with ⟨hc, he⟩ | ⟨hd2, acc2, extra2, rest2, hl12, hl22, hor2⟩
      · rw [hl2] at hc
        simp at hc
      · rw [hl2] at hl12
        simp only [List.cons.injEq, Prod.mk.injEq] at hl12
        obtain ⟨⟨hhd, hacc⟩, hrest⟩ := hl12
        refine Or.inr ⟨hd, acc, extra ++ extra2, rest, hl1, ?_, ?_⟩
        · rw [hl22, ← hhd, ← hacc, ← hrest, List.append_assoc]
        · intro nl hnl
          rcases List.mem_append.mp hnl with hnl | hnl
          · rcases hor nl hnl with h | h
            · exact Or.inl h
            · exact Or.inr ⟨h.1, by omega⟩
          · rcases hor2 nl hnl with h | h
            · rcases f1.exits_origin nl h with h2 | h2
              · exact Or.inl h2
              · exact Or.inr ⟨h2.1, by omega⟩
            · exact Or.inr ⟨by omega, h.2⟩

mutual

/-- Every successful statement run preserves well-formedness and only
extends the chart: MAIN frame theorem for single statements. -/
theorem stmtFrame (s : Stmt) (ctx ctx2 : BCtx) (hwf : CtxWF ctx)
    (hrun : runStmt s ctx = .ok ctx2) : StepFrame ctx ctx2 := by
  cases s with
  | step label =>
    obtain ⟨cA, cB, h1, h2, hctx2⟩ := runStmt_step_ok_elim hrun
    subst hctx2
    obtain ⟨hnodes, ⟨te, hedges⟩, hlt, hsrc, htgt⟩ := nodeConnect_facts hwf h1 h2
    refine ⟨⟨hlt, hsrc, htgt, ?_, ?_⟩, Nat.le_succ _, ⟨[⟨ctx.ctr, .processNode, label, []⟩],
      hnodes, by intro n hn; simp only [List.mem_singleton] at hn; subst hn; simp⟩,
      ⟨te, hedges⟩, ?_, stack_shape_unchanged _ _ rfl⟩
    · intro nl hnl
      simp only [List.mem_singleton] at hnl
      subst hnl
      rw [hnodes]
      exact ⟨⟨ctx.ctr, .processNode, label, []⟩, by simp, rfl⟩

    · intro hb hhb
      have hst := hwf.stack_ex hb hhb
      rw [hnodes]
      exact ⟨exists_node_append hst.1, fun nl hnl => exists_node_append (hst.2 nl hnl)⟩
    · intro nl hnl
      simp only [List.mem_singleton] at hnl
      subst hnl
      exact Or.inr ⟨le_refl _, by simp⟩
  | endS label =>
    obtain ⟨cA, cB, h1, h2, hctx2⟩ := runStmt_end_ok_elim hrun
    subst hctx2
    obtain ⟨hnodes, ⟨te, hedges⟩, hlt, hsrc, htgt⟩ := nodeConnect_facts hwf h1 h2
    refine ⟨⟨hlt, hsrc, htgt, by intro nl hnl; simp at hnl, ?_⟩, Nat.le_succ _,
      ⟨[⟨ctx.ctr, .endNode, label, []⟩], hnodes,
        by intro n hn; simp only [List.mem_singleton] at hn; subst hn; simp⟩,
      ⟨te, hedges⟩, by intro nl hnl; simp at hnl, stack_shape_unchanged _ _ rfl⟩
    intro hb hhb
    have hst := hwf.stack_ex hb hhb
    rw [hnodes]
    exact ⟨exists_node_append hst.1, fun nl hnl => exists_node_append (hst.2 nl hnl)⟩
  | ret =>
    have hctx2 := runStmt_ret_ok_elim hrun
    subst hctx2
    exact ⟨⟨hwf.node_lt, hwf.src_ex, hwf.tgt_ex, by intro nl hnl; simp at hnl,
      hwf.stack_ex⟩, le_refl _, ⟨[], by simp, by simp⟩, ⟨[], by simp⟩,
      by intro nl hnl; simp at hnl, stack_shape_unchanged _ _ rfl⟩
  | passS =>
    have hctx2 := runStmt_pass_ok_elim hrun
    subst hctx2
    exact stepFrame_refl _ hwf
  | brk =>
    obtain ⟨hd, acc, ls, hls, hctx2⟩ := runStmt_brk_ok_elim hrun
    subst hctx2
    have hstk := hwf.stack_ex (hd, acc) (by rw [hls]; exact List.mem_cons_self _ _)
    refine ⟨⟨hwf.node_lt, hwf.src_ex, hwf.tgt_ex, by intro nl hnl; simp at hnl, ?_⟩,
      le_refl _, ⟨[], by simp, by simp⟩, ⟨[], by simp⟩,
      by intro nl hnl; simp at hnl,
      Or.inr ⟨hd, acc, ctx.exits, ls, hls, rfl, fun nl h => Or.inl h⟩⟩
    intro hb hhb
    rcases List.mem_cons.mp hhb with hhb | hhb
    · subst hhb
      refine ⟨hstk.1, ?_⟩
      intro nl hnl
      rcases List.mem_append.mp hnl with h | h
      · exact hstk.2 nl h
      · exact hwf.exits_ex nl h
    · exact hwf.stack_ex hb (by rw [hls]; exact List.mem_cons_of_mem _ hhb)
  | cont =>
    obtain ⟨hd, acc, ls, c, hls, h2, hctx2⟩ := runStmt_cont_ok_elim hrun
    subst hctx2
    obtain ⟨hn, te, he, hte⟩ := connectExits_ok_elim ctx.exits hd ctx.chart c h2
    have hhd := (hwf.stack_ex (hd, acc) (by rw [hls]; exact List.mem_cons_self _ _)).1
    refine ⟨⟨?_, ?_, ?_, by intro nl hnl; simp at hnl, ?_⟩, le_refl _,
      ⟨[], by simp [hn], by simp⟩, ⟨te, he⟩, by intro nl hnl; simp at hnl,
      stack_shape_unchanged _ _ rfl⟩
    · intro n hmem
      rw [hn] at hmem
      exact hwf.node_lt n hmem
    · intro e hmem
      rw [he] at hmem
      rcases List.mem_append.mp hmem with hm | hm
      · rw [hn]
        exact hwf.src_ex e hm
      · obtain ⟨⟨nl, hnl, hp, _⟩, _⟩ := hte e hm
        rw [hn]
        exact hp ▸ hwf.exits_ex nl hnl
    · intro e hmem
      rw [he] at hmem
      rcases List.mem_append.mp hmem with hm | hm
      · rw [hn]
        exact hwf.tgt_ex e hm
      · obtain ⟨_, htgte⟩ := hte e hm
        rw [hn]
        exact htgte ▸ hhd
    · intro hb hhb
      have := hwf.stack_ex hb hhb
      rw [hn]
      exact this
  | ifS q yes no neg body orelse =>
    obtain ⟨cA, cB, mid, h1, h2, h3, hrest⟩ := runStmt_if_ok_elim hrun
    obtain ⟨hnodes, ⟨te, hedges⟩, hlt, hsrc, htgt⟩ := nodeConnect_facts hwf h1 h2
    have hwfIn : CtxWF ⟨cB, [(ctx.ctr, some (if neg then no else yes))],
        ctx.loopStack, ctx.ctr + 1⟩ := by
      refine ⟨hlt, hsrc, htgt, ?_, ?_⟩
      · intro nl hnl
        simp only [List.mem_singleton] at hnl
        subst hnl
        rw [hnodes]
        exact ⟨⟨ctx.ctr, .decisionNode, q, []⟩, by simp, rfl⟩
      · intro hb hhb
        have hst := hwf.stack_ex hb hhb
        rw [hnodes]
        exact ⟨exists_node_append hst.1, fun nl hnl => exists_node_append (hst.2 nl hnl)⟩
    have fIn : StepFrame ctx ⟨cB, [(ctx.ctr, some (if neg then no else yes))],
        ctx.loopStack, ctx.ctr + 1⟩ := by
      refine ⟨hwfIn, Nat.le_succ _, ⟨[⟨ctx.ctr, .decisionNode, q, []⟩], hnodes,
        by intro n hn; simp only [List.mem_singleton] at hn; subst hn; simp⟩,
        ⟨te, hedges⟩, ?_, stack_shape_unchanged _ _ rfl⟩
      intro nl hnl
      simp only [List.mem_singleton] at hnl
      subst hnl
      exact Or.inr ⟨le_refl _, by simp⟩
    have fBody := stmtsFrame body _ mid hwfIn h3
    have fMid := stepFrame_trans fIn fBody
    rcases hrest with ⟨horel, hctx2⟩ | ⟨horel, mid2, h4, hctx2⟩
    · subst hctx2
      refine ⟨?_, fMid.ctr_le, fMid.nodes_pre, fMid.edges_pre, ?_, fMid.stack_shape⟩
      · refine ⟨fMid.wf.node_lt, fMid.wf.src_ex, fMid.wf.tgt_ex, ?_, fMid.wf.stack_ex⟩
        intro nl hnl
        rcases List.mem_append.mp hnl with h | h
        · exact fMid.wf.exits_ex nl h
        · simp only [List.mem_singleton] at h
          subst h
          obtain ⟨tn, htn, _⟩ := fBody.nodes_pre
          rw [htn, hnodes]
          exact ⟨⟨ctx.ctr, .decisionNode, q, []⟩, by simp, rfl⟩
      · intro nl hnl
        rcases List.mem_append.mp hnl with h | h
        · exact fMid.exits_origin nl h
        · simp only [List.mem_singleton] at h
          subst h
          have := fMid.ctr_le
          exact Or.inr ⟨le_refl _, by
            simp only []
            have := fBody.ctr_le
            simp only [] at this ⊢
            omega⟩
    · have hwfElse : CtxWF ⟨mid.chart, [(ctx.ctr, some (if neg then yes else no))],
          mid.loopStack, mid.ctr⟩ := by
        refine ⟨fMid.wf.node_lt, fMid.wf.src_ex, fMid.wf.tgt_ex, ?_, fMid.wf.stack_ex⟩
        intro nl hnl
        simp only [List.mem_singleton] at hnl
        subst hnl
        obtain ⟨tn, htn, _⟩ := fBody.nodes_pre
        rw [htn, hnodes]
        exact ⟨⟨ctx.ctr, .decisionNode, q, []⟩, by simp, rfl⟩
      have fElse := stmtsFrame orelse _ mid2 hwfElse h4
      subst hctx2
      have hctrB : ctx.ctr + 1 ≤ mid.ctr := fBody.ctr_le
      have hctrM : ctx.ctr ≤ mid.ctr := fMid.ctr_le
      have hctrE : mid.ctr ≤ mid2.ctr := fElse.ctr_le
      obtain ⟨tnM, htnM, hbM⟩ := fMid.nodes_pre
      obtain ⟨tnE, htnE0, hbE0⟩ := fElse.nodes_pre
      have htnE : mid2.chart.nodes = mid.chart.nodes ++ tnE := htnE0
      have hbE : ∀ n ∈ tnE, mid.ctr ≤ n.id ∧ n.id < mid2.ctr := hbE0
      obtain ⟨teM, heM⟩ := fMid.edges_pre
      obtain ⟨teE, heE0⟩ := fElse.edges_pre
      have heE : mid2.chart.edges = mid.chart.edges ++ teE := heE0
      have hexE : ∀ nl ∈ mid2.exits,
          nl ∈ [((ctx.ctr : Nat), some (if neg then yes else no))] ∨
          (mid.ctr ≤ nl.1 ∧ nl.1 < mid2.ctr) := fElse.exits_origin
      refine ⟨⟨fElse.wf.node_lt, fElse.wf.src_ex, fElse.wf.tgt_ex, ?_,
        fElse.wf.stack_ex⟩, le_trans hctrM hctrE, ?_, ?_, ?_, ?_⟩
      · intro nl hnl
        rcases List.mem_append.mp hnl with h | h
        · rw [htnE]
          exact exists_node_append (fMid.wf.exits_ex nl h)
        · exact fElse.wf.exits_ex nl h
      · refine ⟨tnM ++ tnE, ?_, ?_⟩
        · show mid2.chart.nodes = ctx.chart.nodes ++ (tnM ++ tnE)
          rw [htnE, htnM, List.append_assoc]
        · intro n hn
          rcases List.mem_append.mp hn with hn | hn
          · have h := hbM n hn
            exact ⟨h.1, show n.id < mid2.ctr by omega⟩
          · have h := hbE n hn
            exact ⟨show ctx.ctr ≤ n.id by omega, h.2⟩
      · refine ⟨teM ++ teE, ?_⟩
        show mid2.chart.edges = ctx.chart.edges ++ (teM ++ teE)
        rw [heE, heM, List.append_assoc]
      · intro nl hnl
        rcases List.mem_append.mp hnl with h | h
        · rcases fMid.exits_origin nl h with h2 | h2
          · exact Or.inl h2
          · exact Or.inr ⟨h2.1, show nl.1 < mid2.ctr by omega⟩
        · rcases hexE nl h with h2 | h2
          · simp only [List.mem_singleton] at h2
            subst h2
            exact Or.inr ⟨le_refl _, show ctx.ctr < mid2.ctr by omega⟩
          · exact Or.inr ⟨show ctx.ctr ≤ nl.1 by omega, h2.2⟩
      · refine stack_shape_comp fMid.stack_shape fElse.stack_shape ?_ ?_
        · intro nl h
          rcases h with h | h
          · exact Or.inl h
          · exact Or.inr ⟨h.1, show nl.1 < mid2.ctr by omega⟩
        · intro nl h
          rcases h with h | h
          · have h2 : nl = ((ctx.ctr : Nat), some (if neg then yes else no)) := by
              simpa using h
            subst h2
            exact Or.inr ⟨le_refl _, show ctx.ctr < mid2.ctr by omega⟩
          · have h1 : mid.ctr ≤ nl.1 := h.1
            exact Or.inr ⟨show ctx.ctr ≤ nl.1 by omega, h.2⟩
  | whileS q yes no neg body =>
    obtain ⟨cA, cB, mid, c2, hd2, brks, ls2, h1, h2, h3, h4, hls, hctx2⟩ :=
      runStmt_while_ok_elim hrun
    obtain ⟨hnodes, ⟨te, hedges⟩, hlt, hsrc, htgt⟩ := nodeConnect_facts hwf h1 h2
    have hwfIn : CtxWF ⟨cB, [(ctx.ctr, some (if neg then no else yes))],
        (ctx.ctr, []) :: ctx.loopStack, ctx.ctr + 1⟩ := by
      refine ⟨hlt, hsrc, htgt, ?_, ?_⟩
      · intro nl hnl
        simp only [List.mem_singleton] at hnl
        subst hnl
        rw [hnodes]
        exact ⟨⟨ctx.ctr, .decisionNode, q, []⟩, by simp, rfl⟩
      · intro hb hhb
        rcases List.mem_cons.mp hhb with hhb | hhb
        · subst hhb
          refine ⟨?_, by intro nl hnl; simp at hnl⟩
          rw [hnodes]
          exact ⟨⟨ctx.ctr, .decisionNode, q, []⟩, by simp, rfl⟩
        · have hst := hwf.stack_ex hb hhb
          rw [hnodes]
          exact ⟨exists_node_append hst.1, fun nl hnl => exists_node_append (hst.2 nl hnl)⟩
    have fBody := stmtsFrame body _ mid hwfIn h3
    have hmidwf : CtxWF mid := fBody.wf
    have hctrB : ctx.ctr + 1 ≤ mid.ctr := fBody.ctr_le
    obtain ⟨tnB, htnB0, hbB0⟩ := fBody.nodes_pre
    have htnB : mid.chart.nodes = cB.nodes ++ tnB := htnB0
    have hbB : ∀ n ∈ tnB, ctx.ctr + 1 ≤ n.id ∧ n.id < mid.ctr := hbB0
    obtain ⟨teB, heB0⟩ := fBody.edges_pre
    have heB : mid.chart.edges = cB.edges ++ teB := heB0
    rcases fBody.stack_shape with ⟨hsa, _⟩ | ⟨hd', acc', extra, rest', hsl1, hsl2, hsor⟩
    · exact absurd hsa (by simp)
    · have hsl1' : ((ctx.ctr : Nat), ([] : List ExitEntry)) :: ctx.loopStack =
          (hd', acc') :: rest' := hsl1
      simp only [List.cons.injEq, Prod.mk.injEq] at hsl1'
      obtain ⟨⟨hhd', hacc'⟩, hrest'⟩ := hsl1'
      rw [hls] at hsl2
      simp only [List.cons.injEq, Prod.mk.injEq] at hsl2
      obtain ⟨⟨hhd2, hbrks⟩, hls2⟩ := hsl2
      have hbrks2 : brks = extra := by rw [hbrks, ← hacc']; simp
      have hls2' : ls2 = ctx.loopStack := by rw [hls2, ← hrest']
      have hsor' : ∀ nl ∈ extra,
          nl ∈ [((ctx.ctr : Nat), some (if neg then no else yes))] ∨
          (ctx.ctr + 1 ≤ nl.1 ∧ nl.1 < mid.ctr) := hsor
      obtain ⟨hn2, ⟨te2, he2, hte2⟩, hback⟩ :=
        backEdges_ok_elim mid.exits ctx.ctr mid.chart c2 h4
      have hdn : ∃ n ∈ mid.chart.nodes, n.id = ctx.ctr := by
        rw [htnB, hnodes]
        exact ⟨⟨ctx.ctr, .decisionNode, q, []⟩, by simp, rfl⟩
      have hstkhead := hmidwf.stack_ex (hd2, brks) (by rw [hls]; exact List.mem_cons_self _ _)
      subst hctx2
      refine ⟨⟨?_, ?_, ?_, ?_, ?_⟩, le_trans (Nat.le_succ _) hctrB, ?_, ?_, ?_, ?_⟩
      · intro n hn
        rw [hn2] at hn
        exact hmidwf.node_lt n hn
      · intro e he
        rw [he2] at he
        rcases List.mem_append.mp he with hm | hm
        · rw [hn2]
          exact hmidwf.src_ex e hm
        · obtain ⟨⟨nl, hnl, hp⟩, _, _⟩ := hte2 e hm
          rw [hn2]
          exact hp ▸ hmidwf.exits_ex nl hnl
      · intro e he
        rw [he2] at he
        rcases List.mem_append.mp he with hm | hm
        · rw [hn2]
          exact hmidwf.tgt_ex e hm
        · obtain ⟨_, htg, _⟩ := hte2 e hm
          rw [hn2]
          exact htg ▸ hdn
      · intro nl hnl
        rw [hn2]
        rcases List.mem_cons.mp hnl with hh | hh
        · subst hh
          exact hdn
        · exact hstkhead.2 nl hh
      · intro hb hhb
        rw [hn2]
        exact hmidwf.stack_ex hb (by rw [hls]; exact List.mem_cons_of_mem _ hhb)
      · refine ⟨⟨ctx.ctr, .decisionNode, q, []⟩ :: tnB, ?_, ?_⟩
        · show c2.nodes = ctx.chart.nodes ++ (⟨ctx.ctr, .decisionNode, q, []⟩ :: tnB)
          rw [hn2, htnB, hnodes]
          simp
        · intro n hn
          rcases List.mem_cons.mp hn with hn | hn
          · subst hn
            exact ⟨le_refl _, show ctx.ctr < mid.ctr by omega⟩
          · have h := hbB n hn
            exact ⟨show ctx.ctr ≤ n.id by omega, h.2⟩
      · refine ⟨(te ++ teB) ++ te2, ?_⟩
        show c2.edges = ctx.chart.edges ++ ((te ++ teB) ++ te2)
        rw [he2, heB, hedges]
        simp
      · intro nl hnl
        rcases List.mem_cons.mp hnl with hh | hh
        · subst hh
          exact Or.inr ⟨le_refl _, show ctx.ctr < mid.ctr by omega⟩
        · rw [hbrks2] at hh
          rcases hsor' nl hh with h | h
          · simp only [List.mem_singleton] at h
            subst h
            exact Or.inr ⟨le_refl _, show ctx.ctr < mid.ctr by omega⟩
          · exact Or.inr ⟨show ctx.ctr ≤ nl.1 by omega, h.2⟩
      · exact stack_shape_unchanged _ _ hls2'
  | whileTrueS body =>
    obtain ⟨cA, cB, mid, c2, hd2, brks, ls2, h1, h2, h3, h4, hls, hctx2⟩ :=
      runStmt_whileTrue_ok_elim hrun
    obtain ⟨hnodes, ⟨te, hedges⟩, hlt, hsrc, htgt⟩ := nodeConnect_facts hwf h1 h2
    have hwfIn : CtxWF ⟨cB, [(ctx.ctr, none)],
        (ctx.ctr, []) :: ctx.loopStack, ctx.ctr + 1⟩ := by
      refine ⟨hlt, hsrc, htgt, ?_, ?_⟩
      · intro nl hnl
        simp only [List.mem_singleton] at hnl
        subst hnl
        rw [hnodes]
        exact ⟨⟨ctx.ctr, .processNode, "(loop)", []⟩, by simp, rfl⟩
      · intro hb hhb
        rcases List.mem_cons.mp hhb with hhb | hhb
        · subst hhb
          refine ⟨?_, by intro nl hnl; simp at hnl⟩
          rw [hnodes]
          exact ⟨⟨ctx.ctr, .processNode, "(loop)", []⟩, by simp, rfl⟩
        · have hst := hwf.stack_ex hb hhb
          rw [hnodes]
          exact ⟨exists_node_append hst.1, fun nl hnl => exists_node_append (hst.2 nl hnl)⟩
    have fBody := stmtsFrame body _ mid hwfIn h3
    have hmidwf : CtxWF mid := fBody.wf
    have hctrB : ctx.ctr + 1 ≤ mid.ctr := fBody.ctr_le
    obtain ⟨tnB, htnB0, hbB0⟩ := fBody.nodes_pre
    have htnB : mid.chart.nodes = cB.nodes ++ tnB := htnB0
    have hbB : ∀ n ∈ tnB, ctx.ctr + 1 ≤ n.id ∧ n.id < mid.ctr := hbB0
    obtain ⟨teB, heB0⟩ := fBody.edges_pre
    have heB : mid.chart.edges = cB.edges ++ teB := heB0
    rcases fBody.stack_shape with ⟨hsa, _⟩ | ⟨hd', acc', extra, rest', hsl1, hsl2, hsor⟩
    · exact absurd hsa (by simp)
    · have hsl1' : ((ctx.ctr : Nat), ([] : List ExitEntry)) :: ctx.loopStack =
          (hd', acc') :: rest' := hsl1
      simp only [List.cons.injEq, Prod.mk.injEq] at hsl1'
      obtain ⟨⟨hhd', hacc'⟩, hrest'⟩ := hsl1'
      rw [hls] at hsl2
      simp only [List.cons.injEq, Prod.mk.injEq] at hsl2
      obtain ⟨⟨hhd2, hbrks⟩, hls2⟩ := hsl2
      have hbrks2 : brks = extra := by rw [hbrks, ← hacc']; simp
      have hls2' : ls2 = ctx.loopStack := by rw [hls2, ← hrest']
      have hsor' : ∀ nl ∈ extra,
          nl ∈ [((ctx.ctr : Nat), (none : Option String))] ∨
          (ctx.ctr + 1 ≤ nl.1 ∧ nl.1 < mid.ctr) := hsor
      obtain ⟨hn2, ⟨te2, he2, hte2⟩, hback⟩ :=
        backEdges_ok_elim mid.exits ctx.ctr mid.chart c2 h4
      have hdn : ∃ n ∈ mid.chart.nodes, n.id = ctx.ctr := by
        rw [htnB, hnodes]
        exact ⟨⟨ctx.ctr, .processNode, "(loop)", []⟩, by simp, rfl⟩
      have hstkhead := hmidwf.stack_ex (hd2, brks) (by rw [hls]; exact List.mem_cons_self _ _)
      subst hctx2
      refine ⟨⟨?_, ?_, ?_, ?_, ?_⟩, le_trans (Nat.le_succ _) hctrB, ?_, ?_, ?_, ?_⟩
      · intro n hn
        rw [hn2] at hn
        exact hmidwf.node_lt n hn
      · intro e he
        rw [he2] at he
        rcases List.mem_append.mp he with hm | hm
        · rw [hn2]
          exact hmidwf.src_ex e hm
        · obtain ⟨⟨nl, hnl, hp⟩, _, _⟩ := hte2 e hm
          rw [hn2]
          exact hp ▸ hmidwf.exits_ex nl hnl
      · intro e he
        rw [he2] at he
        rcases List.mem_append.mp he with hm | hm
        · rw [hn2]
          exact hmidwf.tgt_ex e hm
        · obtain ⟨_, htg, _⟩ := hte2 e hm
          rw [hn2]
          exact htg ▸ hdn
      · intro nl hnl
        rw [hn2]
        exact hstkhead.2 nl hnl
      · intro hb hhb
        rw [hn2]
        exact hmidwf.stack_ex hb (by rw [hls]; exact List.mem_cons_of_mem _ hhb)
      · refine ⟨⟨ctx.ctr, .processNode, "(loop)", []⟩ :: tnB, ?_, ?_⟩
        · show c2.nodes = ctx.chart.nodes ++ (⟨ctx.ctr, .processNode, "(loop)", []⟩ :: tnB)
          rw [hn2, htnB, hnodes]
          simp
        · intro n hn
          rcases List.mem_cons.mp hn with hn | hn
          · subst hn
            exact ⟨le_refl _, show ctx.ctr < mid.ctr by omega⟩
          · have h := hbB n hn
            exact ⟨show ctx.ctr ≤ n.id by omega, h.2⟩
      · refine ⟨(te ++ teB) ++ te2, ?_⟩
        show c2.edges = ctx.chart.edges ++ ((te ++ teB) ++ te2)
        rw [he2, heB, hedges]
        simp
      · intro nl hnl
        rw [hbrks2] at hnl
        rcases hsor' nl hnl with h | h
        · simp only [List.mem_singleton] at h
          subst h
          exact Or.inr ⟨le_refl _, show ctx.ctr < mid.ctr by omega⟩
        · exact Or.inr ⟨show ctx.ctr ≤ nl.1 by omega, h.2⟩
      · exact stack_shape_unchanged _ _ hls2'

/-- MAIN frame theorem for statement lists. -/
theorem stmtsFrame (ss : List Stmt) (ctx ctx2 : BCtx) (hwf : CtxWF ctx)
    (hrun : runStmts ss ctx = .ok ctx2) : StepFrame ctx ctx2 := by
  cases ss with
  | nil =>
    have hctx2 := runStmts_nil_ok_elim hrun
    subst hctx2
    exact stepFrame_refl _ hwf
  | cons st rest =>
    obtain ⟨mid, h1, h2⟩ := runStmts_cons_ok_elim hrun
    have f1 := stmtFrame st ctx mid hwf h1
    have f2 := stmtsFrame rest mid ctx2 f1.wf h2
    exact stepFrame_trans f1 f2

end

theorem runStmts_append (xs ys : List Stmt) (ctx : BCtx) :
    runStmts (xs ++ ys) ctx = (runStmts xs ctx).bind (fun c => runStmts ys c) := by
  induction xs generalizing ctx with
  | nil => rfl
  | cons st rest ih =>
    simp only [List.cons_append, runStmts, bind, Except.bind]
    cases h : runStmt st ctx with
    | error e => rfl
    | ok mid => exact ih mid

/-- C3: for every pre-test loop, the loop head allocated at the entry counter
is a Decision node present in the resulting chart; the body is assembled from
the frontier `(decision, continue-label)` under a freshly pushed loop
context; every frontier entry remaining at the end of the body receives a
back-edge to the decision; and the output frontier is exactly
`(decision, exit-label)` consed onto the break accumulator collected by the
body, with the enclosing loop stack restored. -/
theorem while_loop_shape (q yes no : String) (neg : Bool) (body : List Stmt)
    (ctx ctx2 : BCtx) (hwf : CtxWF ctx)
    (hrun : runStmt (.whileS q yes no neg body) ctx = .ok ctx2) :
    ∃ cA cB mid brks,
      addNodeE ctx.chart ⟨ctx.ctr, .decisionNode, q, []⟩ = .ok cA ∧
      connectExits ctx.exits ctx.ctr cA = .ok cB ∧
      runStmts body ⟨cB, [(ctx.ctr, some (if neg then no else yes))],
        (ctx.ctr, []) :: ctx.loopStack, ctx.ctr + 1⟩ = .ok mid ∧
      (⟨ctx.ctr, .decisionNode, q, []⟩ : Node) ∈ ctx2.chart.nodes ∧
      (∀ nl ∈ mid.exits, ∃ e ∈ ctx2.chart.edges,
        e.source_id = nl.1 ∧ e.target_id = ctx.ctr) ∧
      mid.loopStack = (ctx.ctr, brks) :: ctx.loopStack ∧
      ctx2.exits = (ctx.ctr, some (if neg then yes else no)) :: brks ∧
      ctx2.loopStack = ctx.loopStack := by
  obtain ⟨cA, cB, mid, c2, hd2, brks, ls2, h1, h2, h3, h4, hls, hctx2⟩ :=
    runStmt_while_ok_elim hrun
  obtain ⟨hnodes, ⟨te, hedges⟩, hlt, hsrc, htgt⟩ := nodeConnect_facts hwf h1 h2
  have hwfIn : CtxWF ⟨cB, [(ctx.ctr, some (if neg then no else yes))],
      (ctx.ctr, []) :: ctx.loopStack, ctx.ctr + 1⟩ := by
    refine ⟨hlt, hsrc, htgt, ?_, ?_⟩
    · intro nl hnl
      simp only [List.mem_singleton] at hnl
      subst hnl
      rw [hnodes]
      exact ⟨⟨ctx.ctr, .decisionNode, q, []⟩, by simp, rfl⟩
    · intro hb hhb
      rcases List.mem_cons.mp hhb with hhb | hhb
      · subst hhb
        refine ⟨?_, by intro nl hnl; simp at hnl⟩
        rw [hnodes]
        exact ⟨⟨ctx.ctr, .decisionNode, q, []⟩, by simp, rfl⟩
      · have hst := hwf.stack_ex hb hhb
        rw [hnodes]
        exact ⟨exists_node_append hst.1, fun nl hnl => exists_node_append (hst.2 nl hnl)⟩
  have fBody := stmtsFrame body _ mid hwfIn h3
  obtain ⟨tnB, htnB0, _⟩ := fBody.nodes_pre
  have htnB : mid.chart.nodes = cB.nodes ++ tnB := htnB0
  rcases fBody.stack_shape with ⟨hsa, _⟩ | ⟨hd', acc', extra, rest', hsl1, hsl2, hsor⟩
  · exact absurd hsa (by simp)
  · have hsl1' : ((ctx.ctr : Nat), ([] : List ExitEntry)) :: ctx.loopStack =
        (hd', acc') :: rest' := hsl1
    simp only [List.cons.injEq, Prod.mk.injEq] at hsl1'
    obtain ⟨⟨hhd', hacc'⟩, hrest'⟩ := hsl1'
    rw [hls] at hsl2
    simp only [List.cons.injEq, Prod.mk.injEq] at hsl2
    obtain ⟨⟨hhd2, hbrks⟩, hls2⟩ := hsl2
    obtain ⟨hn2, ⟨te2, he2, hte2⟩, hback⟩ :=
      backEdges_ok_elim mid.exits ctx.ctr mid.chart c2 h4
    subst hctx2
    refine ⟨cA, cB, mid, brks, h1, h2, h3, ?_, ?_, ?_, rfl, ?_⟩
    · show (⟨ctx.ctr, .decisionNode, q, []⟩ : Node) ∈ c2.nodes
      rw [hn2, htnB, hnodes]
      simp
    · exact hback
    · rw [hls, hhd2, ← hhd', hls2, ← hrest']
    · show ls2 = ctx.loopStack
      rw [hls2, ← hrest']

/-- C3 witness: the loop `while More?: P` run from a chart holding only the
start node (the spec's Scenario B). -/
theorem while_loop_shape_witness :
    CtxWF ⟨⟨0, "W", [⟨1, .startNode, "W", []⟩], [], []⟩, [(1, none)], [], 2⟩ ∧
    runStmt (.whileS "More?" "Y" "N" false [.step "P"])
      ⟨⟨0, "W", [⟨1, .startNode, "W", []⟩], [], []⟩, [(1, none)], [], 2⟩ =
      .ok ⟨⟨0, "W", [⟨1, .startNode, "W", []⟩, ⟨2, .decisionNode, "More?", []⟩,
          ⟨3, .processNode, "P", []⟩],
        [⟨1, 2, none, none, []⟩, ⟨2, 3, some "Y", none, []⟩, ⟨3, 2, none, none, []⟩], []⟩,
        [(2, some "N")], [], 4⟩ ∧
    ∃ cA cB mid brks,
      addNodeE ⟨0, "W", [⟨1, .startNode, "W", []⟩], [], []⟩
        ⟨2, .decisionNode, "More?", []⟩ = .ok cA ∧
      connectExits [(1, none)] 2 cA = .ok cB ∧
      runStmts [.step "P"] ⟨cB, [(2, some "Y")], [(2, [])], 3⟩ = .ok mid ∧
      (⟨2, .decisionNode, "More?", []⟩ : Node) ∈
        [⟨1, .startNode, "W", []⟩, ⟨2, .decisionNode, "More?", []⟩,
          (⟨3, .processNode, "P", []⟩ : Node)] ∧
      (∀ nl ∈ mid.exits, ∃ e ∈ [⟨1, 2, none, none, []⟩, ⟨2, 3, some "Y", none, []⟩,
          (⟨3, 2, none, none, []⟩ : Edge)], e.source_id = nl.1 ∧ e.target_id = 2) ∧
      mid.loopStack = (2, brks) :: [] ∧
      ([((2 : Nat), some "N")] : List ExitEntry) = (2, some "N") :: brks ∧
      ([] : List (Nat × List ExitEntry)) = [] := by
  refine ⟨⟨by decide, by decide, by decide, by decide, by decide⟩, rfl, ?_⟩
  exact while_loop_shape "More?" "Y" "N" false [.step "P"]
    ⟨⟨0, "W", [⟨1, .startNode, "W", []⟩], [], []⟩, [(1, none)], [], 2⟩
    ⟨⟨0, "W", [⟨1, .startNode, "W", []⟩, ⟨2, .decisionNode, "More?", []⟩,
        ⟨3, .processNode, "P", []⟩],
      [⟨1, 2, none, none, []⟩, ⟨2, 3, some "Y", none, []⟩, ⟨3, 2, none, none, []⟩], []⟩,
      [(2, some "N")], [], 4⟩
    ⟨by decide, by decide, by decide, by decide, by decide⟩ rfl

/-- C6: if one branch of a two-way decision ends in an explicit terminator (a
bare `return` or an explicit `End` statement), the terminator empties that
branch's frontier, the frontier after the construct consists of the else-side
entry only, and the merge node processed next receives no edge from the
terminated branch: every edge into it originates at the decision itself. -/
theorem terminated_branch_no_merge_edge (q yes no m : String) (neg : Bool)
    (bs : List Stmt) (t : Stmt) (ctx ctx2 : BCtx) (hwf : CtxWF ctx)
    (hterm : t = .ret ∨ ∃ lbl, t = .endS lbl)
    (hrun : runStmts [.ifS q yes no neg (bs ++ [t]) [], .step m] ctx = .ok ctx2) :
    ∃ mctx,
      runStmt (.ifS q yes no neg (bs ++ [t]) []) ctx = .ok mctx ∧
      runStmt (.step m) mctx = .ok ctx2 ∧
      mctx.exits = [(ctx.ctr, some (if neg then yes else no))] ∧
      (⟨mctx.ctr, .processNode, m, []⟩ : Node) ∈ ctx2.chart.nodes ∧
      ∀ e ∈ ctx2.chart.edges, e.target_id = mctx.ctr → e.source_id = ctx.ctr := by
  obtain ⟨mctx, h1, hrest1⟩ := runStmts_cons_ok_elim hrun
  obtain ⟨ctx2', hstep, hnil⟩ := runStmts_cons_ok_elim hrest1
  have hctx2' := runStmts_nil_ok_elim hnil
  subst hctx2'
  obtain ⟨cA, cB, mid, hA, hB, h3, hrest⟩ := runStmt_if_ok_elim h1
  rcases hrest with ⟨_, hmctx⟩ | ⟨hne, _⟩
  · rw [runStmts_append] at h3
    cases hb : runStmts bs ⟨cB, [(ctx.ctr, some (if neg then no else yes))],
        ctx.loopStack, ctx.ctr + 1⟩ with
    | error e => rw [hb] at h3; exact absurd h3 (by simp [Except.bind])
    | ok mid1 =>
      rw [hb] at h3
      simp only [Except.bind] at h3
      obtain ⟨mid', ht, hnil2⟩ := runStmts_cons_ok_elim h3
      have hmm := runStmts_nil_ok_elim hnil2
      subst hmm
      have hmidex : mid.exits = [] := by
        rcases hterm with hterm | ⟨lbl, hterm⟩
        · subst hterm
          have := runStmt_ret_ok_elim ht
          rw [this]
        · subst hterm
          obtain ⟨_, _, _, _, hm⟩ := runStmt_end_ok_elim ht
          rw [hm]
      have hmctxex : mctx.exits = [(ctx.ctr, some (if neg then yes else no))] := by
        rw [hmctx]
        show mid.exits ++ [(ctx.ctr, some (if neg then yes else no))] = _
        rw [hmidex]
        rfl
      have fIf := stmtFrame (.ifS q yes no neg (bs ++ [t]) []) ctx mctx hwf h1
      obtain ⟨cA2, cB2, h1', h2', hctx2⟩ := runStmt_step_ok_elim hstep
      obtain ⟨hnA, heA⟩ := addNodeE_ok_elim h1'
      obtain ⟨hnB, te, heB, hte⟩ := connectExits_ok_elim mctx.exits mctx.ctr cA2 cB2 h2'
      subst hctx2
      refine ⟨mctx, h1, hstep, hmctxex, ?_, ?_⟩
      · show (⟨mctx.ctr, .processNode, m, []⟩ : Node) ∈ cB2.nodes
        rw [hnB, hnA]
        simp
      · intro e he htg
        have he2 : e ∈ cA2.edges ++ te := by rw [← heB]; exact he
        rcases List.mem_append.mp he2 with hm | hm
        · rw [heA] at hm
          obtain ⟨n, hn, hid⟩ := fIf.wf.tgt_ex e hm
          have := fIf.wf.node_lt n hn
          have htg' : e.target_id = mctx.ctr := htg
          omega
        · obtain ⟨⟨nl, hnl, hps, hpl⟩, _⟩ := hte e hm
          rw [hmctxex] at hnl
          simp only [List.mem_singleton] at hnl
          subst hnl
          exact hps.symm
  · exact absurd rfl hne

/-- C6 witness: `if Q: (A; return) else: ...` — here with no else-body —
followed by a merge step `M`, run from a chart holding only the start
node. -/
theorem terminated_branch_no_merge_edge_witness :
    (Stmt.ret = Stmt.ret ∨ ∃ lbl, Stmt.ret = Stmt.endS lbl) ∧
    ∃ mctx,
      runStmt (.ifS "Q" "Yes" "No" false ([.step "A"] ++ [.ret]) [])
        ⟨⟨0, "F", [⟨1, .startNode, "F", []⟩], [], []⟩, [(1, none)], [], 2⟩ = .ok mctx ∧
      runStmt (.step "M") mctx =
        .ok ⟨⟨0, "F", [⟨1, .startNode, "F", []⟩, ⟨2, .decisionNode, "Q", []⟩,
            ⟨3, .processNode, "A", []⟩, ⟨4, .processNode, "M", []⟩],
          [⟨1, 2, none, none, []⟩, ⟨2, 3, some "Yes", none, []⟩,
            ⟨2, 4, some "No", none, []⟩], []⟩, [(4, none)], [], 5⟩ ∧
      mctx.exits = [(2, some "No")] ∧
      (⟨mctx.ctr, .processNode, "M", []⟩ : Node) ∈
        [⟨1, .startNode, "F", []⟩, ⟨2, .decisionNode, "Q", []⟩,
          ⟨3, .processNode, "A", []⟩, (⟨4, .processNode, "M", []⟩ : Node)] ∧
      ∀ e ∈ [⟨1, 2, none, none, []⟩, ⟨2, 3, some "Yes", none, []⟩,
          (⟨2, 4, some "No", none, []⟩ : Edge)], e.target_id = mctx.ctr → e.source_id = 2 := by
  refine ⟨Or.inl rfl, ?_⟩
  exact terminated_branch_no_merge_edge "Q" "Yes" "No" "M" false [.step "A"] .ret
    ⟨⟨0, "F", [⟨1, .startNode, "F", []⟩], [], []⟩, [(1, none)], [], 2⟩
    ⟨⟨0, "F", [⟨1, .startNode, "F", []⟩, ⟨2, .decisionNode, "Q", []⟩,
        ⟨3, .processNode, "A", []⟩, ⟨4, .processNode, "M", []⟩],
      [⟨1, 2, none, none, []⟩, ⟨2, 3, some "Yes", none, []⟩,
        ⟨2, 4, some "No", none, []⟩], []⟩, [(4, none)], [], 5⟩
    ⟨by decide, by decide, by decide, by decide, by decide⟩ (Or.inl rfl) rfl

/-! ### Out-degree accounting for the loop-free fragment -/

theorem edge_target_lt {ctx : BCtx} (hwf : CtxWF ctx) :
    ∀ e ∈ ctx.chart.edges, e.target_id < ctx.ctr := by
  intro e he
  obtain ⟨n, hn, hid⟩ := hwf.tgt_ex e he
  have := hwf.node_lt n hn
  omega

theorem edge_source_lt {ctx : BCtx} (hwf : CtxWF ctx) :
    ∀ e ∈ ctx.chart.edges, e.source_id < ctx.ctr := by
  intro e he
  obtain ⟨n, hn, hid⟩ := hwf.src_ex e he
  have := hwf.node_lt n hn
  omega

theorem exits_id_lt {ctx : BCtx} (hwf : CtxWF ctx) :
    ∀ nl ∈ ctx.exits, nl.1 < ctx.ctr := by
  intro nl hnl
  obtain ⟨n, hn, hid⟩ := hwf.exits_ex nl hnl
  have := hwf.node_lt n hn
  omega

theorem addEdgeE_nodup {c : FlowChart} {e : Edge} {c2 : FlowChart}
    (hnd : ∀ ex ∈ c.edges, ¬(ex.source_id = e.source_id ∧ ex.target_id = e.target_id ∧
      ex.label = e.label))
    (h : addEdgeE c e = .ok c2) :
    c2.edges = c.edges ++ [e] := by
  unfold addEdgeE FlowChart.add_edge at h
  by_cases hs : (c.get_node e.source_id).isNone = true
  · rw [if_pos hs] at h
    simp at h
  · by_cases ht : (c.get_node e.target_id).isNone = true
    · rw [if_neg hs, if_pos ht] at h
      simp at h
    · rw [if_neg hs, if_neg ht] at h
      have hfind : c.edges.find? (fun ex => FlowChart.sameTriple ex e) = none := by
        rw [List.find?_eq_none]
        intro ex hex hT
        exact hnd ex hex ((sameTriple_iff ex e).mp hT)
      rw [hfind] at h
      dsimp only at h
      simp only [Except.ok.injEq] at h
      subst h
      rfl

/-- When no pre-existing edge targets `t` with a source/label pair occurring
in the frontier, and the frontier entries are pairwise distinct,
`connectExits` suppresses nothing: it appends exactly one edge per entry. -/
theorem connectExits_exact :
    ∀ (exits : List ExitEntry) (t : Nat) (c c2 : FlowChart),
    (∀ e ∈ c.edges, e.target_id = t →
      ∀ nl ∈ exits, ¬(nl.1 = e.source_id ∧ nl.2 = e.label)) →
    DistExits exits →
    connectExits exits t c = .ok c2 →
    c2.edges = c.edges ++ exits.map (fun nl => ⟨nl.1, t, nl.2, none, []⟩) := by
  intro exits
  induction exits with
  | nil =>
    intro t c c2 _ _ h
    simp only [connectExits, List.foldlM] at h
    simp only [pure, Except.pure, Except.ok.injEq] at h
    subst h
    simp
  | cons nl rest ih =>
    intro t c c2 hfresh hpw h
    simp only [connectExits, List.foldlM, bind, Except.bind] at h
    rcases h1 : addEdgeE c ⟨nl.1, t, nl.2, none, []⟩ with err | cmid <;> rw [h1] at h
    · simp at h
    · have hnd : ∀ ex ∈ c.edges,
          ¬(ex.source_id = nl.1 ∧ ex.target_id = t ∧ ex.label = nl.2) := by
        intro ex hex hcon
        exact hfresh ex hex hcon.2.1 nl (List.mem_cons_self _ _) ⟨hcon.1.symm, hcon.2.2.symm⟩
      have hmid := addEdgeE_nodup hnd h1
      have hfresh2 : ∀ e ∈ cmid.edges, e.target_id = t →
          ∀ nl2 ∈ rest, ¬(nl2.1 = e.source_id ∧ nl2.2 = e.label) := by
        intro e hme htg nl2 hnl2 hcon
        rw [hmid] at hme
        rcases List.mem_append.mp hme with hme | hme
        · exact hfresh e hme htg nl2 (List.mem_cons_of_mem _ hnl2) hcon
        · simp only [List.mem_singleton] at hme
          subst hme
          exact (List.pairwise_cons.mp hpw).1 nl2 hnl2 ⟨hcon.1.symm, hcon.2.symm⟩
      have hrest := ih t cmid c2 hfresh2 (List.pairwise_cons.mp hpw).2 h
      rw [hrest, hmid]
      simp

theorem pendCount_append (a b : List ExitEntry) (nid : Nat) (lf : Option (Option String)) :
    pendCount (a ++ b) nid lf = pendCount a nid lf + pendCount b nid lf := by
  simp [pendCount, List.filter_append]

theorem pendCount_zero_of_ne (exits : List ExitEntry) (nid : Nat)
    (lf : Option (Option String)) (h : ∀ nl ∈ exits, nl.1 ≠ nid) :
    pendCount exits nid lf = 0 := by
  simp only [pendCount, List.length_eq_zero]
  rw [List.filter_eq_nil_iff]
  intro nl hnl
  simp only [entrySel, Bool.and_eq_true, beq_iff_eq]
  intro hcon
  exact h nl hnl hcon.1

theorem outCount_fresh {ctx : BCtx} (hwf : CtxWF ctx) {nid : Nat} (hge : ctx.ctr ≤ nid)
    (lf : Option (Option String)) : outCount ctx.chart nid lf = 0 := by
  simp only [outCount, List.length_eq_zero]
  rw [List.filter_eq_nil_iff]
  intro e he
  have := edge_source_lt hwf e he
  simp only [entrySel, Bool.and_eq_true, beq_iff_eq]
  intro hcon
  omega

theorem pendCount_fresh {ctx : BCtx} (hwf : CtxWF ctx) {nid : Nat} (hge : ctx.ctr ≤ nid)
    (lf : Option (Option String)) : pendCount ctx.exits nid lf = 0 := by
  refine pendCount_zero_of_ne _ _ _ ?_
  intro nl hnl
  have := exits_id_lt hwf nl hnl
  omega

theorem count_map_edges (exits : List ExitEntry) (t nid : Nat) (lf : Option (Option String)) :
    ((exits.map (fun nl => (⟨nl.1, t, nl.2, none, []⟩ : Edge))).filter
      (fun e => entrySel nid lf e.source_id e.label)).length =
    pendCount exits nid lf := by
  induction exits with
  | nil => rfl
  | cons nl rest ih =>
    simp only [pendCount] at ih ⊢
    simp only [List.map_cons, List.filter_cons]
    by_cases hc : entrySel nid lf nl.1 nl.2 = true
    · simp [hc, ih]
    · simp [hc, ih]

/-- A fresh-node creation plus frontier connection converts pending entries
into edges one-for-one. -/
theorem outCount_nodeConnect {ctx : BCtx} (hwf : CtxWF ctx)
    (hdis : DistExits ctx.exits) {kind : NodeKind} {lbl : String} {cA cB : FlowChart}
    (h1 : addNodeE ctx.chart ⟨ctx.ctr, kind, lbl, []⟩ = .ok cA)
    (h2 : connectExits ctx.exits ctx.ctr cA = .ok cB) :
    ∀ nid lf, outCount cB nid lf = outCount ctx.chart nid lf + pendCount ctx.exits nid lf := by
  intro nid lf
  obtain ⟨hnA, heA⟩ := addNodeE_ok_elim h1
  have hfr : ∀ e ∈ cA.edges, e.target_id = ctx.ctr →
      ∀ nl ∈ ctx.exits, ¬(nl.1 = e.source_id ∧ nl.2 = e.label) := by
    intro e he htg
    rw [heA] at he
    have := edge_target_lt hwf e he
    omega
  have hex := connectExits_exact ctx.exits ctx.ctr cA cB hfr hdis h2
  simp only [outCount, hex, heA, List.filter_append, List.length_append]
  congr 1
  exact count_map_edges ctx.exits ctx.ctr nid lf

mutual

/-- In the loop-free, return-free fragment, processing one statement keeps
the frontier pairwise distinct and conserves, for every already-created node
id and every label filter, the out-degree-plus-pending-frontier count. -/
theorem stmtConsv (s : Stmt) (ctx ctx2 : BCtx) (hwf : CtxWF ctx)
    (hdis : DistExits ctx.exits) (hfrag : fragF s = true)
    (hrun : runStmt s ctx = .ok ctx2) :
    DistExits ctx2.exits ∧
    ∀ nid, nid < ctx.ctr → ∀ lf, outPend ctx2 nid lf = outPend ctx nid lf := by
  cases s with
  | step label =>
    obtain ⟨cA, cB, h1, h2, hctx2⟩ := runStmt_step_ok_elim hrun
    subst hctx2
    refine ⟨by simp, ?_⟩
    intro nid hnid lf
    have hcon := outCount_nodeConnect hwf hdis h1 h2 nid lf
    have hz : pendCount [((ctx.ctr : Nat), (none : Option String))] nid lf = 0 :=
      pendCount_zero_of_ne _ _ _ (by
        intro nl hnl
        simp only [List.mem_singleton] at hnl
        subst hnl
        show ctx.ctr ≠ nid
        omega)
    simp only [outPend] at hcon hz ⊢
    omega
  | endS label =>
    obtain ⟨cA, cB, h1, h2, hctx2⟩ := runStmt_end_ok_elim hrun
    subst hctx2
    refine ⟨by simp, ?_⟩
    intro nid hnid lf
    have hcon := outCount_nodeConnect hwf hdis h1 h2 nid lf
    have hz : pendCount ([] : List ExitEntry) nid lf = 0 := rfl
    simp only [outPend] at hcon hz ⊢
    omega
  | passS =>
    have h := runStmt_pass_ok_elim hrun
    subst h
    exact ⟨hdis, fun _ _ _ => rfl⟩
  | ret => simp [fragF] at hfrag
  | brk => simp [fragF] at hfrag
  | cont => simp [fragF] at hfrag
  | whileS q yes no neg body => simp [fragF] at hfrag
  | whileTrueS body => simp [fragF] at hfrag
  | ifS q yes no neg body orelse =>
    simp only [fragF, Bool.and_eq_true, bne_iff_ne] at hfrag
    obtain ⟨⟨hyn, hfb⟩, hfo⟩ := hfrag
    obtain ⟨cA, cB, mid, h1, h2, h3, hrest⟩ := runStmt_if_ok_elim hrun
    obtain ⟨hnodes, ⟨te, hedges⟩, hlt, hsrc, htgt⟩ := nodeConnect_facts hwf h1 h2
    have hwfIn : CtxWF ⟨cB, [(ctx.ctr, some (if neg then no else yes))],
        ctx.loopStack, ctx.ctr + 1⟩ := by
      refine ⟨hlt, hsrc, htgt, ?_, ?_⟩
      · intro nl hnl
        simp only [List.mem_singleton] at hnl
        subst hnl
        rw [hnodes]
        exact ⟨⟨ctx.ctr, .decisionNode, q, []⟩, by simp, rfl⟩
      · intro hb hhb
        have hst := hwf.stack_ex hb hhb
        rw [hnodes]
        exact ⟨exists_node_append hst.1, fun nl hnl => exists_node_append (hst.2 nl hnl)⟩
    have fBody := stmtsFrame body _ mid hwfIn h3
    obtain ⟨distMid, consvB⟩ := stmtsConsv body _ mid hwfIn (by simp) hfb h3
    have hcon := outCount_nodeConnect hwf hdis h1 h2
    have hctrB : ctx.ctr + 1 ≤ mid.ctr := fBody.ctr_le
    have hbodyL_ne : (if neg then no else yes) ≠ (if neg then yes else no) := by
      cases neg
      · simpa using hyn
      · simpa using (Ne.symm hyn)
    have hexB : ∀ a ∈ mid.exits,
        a ∈ [((ctx.ctr : Nat), some (if neg then no else yes))] ∨
        (ctx.ctr + 1 ≤ a.1 ∧ a.1 < mid.ctr) := fBody.exits_origin
    have hmid_ctx : ∀ nid, nid < ctx.ctr → ∀ lf,
        outPend mid nid lf = outPend ctx nid lf := by
      intro nid hnid lf
      have h := consvB nid (show nid < ctx.ctr + 1 by omega) lf
      have hz : pendCount [((ctx.ctr : Nat), some (if neg then no else yes))] nid lf = 0 :=
        pendCount_zero_of_ne _ _ _ (by
          intro nl hnl
          simp only [List.mem_singleton] at hnl
          subst hnl
          show ctx.ctr ≠ nid
          omega)
      have hc := hcon nid lf
      simp only [outPend] at h hz hc ⊢
      omega
    rcases hrest with ⟨horel, hctx2⟩ | ⟨horel, mid2, h4, hctx2⟩
    · subst hctx2
      constructor
      · show DistExits (mid.exits ++ [(ctx.ctr, some (if neg then yes else no))])
        refine List.pairwise_append.mpr ⟨distMid, by simp, ?_⟩
        intro a ha b hb
        simp only [List.mem_singleton] at hb
        subst hb
        rcases hexB a ha with h | h
        · simp only [List.mem_singleton] at h
          subst h
          intro hcon2
          exact hbodyL_ne (by simpa using hcon2.2)
        · intro hcon2
          have h1' : a.1 = ctx.ctr := by simpa using hcon2.1
          omega
      · intro nid hnid lf
        have hm := hmid_ctx nid hnid lf
        have hz : pendCount [((ctx.ctr : Nat), some (if neg then yes else no))] nid lf = 0 :=
          pendCount_zero_of_ne _ _ _ (by
            intro nl hnl
            simp only [List.mem_singleton] at hnl
            subst hnl
            show ctx.ctr ≠ nid
            omega)
        have ha := pendCount_append mid.exits
          [((ctx.ctr : Nat), some (if neg then yes else no))] nid lf
        simp only [outPend] at hm ⊢
        omega
    · have hwfElse : CtxWF ⟨mid.chart, [(ctx.ctr, some (if neg then yes else no))],
          mid.loopStack, mid.ctr⟩ := by
        refine ⟨fBody.wf.node_lt, fBody.wf.src_ex, fBody.wf.tgt_ex, ?_, fBody.wf.stack_ex⟩
        intro nl hnl
        simp only [List.mem_singleton] at hnl
        subst hnl
        obtain ⟨tn, htn, _⟩ := fBody.nodes_pre
        rw [htn, hnodes]
        exact ⟨⟨ctx.ctr, .decisionNode, q, []⟩, by simp, rfl⟩
      have fElse := stmtsFrame orelse _ mid2 hwfElse h4
      obtain ⟨distMid2, consvE⟩ := stmtsConsv orelse _ mid2 hwfElse (by simp) hfo h4
      have hctrE : mid.ctr ≤ mid2.ctr := fElse.ctr_le
      have hexE : ∀ b ∈ mid2.exits,
          b ∈ [((ctx.ctr : Nat), some (if neg then yes else no))] ∨
          (mid.ctr ≤ b.1 ∧ b.1 < mid2.ctr) := fElse.exits_origin
      subst hctx2
      constructor
      · show DistExits (mid.exits ++ mid2.exits)
        refine List.pairwise_append.mpr ⟨distMid, distMid2, ?_⟩
        intro a ha b hb
        rcases hexB a ha with h | h
        · simp only [List.mem_singleton] at h
          subst h
          rcases hexE b hb with h2 | h2
          · simp only [List.mem_singleton] at h2
            subst h2
            intro hcon2
            exact hbodyL_ne (by simpa using hcon2.2)
          · intro hcon2
            have h1' : ctx.ctr = b.1 := hcon2.1
            omega
        · rcases hexE b hb with h2 | h2
          · simp only [List.mem_singleton] at h2
            subst h2
            intro hcon2
            have h1' : a.1 = ctx.ctr := by simpa using hcon2.1
            omega
          · intro hcon2
            have h1' : a.1 = b.1 := hcon2.1
            omega
      · intro nid hnid lf
        have hm := hmid_ctx nid hnid lf
        have he := consvE nid (show nid < mid.ctr by omega) lf
        have hz : pendCount [((ctx.ctr : Nat), some (if neg then yes else no))] nid lf = 0 :=
          pendCount_zero_of_ne _ _ _ (by
            intro nl hnl
            simp only [List.mem_singleton] at hnl
            subst hnl
            show ctx.ctr ≠ nid
            omega)
        have ha := pendCount_append mid.exits mid2.exits nid lf
        simp only [outPend] at hm he ⊢
        omega

/-- `stmtConsv` for statement lists. -/
theorem stmtsConsv (ss : List Stmt) (ctx ctx2 : BCtx) (hwf : CtxWF ctx)
    (hdis : DistExits ctx.exits) (hfrag : fragFs ss = true)
    (hrun : runStmts ss ctx = .ok ctx2) :
    DistExits ctx2.exits ∧
    ∀ nid, nid < ctx.ctr → ∀ lf, outPend ctx2 nid lf = outPend ctx nid lf := by
  cases ss with
  | nil =>
    have h := runStmts_nil_ok_elim hrun
    subst h
    exact ⟨hdis, fun _ _ _ => rfl⟩
  | cons st rest =>
    simp only [fragFs, Bool.and_eq_true] at hfrag
    obtain ⟨hf1, hf2⟩ := hfrag
    obtain ⟨mid, h1, h2⟩ := runStmts_cons_ok_elim hrun
    have f1 := stmtFrame st ctx mid hwf h1
    obtain ⟨dist1, consv1⟩ := stmtConsv st ctx mid hwf hdis hf1 h1
    obtain ⟨dist2, consv2⟩ := stmtsConsv rest mid ctx2 f1.wf dist1 hf2 h2
    refine ⟨dist2, ?_⟩
    intro nid hnid lf
    have hle := f1.ctr_le
    rw [consv2 nid (by omega) lf, consv1 nid hnid lf]

end

theorem outTotal_eq_outCount (c : FlowChart) (nid : Nat) :
    outTotal c nid = outCount c nid none := by
  simp [outTotal, outCount, outgoing, entrySel]

/-- At a decision construct in the loop-free fragment the combined
edge-plus-pending count at the decision node is one for the body-branch
label, one for the else-branch label and two overall; the body branch
carries the `no` label exactly when the condition was negated. -/
theorem if_outPend (q yes no : String) (neg : Bool) (body orelse : List Stmt)
    (ctx ctx2 : BCtx) (hwf : CtxWF ctx) (hdis : DistExits ctx.exits)
    (hfrag : fragF (.ifS q yes no neg body orelse) = true)
    (hrun : runStmt (.ifS q yes no neg body orelse) ctx = .ok ctx2) :
    outPend ctx2 ctx.ctr (some (some (if neg then no else yes))) = 1 ∧
    outPend ctx2 ctx.ctr (some (some (if neg then yes else no))) = 1 ∧
    outPend ctx2 ctx.ctr none = 2 := by
  simp only [fragF, Bool.and_eq_true, bne_iff_ne] at hfrag
  obtain ⟨⟨hyn, hfb⟩, hfo⟩ := hfrag
  obtain ⟨cA, cB, mid, h1, h2, h3, hrest⟩ := runStmt_if_ok_elim hrun
  obtain ⟨hnodes, ⟨te, hedges⟩, hlt, hsrc, htgt⟩ := nodeConnect_facts hwf h1 h2
  have hwfIn : CtxWF ⟨cB, [(ctx.ctr, some (if neg then no else yes))],
      ctx.loopStack, ctx.ctr + 1⟩ := by
    refine ⟨hlt, hsrc, htgt, ?_, ?_⟩
    · intro nl hnl
      simp only [List.mem_singleton] at hnl
      subst hnl
      rw [hnodes]
      exact ⟨⟨ctx.ctr, .decisionNode, q, []⟩, by simp, rfl⟩
    · intro hb hhb
      have hst := hwf.stack_ex hb hhb
      rw [hnodes]
      exact ⟨exists_node_append hst.1, fun nl hnl => exists_node_append (hst.2 nl hnl)⟩
  have fBody := stmtsFrame body _ mid hwfIn h3
  obtain ⟨distMid, consvB⟩ := stmtsConsv body _ mid hwfIn (by simp) hfb h3
  have hcon := outCount_nodeConnect hwf hdis h1 h2
  have hctrB : ctx.ctr + 1 ≤ mid.ctr := fBody.ctr_le
  have hbodyL_ne : (if neg then no else yes) ≠ (if neg then yes else no) := by
    cases neg
    · simpa using hyn
    · simpa using (Ne.symm hyn)
  have helseL_ne := Ne.symm hbodyL_ne
  have hmidP : ∀ lf, outPend mid ctx.ctr lf =
      pendCount [((ctx.ctr : Nat), some (if neg then no else yes))] ctx.ctr lf := by
    intro lf
    have h := consvB ctx.ctr (show ctx.ctr < ctx.ctr + 1 by omega) lf
    have hc := hcon ctx.ctr lf
    have h0o : outCount ctx.chart ctx.ctr lf = 0 := outCount_fresh hwf (le_refl _) lf
    have h0p : pendCount ctx.exits ctx.ctr lf = 0 := pendCount_fresh hwf (le_refl _) lf
    simp only [outPend] at h hc ⊢
    omega
  have hs1 : pendCount [((ctx.ctr : Nat), some (if neg then no else yes))] ctx.ctr
      (some (some (if neg then no else yes))) = 1 := by
    simp [pendCount, entrySel]
  have hs2 : pendCount [((ctx.ctr : Nat), some (if neg then no else yes))] ctx.ctr
      (some (some (if neg then yes else no))) = 0 := by
    simp [pendCount, entrySel, hbodyL_ne]
  have hs3 : pendCount [((ctx.ctr : Nat), some (if neg then no else yes))] ctx.ctr
      none = 1 := by
    simp [pendCount, entrySel]
  have ht1 : pendCount [((ctx.ctr : Nat), some (if neg then yes else no))] ctx.ctr
      (some (some (if neg then no else yes))) = 0 := by
    simp [pendCount, entrySel, helseL_ne]
  have ht2 : pendCount [((ctx.ctr : Nat), some (if neg then yes else no))] ctx.ctr
      (some (some (if neg then yes else no))) = 1 := by
    simp [pendCount, entrySel]
  have ht3 : pendCount [((ctx.ctr : Nat), some (if neg then yes else no))] ctx.ctr
      none = 1 := by
    simp [pendCount, entrySel]
  have hm1 := hmidP (some (some (if neg then no else yes)))
  have hm2 := hmidP (some (some (if neg then yes else no)))
  have hm3 := hmidP none
  rcases hrest with ⟨horel, hctx2⟩ | ⟨horel, mid2, h4, hctx2⟩
  · subst hctx2
    have ha1 := pendCount_append mid.exits
      [((ctx.ctr : Nat), some (if neg then yes else no))] ctx.ctr
      (some (some (if neg then no else yes)))
    have ha2 := pendCount_append mid.exits
      [((ctx.ctr : Nat), some (if neg then yes else no))] ctx.ctr
      (some (some (if neg then yes else no)))
    have ha3 := pendCount_append mid.exits
      [((ctx.ctr : Nat), some (if neg then yes else no))] ctx.ctr none
    simp only [outPend] at hm1 hm2 hm3 ⊢
    refine ⟨?_, ?_, ?_⟩ <;> omega
  · have hwfElse : CtxWF ⟨mid.chart, [(ctx.ctr, some (if neg then yes else no))],
        mid.loopStack, mid.ctr⟩ := by
      refine ⟨fBody.wf.node_lt, fBody.wf.src_ex, fBody.wf.tgt_ex, ?_, fBody.wf.stack_ex⟩
      intro nl hnl
      simp only [List.mem_singleton] at hnl
      subst hnl
      obtain ⟨tn, htn, _⟩ := fBody.nodes_pre
      rw [htn, hnodes]
      exact ⟨⟨ctx.ctr, .decisionNode, q, []⟩, by simp, rfl⟩
    obtain ⟨distMid2, consvE⟩ := stmtsConsv orelse _ mid2 hwfElse (by simp) hfo h4
    subst hctx2
    have hE1 := consvE ctx.ctr (show ctx.ctr < mid.ctr by omega)
      (some (some (if neg then no else yes)))
    have hE2 := consvE ctx.ctr (show ctx.ctr < mid.ctr by omega)
      (some (some (if neg then yes else no)))
    have hE3 := consvE ctx.ctr (show ctx.ctr < mid.ctr by omega) none
    have ha1 := pendCount_append mid.exits mid2.exits ctx.ctr
      (some (some (if neg then no else yes)))
    have ha2 := pendCount_append mid.exits mid2.exits ctx.ctr
      (some (some (if neg then yes else no)))
    have ha3 := pendCount_append mid.exits mid2.exits ctx.ctr none
    simp only [outPend] at hm1 hm2 hm3 hE1 hE2 hE3 ⊢
    refine ⟨?_, ?_, ?_⟩ <;> omega

mutual

/-- Every decision node created by a fragment statement ends up with a
combined count of one on each of two distinct labels and two overall. -/
theorem stmtDecisions (s : Stmt) (ctx ctx2 : BCtx) (hwf : CtxWF ctx)
    (hdis : DistExits ctx.exits) (hfrag : fragF s = true)
    (hrun : runStmt s ctx = .ok ctx2) :
    ∀ n ∈ ctx2.chart.nodes, n.kind = .decisionNode → n ∉ ctx.chart.nodes →
      ∃ l1 l2, l1 ≠ l2 ∧
        outPend ctx2 n.id (some (some l1)) = 1 ∧
        outPend ctx2 n.id (some (some l2)) = 1 ∧
        outPend ctx2 n.id none = 2 := by
  cases s with
  | step label =>
    obtain ⟨cA, cB, h1, h2, hctx2⟩ := runStmt_step_ok_elim hrun
    subst hctx2
    obtain ⟨hnodes, _, _, _, _⟩ := nodeConnect_facts hwf h1 h2
    intro n hn hk hnotin
    rw [hnodes] at hn
    rcases List.mem_append.mp hn with hn | hn
    · exact absurd hn hnotin
    · simp only [List.mem_singleton] at hn
      subst hn
      simp at hk
  | endS label =>
    obtain ⟨cA, cB, h1, h2, hctx2⟩ := runStmt_end_ok_elim hrun
    subst hctx2
    obtain ⟨hnodes, _, _, _, _⟩ := nodeConnect_facts hwf h1 h2
    intro n hn hk hnotin
    rw [hnodes] at hn
    rcases List.mem_append.mp hn with hn | hn
    · exact absurd hn hnotin
    · simp only [List.mem_singleton] at hn
      subst hn
      simp at hk
  | passS =>
    have h := runStmt_pass_ok_elim hrun
    subst h
    intro n hn _ hnotin
    exact absurd hn hnotin
  | ret => simp [fragF] at hfrag
  | brk => simp [fragF] at hfrag
  | cont => simp [fragF] at hfrag
  | whileS q yes no neg body => simp [fragF] at hfrag
  | whileTrueS body => simp [fragF] at hfrag
  | ifS q yes no neg body orelse =>
    have hfrag' := hfrag
    simp only [fragF, Bool.and_eq_true, bne_iff_ne] at hfrag'
    obtain ⟨⟨hyn, hfb⟩, hfo⟩ := hfrag'
    have hIf := if_outPend q yes no neg body orelse ctx ctx2 hwf hdis hfrag hrun
    obtain ⟨cA, cB, mid, h1, h2, h3, hrest⟩ := runStmt_if_ok_elim hrun
    obtain ⟨hnodes, ⟨te, hedges⟩, hlt, hsrc, htgt⟩ := nodeConnect_facts hwf h1 h2
    have hwfIn : CtxWF ⟨cB, [(ctx.ctr, some (if neg then no else yes))],
        ctx.loopStack, ctx.ctr + 1⟩ := by
      refine ⟨hlt, hsrc, htgt, ?_, ?_⟩
      · intro nl hnl
        simp only [List.mem_singleton] at hnl
        subst hnl
        rw [hnodes]
        exact ⟨⟨ctx.ctr, .decisionNode, q, []⟩, by simp, rfl⟩
      · intro hb hhb
        have hst := hwf.stack_ex hb hhb
        rw [hnodes]
        exact ⟨exists_node_append hst.1, fun nl hnl => exists_node_append (hst.2 nl hnl)⟩
    have fBody := stmtsFrame body _ mid hwfIn h3
    obtain ⟨distMid, consvB⟩ := stmtsConsv body _ mid hwfIn (by simp) hfb h3
    have hctrB : ctx.ctr + 1 ≤ mid.ctr := fBody.ctr_le
    obtain ⟨tnB, htnB0, hbB0⟩ := fBody.nodes_pre
    have htnB : mid.chart.nodes = cB.nodes ++ tnB := htnB0
    have hbB : ∀ n ∈ tnB, ctx.ctr + 1 ≤ n.id ∧ n.id < mid.ctr := hbB0
    have hbodyL_ne : (if neg then no else yes) ≠ (if neg then yes else no) := by
      cases neg
      · simpa using hyn
      · simpa using (Ne.symm hyn)
    have hexB : ∀ a ∈ mid.exits,
        a ∈ [((ctx.ctr : Nat), some (if neg then no else yes))] ∨
        (ctx.ctr + 1 ≤ a.1 ∧ a.1 < mid.ctr) := fBody.exits_origin
    rcases hrest with ⟨horel, hctx2⟩ | ⟨horel, mid2, h4, hctx2⟩
    · subst hctx2
      intro n hn hk hnotin
      have hn' : n ∈ mid.chart.nodes := hn
      rw [htnB] at hn'
      rcases List.mem_append.mp hn' with hcb | htb
      · rw [hnodes] at hcb
        rcases List.mem_append.mp hcb with hcb | hcb
        · exact absurd hcb hnotin
        · simp only [List.mem_singleton] at hcb
          subst hcb
          exact ⟨if neg then no else yes, if neg then yes else no, hbodyL_ne,
            hIf.1, hIf.2.1, hIf.2.2⟩
      · have hid := hbB n htb
        have hnin : n ∉ cB.nodes := by
          intro hmem
          have := hlt n hmem
          omega
        obtain ⟨l1, l2, hne, c1, c2, c3⟩ :=
          stmtsDecisions body _ mid hwfIn (by simp) hfb h3 n hn hk hnin
        have hprop : ∀ lf, outPend ⟨mid.chart,
            mid.exits ++ [(ctx.ctr, some (if neg then yes else no))],
            mid.loopStack, mid.ctr⟩ n.id lf = outPend mid n.id lf := by
          intro lf
          have hz : pendCount [((ctx.ctr : Nat), some (if neg then yes else no))]
              n.id lf = 0 :=
            pendCount_zero_of_ne _ _ _ (by
              intro nl hnl
              simp only [List.mem_singleton] at hnl
              subst hnl
              show ctx.ctr ≠ n.id
              omega)
          have ha := pendCount_append mid.exits
            [((ctx.ctr : Nat), some (if neg then yes else no))] n.id lf
          simp only [outPend]
          omega
        exact ⟨l1, l2, hne, by rw [hprop]; exact c1, by rw [hprop]; exact c2,
          by rw [hprop]; exact c3⟩
    · have hwfElse : CtxWF ⟨mid.chart, [(ctx.ctr, some (if neg then yes else no))],
          mid.loopStack, mid.ctr⟩ := by
        refine ⟨fBody.wf.node_lt, fBody.wf.src_ex, fBody.wf.tgt_ex, ?_, fBody.wf.stack_ex⟩
        intro nl hnl
        simp only [List.mem_singleton] at hnl
        subst hnl
        rw [htnB, hnodes]
        exact ⟨⟨ctx.ctr, .decisionNode, q, []⟩, by simp, rfl⟩
      have fElse := stmtsFrame orelse _ mid2 hwfElse h4
      obtain ⟨distMid2, consvE⟩ := stmtsConsv orelse _ mid2 hwfElse (by simp) hfo h4
      have hctrE : mid.ctr ≤ mid2.ctr := fElse.ctr_le
      obtain ⟨tnE, htnE0, hbE0⟩ := fElse.nodes_pre
      have htnE : mid2.chart.nodes = mid.chart.nodes ++ tnE := htnE0
      have hbE : ∀ n ∈ tnE, mid.ctr ≤ n.id ∧ n.id < mid2.ctr := hbE0
      subst hctx2
      intro n hn hk hnotin
      have hprop : ∀ nid, ctx.ctr < nid → nid < mid.ctr → ∀ lf, outPend ⟨mid2.chart,
          mid.exits ++ mid2.exits, mid2.loopStack, mid2.ctr⟩ nid lf =
          outPend mid nid lf := by
        intro nid hgt hnid lf
        have he := consvE nid (show nid < mid.ctr from hnid) lf
        have hz : pendCount [((ctx.ctr : Nat), some (if neg then yes else no))]
            nid lf = 0 :=
          pendCount_zero_of_ne _ _ _ (by
            intro nl hnl
            simp only [List.mem_singleton] at hnl
            subst hnl
            show ctx.ctr ≠ nid
            omega)
        have ha := pendCount_append mid.exits mid2.exits nid lf
        simp only [outPend] at he hz ⊢
        omega
      have hn' : n ∈ mid2.chart.nodes := hn
      rw [htnE] at hn'
      rcases List.mem_append.mp hn' with hmm | hte
      · -- created at or before `mid`
        have hnlt : n.id < mid.ctr := fBody.wf.node_lt n hmm
        have hmm' := hmm
        rw [htnB] at hmm'
        rcases List.mem_append.mp hmm' with hcb | htb
        · rw [hnodes] at hcb
          rcases List.mem_append.mp hcb with hcb | hcb
          · exact absurd hcb hnotin
          · simp only [List.mem_singleton] at hcb
            subst hcb
            exact ⟨if neg then no else yes, if neg then yes else no, hbodyL_ne,
              hIf.1, hIf.2.1, hIf.2.2⟩
        · have hid := hbB n htb
          have hnin : n ∉ cB.nodes := by
            intro hmem
            have := hlt n hmem
            omega
          obtain ⟨l1, l2, hne, c1, c2, c3⟩ :=
            stmtsDecisions body _ mid hwfIn (by simp) hfb h3 n hmm hk hnin
          have hgt : ctx.ctr < n.id := by omega
          exact ⟨l1, l2, hne, by rw [hprop n.id hgt hnlt]; exact c1,
            by rw [hprop n.id hgt hnlt]; exact c2, by rw [hprop n.id hgt hnlt]; exact c3⟩
      · -- created by the else branch
        have hid := hbE n hte
        have hnin : n ∉ mid.chart.nodes := by
          intro hmem
          have := fBody.wf.node_lt n hmem
          omega
        obtain ⟨l1, l2, hne, c1, c2, c3⟩ :=
          stmtsDecisions orelse _ mid2 hwfElse (by simp) hfo h4 n hn hk hnin
        have hpropE : ∀ lf, outPend ⟨mid2.chart,
            mid.exits ++ mid2.exits, mid2.loopStack, mid2.ctr⟩ n.id lf =
            outPend mid2 n.id lf := by
          intro lf
          have hz : pendCount mid.exits n.id lf = 0 :=
            pendCount_zero_of_ne _ _ _ (by
              intro nl hnl
              rcases hexB nl hnl with h | h
              · simp only [List.mem_singleton] at h
                subst h
                show ctx.ctr ≠ n.id
                omega
              · omega)
          have ha := pendCount_append mid.exits mid2.exits n.id lf
          simp only [outPend]
          omega
        exact ⟨l1, l2, hne, by rw [hpropE]; exact c1, by rw [hpropE]; exact c2,
          by rw [hpropE]; exact c3⟩

/-- `stmtDecisions` for statement lists. -/
theorem stmtsDecisions (ss : List Stmt) (ctx ctx2 : BCtx) (hwf : CtxWF ctx)
    (hdis : DistExits ctx.exits) (hfrag : fragFs ss = true)
    (hrun : runStmts ss ctx = .ok ctx2) :
    ∀ n ∈ ctx2.chart.nodes, n.kind = .decisionNode → n ∉ ctx.chart.nodes →
      ∃ l1 l2, l1 ≠ l2 ∧
        outPend ctx2 n.id (some (some l1)) = 1 ∧
        outPend ctx2 n.id (some (some l2)) = 1 ∧
        outPend ctx2 n.id none = 2 := by
  cases ss with
  | nil =>
    have h := runStmts_nil_ok_elim hrun
    subst h
    intro n hn _ hnotin
    exact absurd hn hnotin
  | cons st rest =>
    simp only [fragFs, Bool.and_eq_true] at hfrag
    obtain ⟨hf1, hf2⟩ := hfrag
    obtain ⟨mid, h1, h2⟩ := runStmts_cons_ok_elim hrun
    have f1 := stmtFrame st ctx mid hwf h1
    obtain ⟨dist1, consv1⟩ := stmtConsv st ctx mid hwf hdis hf1 h1
    intro n hn hk hnotin
    by_cases hmem : n ∈ mid.chart.nodes
    · obtain ⟨l1, l2, hne, c1, c2, c3⟩ :=
        stmtDecisions st ctx mid hwf hdis hf1 h1 n hmem hk hnotin
      obtain ⟨dist2, consv2⟩ := stmtsConsv rest mid ctx2 f1.wf dist1 hf2 h2
      have hid : n.id < mid.ctr := f1.wf.node_lt n hmem
      exact ⟨l1, l2, hne, by rw [consv2 n.id hid]; exact c1,
        by rw [consv2 n.id hid]; exact c2, by rw [consv2 n.id hid]; exact c3⟩
    · exact stmtsDecisions rest mid ctx2 f1.wf dist1 hf2 h2 n hn hk hmem

end

/-- Every decision node of a flow built from the loop-free fragment has one
outgoing edge on each of two distinct labels and exactly two in total. -/
theorem buildFlow_decisions (name : String) (stmts : List Stmt) (c : FlowChart)
    (hfrag : fragFs stmts = true) (hbuild : buildFlow name stmts = .ok c) :
    ∀ n ∈ c.nodes, n.kind = .decisionNode →
      ∃ l1 l2, l1 ≠ l2 ∧ outCount c n.id (some (some l1)) = 1 ∧
        outCount c n.id (some (some l2)) = 1 ∧ outTotal c n.id = 2 := by
  simp only [buildFlow, bind, Except.bind] at hbuild
  split at hbuild
  · exact absurd hbuild (by simp)
  · rename_i cS h1
    split at hbuild
    · exact absurd hbuild (by simp)
    · rename_i ctxF h2
      obtain ⟨hnS, heS⟩ := addNodeE_ok_elim h1
      simp only [List.nil_append] at hnS
      have hwf0 : CtxWF ⟨cS, [(1, none)], [], 2⟩ := by
        refine ⟨?_, ?_, ?_, ?_, ?_⟩
        · intro n hn
          rw [hnS] at hn
          simp only [List.mem_singleton] at hn
          subst hn
          show 1 < 2
          omega
        · intro e he
          rw [heS] at he
          simp at he
        · intro e he
          rw [heS] at he
          simp at he
        · intro nl hnl
          simp only [List.mem_singleton] at hnl
          subst hnl
          exact ⟨⟨1, .startNode, name, []⟩, by rw [hnS]; simp, rfl⟩
        · intro hb hhb
          simp at hhb
      have hdis0 : DistExits [((1 : Nat), (none : Option String))] := by simp
      have hD := stmtsDecisions stmts _ ctxF hwf0 hdis0 hfrag h2
      obtain ⟨distF, _⟩ := stmtsConsv stmts _ ctxF hwf0 hdis0 hfrag h2
      have fF := stmtsFrame stmts _ ctxF hwf0 h2
      have hnotin : ∀ n : Node, n.kind = .decisionNode → n ∉ cS.nodes := by
        intro n hk hmem
        rw [hnS] at hmem
        simp only [List.mem_singleton] at hmem
        subst hmem
        simp at hk
      split at hbuild
      · rename_i hemp
        simp only [Except.ok.injEq] at hbuild
        subst hbuild
        intro n hn hk
        obtain ⟨l1, l2, hne, c1, c2, c3⟩ := hD n hn hk (hnotin n hk)
        have hex : ctxF.exits = [] := List.isEmpty_iff.mp hemp
        have hzp : ∀ lf, pendCount ctxF.exits n.id lf = 0 := by
          intro lf
          rw [hex]
          rfl
        simp only [outPend] at c1 c2 c3
        have hz1 := hzp (some (some l1))
        have hz2 := hzp (some (some l2))
        have hz3 := hzp none
        refine ⟨l1, l2, hne, by omega, by omega, ?_⟩
        rw [outTotal_eq_outCount]
        omega
      · rename_i hemp
        split at hbuild
        · exact absurd hbuild (by simp)
        · rename_i c2' h3
          split at hbuild
          · exact absurd hbuild (by simp)
          · rename_i c3 h4
            simp only [Except.ok.injEq] at hbuild
            subst hbuild
            have hconF := outCount_nodeConnect fF.wf distF h3 h4
            obtain ⟨hn3, _⟩ := addNodeE_ok_elim h3
            obtain ⟨hn4, _, _⟩ := connectExits_ok_elim ctxF.exits ctxF.ctr c2' c3 h4
            intro n hn hk
            have hmemF : n ∈ ctxF.chart.nodes := by
              rw [hn4, hn3] at hn
              rcases List.mem_append.mp hn with hn | hn
              · exact hn
              · simp only [List.mem_singleton] at hn
                subst hn
                simp at hk
            obtain ⟨l1, l2, hne, c1, c2, c3x⟩ := hD n hmemF hk (hnotin n hk)
            simp only [outPend] at c1 c2 c3x
            have hc1 := hconF n.id (some (some l1))
            have hc2 := hconF n.id (some (some l2))
            have hc3 := hconF n.id none
            refine ⟨l1, l2, hne, by omega, by omega, ?_⟩
            rw [outTotal_eq_outCount]
            omega

/-- C4 counterexample: `if Q: return else: A` is a two-sided decision, yet
the built decision node (id 2) has a single outgoing edge — the bare
`return` discards the body branch's pending edge, so "exactly two outgoing
edges" fails as stated. -/
theorem decision_two_edges_counterexample :
    ∃ c, buildFlow "F" [.ifS "Q" "Yes" "No" false [.ret] [.step "A"]] = .ok c ∧
      (⟨2, .decisionNode, "Q", []⟩ : Node) ∈ c.nodes ∧
      outTotal c 2 = 1 := ⟨_, rfl, by decide, by decide⟩

/-- C4 (amended): restricted to the loop-free, return-free statement
fragment with distinct branch labels, every decision node of a built flow
has exactly two outgoing edges, one on each of two distinct labels; and at
every decision construct the combined edge/pending count at the decision is
one for the body-branch label and one for the else-branch label, where the
body branch carries the `no` label exactly when the condition was negated
and the `yes` label otherwise. -/
theorem decision_two_edges :
    (∀ (name : String) (stmts : List Stmt) (c : FlowChart),
      fragFs stmts = true → buildFlow name stmts = .ok c →
      ∀ n ∈ c.nodes, n.kind = .decisionNode →
        ∃ l1 l2, l1 ≠ l2 ∧ outCount c n.id (some (some l1)) = 1 ∧
          outCount c n.id (some (some l2)) = 1 ∧ outTotal c n.id = 2) ∧
    (∀ (q yes no : String) (neg : Bool) (body orelse : List Stmt) (ctx ctx2 : BCtx),
      CtxWF ctx → DistExits ctx.exits →
      fragF (.ifS q yes no neg body orelse) = true →
      runStmt (.ifS q yes no neg body orelse) ctx = .ok ctx2 →
      outPend ctx2 ctx.ctr (some (some (if neg then no else yes))) = 1 ∧
      outPend ctx2 ctx.ctr (some (some (if neg then yes else no))) = 1 ∧
      outPend ctx2 ctx.ctr none = 2) :=
  ⟨buildFlow_decisions, if_outPend⟩

/-- C4 witness: a negated two-sided decision `if not Q: A else: B`; the
decision node gets exactly two outgoing edges, and the body branch carries
the "No" label while the else branch carries "Yes". -/
theorem decision_two_edges_witness :
    fragFs [.ifS "Q" "Yes" "No" true [.step "A"] [.step "B"]] = true ∧
    (∃ c, buildFlow "FW" [.ifS "Q" "Yes" "No" true [.step "A"] [.step "B"]] = .ok c ∧
      (⟨2, .decisionNode, "Q", []⟩ : Node) ∈ c.nodes ∧
      ∃ l1 l2, l1 ≠ l2 ∧ outCount c 2 (some (some l1)) = 1 ∧
        outCount c 2 (some (some l2)) = 1 ∧ outTotal c 2 = 2) ∧
    (∃ ctx2, runStmt (.ifS "Q" "Yes" "No" true [.step "A"] [.step "B"])
        ⟨⟨0, "FW", [⟨1, .startNode, "FW", []⟩], [], []⟩, [(1, none)], [], 2⟩ = .ok ctx2 ∧
      outPend ctx2 2 (some (some "No")) = 1 ∧
      outPend ctx2 2 (some (some "Yes")) = 1 ∧
      outPend ctx2 2 none = 2) := by
  refine ⟨rfl, ⟨_, rfl, by decide, ?_⟩, ⟨_, rfl, ?_⟩⟩
  · exact decision_two_edges.1 "FW" [.ifS "Q" "Yes" "No" true [.step "A"] [.step "B"]] _
      rfl rfl ⟨2, .decisionNode, "Q", []⟩ (by decide) rfl
  · exact decision_two_edges.2 "Q" "Yes" "No" true [.step "A"] [.step "B"]
      ⟨⟨0, "FW", [⟨1, .startNode, "FW", []⟩], [], []⟩, [(1, none)], [], 2⟩ _
      ⟨by decide, by decide, by decide, by decide, by decide⟩ (by decide) rfl rfl

/-! ### Circular subflow collection -/

set_option maxRecDepth 4000 in
theorem cycle_build : ensureBuilt cycleDefs (fuelOf cycleDefs) 0
    ⟨List.replicate cycleDefs.length none, List.replicate cycleDefs.length false,
      List.replicate cycleDefs.length []⟩ = .ok cycleSt := rfl

set_option maxRecDepth 4000 in
theorem cycle_collect : multiChartOf cycleDefs cycleSt 0 =
    .error (.duplicateChartId 0) := rfl

set_option maxRecDepth 4000 in
theorem main_build : ensureBuilt mainDefs (fuelOf mainDefs) 0
    ⟨List.replicate mainDefs.length none, List.replicate mainDefs.length false,
      List.replicate mainDefs.length []⟩ = .ok mainSt := rfl

set_option maxRecDepth 4000 in
theorem main_collect : multiChartOf mainDefs mainSt 0 = .ok mainMulti := rfl

/-- C5: the lazy build of the two-flow cycle terminates (the re-entrancy
guard leaves `B`'s link to `A` without a target, to be fixed up later), but
collecting the referenced charts from cycle member `A` raises DuplicateId —
the walk follows `A to B to A` and re-adds the root chart — instead of
returning the specified MultiGraph; collected from a main flow one level
above the same cycle, collection succeeds, every chart is present, and the
name-resolution pass leaves every subflow link with a non-null target chart
id present in the multi chart. -/
theorem circular_collect_crash :
    (ensureBuilt cycleDefs (fuelOf cycleDefs) 0
      ⟨List.replicate cycleDefs.length none, List.replicate cycleDefs.length false,
        List.replicate cycleDefs.length []⟩ = .ok cycleSt ∧
     ∃ cB, cycleSt.charts.getD 1 none = some cB ∧
       (⟨3, .subFlowNode none, "A", []⟩ : Node) ∈ cB.nodes) ∧
    collectScenario cycleDefs 0 = .error (.duplicateChartId 0) ∧
    (collectScenario mainDefs 0 = .ok mainMulti ∧
      (mainMulti.get_chart 1).isSome = true ∧
      (mainMulti.get_chart 2).isSome = true ∧
      mainMulti.main_chart_id = some 0 ∧
      targetsResolved mainMulti = true) := by
  refine ⟨⟨cycle_build, ?_⟩, ?_, ?_, ?_⟩
  · exact ⟨_, rfl, by decide⟩
  · show collectScenario cycleDefs 0 = .error (.duplicateChartId 0)
    simp only [collectScenario, bind, Except.bind]
    rw [cycle_build]
    exact cycle_collect
  · show collectScenario mainDefs 0 = .ok mainMulti
    simp only [collectScenario, bind, Except.bind]
    rw [main_build]
    exact main_collect
  · exact ⟨by decide, by decide, rfl, by decide⟩

end Flowly

